import Mathlib

/-!
# cosmos-tax-cli: the indexing pipeline

A shallow embedding of `core/tx.go` (message registry, transaction parser, fee
attribution) and of `cmd/index.go` (channels and workers of `index`, block
enqueuer, tx workers, block-event and epoch-event loops, database writer), with
the properties of the pipeline proved over it.

Conventions of the embedding

* A Go `error` is a `GoError`; a nil error is `none`.
* `config.Log.Fatal` and a run-time panic end the process: functions that can
  reach one return `Except Abort _`.
* Global mutable state (`messageTypeHandler`, `allSwaps`, the database and its
  denomination cache) is passed explicitly.
* Code of other packages (the Cosmos SDK, the RPC client, the `db` package) is
  taken as a parameter, collected in `Env`. The one library call modelled by
  what it does is `ScanRows` on an integer, which moves the cursor of the loop
  around it.
* Block heights and counters are `int64` and `int` in the source and integers
  here: the code compares them and adds one to them, far below `2 ^ 63`.
* A loop that need not end is run for a given number of rounds (`fuel`), and
  what it waits for (the node, the workers, the scheduler) is a parameter.
-/

set_option autoImplicit false
set_option linter.dupNamespace false

namespace CosmosTaxCli

/-! ## Errors and process termination -/

/-- A Go `error` value. `txTypes.ErrUnknownMessage` is a package-level sentinel
compared by identity; every other error is told apart by its `Error()` text. -/
inductive GoError where
  | ErrUnknownMessage
  | errorString (msg : String)
  deriving DecidableEq, Repr

/-- The ways the process ends early: `config.Log.Fatal*` and a Go panic. -/
inductive Abort where
  | fatal (msg : String)
  | panic (msg : String)
  deriving DecidableEq, Repr

/-! ## Messages, logs and decoders -/

/-- A `types.Msg`: only its type URL (`types.MsgTypeURL`) and its encoded body. -/
structure Msg where
  typeURL : String
  body : List Nat
  deriving DecidableEq, Repr

/-- An attribute of `txTypes`, also used for `types.Attribute` of the SDK. -/
structure Attribute where
  Key : String
  Value : String
  deriving DecidableEq, Repr

/-- The SDK event `types.StringEvent`. -/
structure StringEvent where
  Type_ : String
  Attributes : List Attribute
  deriving DecidableEq, Repr

/-- The SDK log entry `types.ABCIMessageLog`. -/
structure ABCIMessageLog where
  MsgIndex : Nat
  Log : String
  Events : List StringEvent
  deriving DecidableEq, Repr

/-- The indexer event `txTypes.LogMessageEvent`. -/
structure LogMessageEvent where
  Type_ : String
  Attributes : List Attribute
  deriving DecidableEq, Repr

/-- The indexer log entry `txTypes.LogMessage`. -/
structure LogMessage where
  MessageIndex : Nat
  Events : List LogMessageEvent
  deriving DecidableEq, Repr

/-- A coin of the SDK: `Amount` is an `sdk.Int`, an arbitrary integer. -/
structure Coin where
  Denom : String
  Amount : Int
  deriving DecidableEq, Repr

/-- The record `txTypes.MessageRelevantInformation` a decoder reports. The two
amounts are `*big.Int` and may be nil. -/
structure MessageRelevantInformation where
  SenderAddress : String
  ReceiverAddress : String
  AmountSent : Option Int
  AmountReceived : Option Int
  DenominationSent : String
  DenominationReceived : String
  deriving DecidableEq, Repr

/-- A decoder behind the interface `txTypes.CosmosMessage`, seen through what
the parser reads from it: the results of `GetType()` and `ParseRelevantData()`,
and, when its dynamic type is `*gamm.WrapperMsgSwapExactAmountIn`, the fields
`TokenIn` and `TokenOut`. -/
structure CosmosMessage where
  GetType : String
  ParseRelevantData : List MessageRelevantInformation
  swapExactAmountIn : Option (Coin × Coin)
  deriving DecidableEq, Repr

/-- An entry of a handler list, `func() txTypes.CosmosMessage`: `create` is the
decoder a call returns, `HandleMsg` the method of that decoder, which fills the
decoder in and returns an error or nil. Decoders read the message and the log
they are offered and do not write to them. -/
structure HandlerFunc where
  create : CosmosMessage
  HandleMsg : CosmosMessage → String → Msg → LogMessage → CosmosMessage × Option GoError

/-- The global `messageTypeHandler`, a Go map from type URL to handler list. -/
abbrev Registry := String → Option (List HandlerFunc)

/-- The value of the global `messageTypeHandler` when the program starts, the
map literal of lines 43 to 55: every entry of the literal is a type URL with a
list of exactly one factory. The eleven type URLs are constants of other
packages and the factories return decoders defined there, so the entries are
the parameter `core`: the type URL and the one factory of each. -/
def initialMessageTypeHandler (core : List (String × HandlerFunc)) : Registry :=
  fun key => (core.find? fun e => e.1 == key).map fun e => [e.2]

/-- The assignment `messageTypeHandler[key] = value`. -/
def Registry.set (reg : Registry) (key : String) (value : List HandlerFunc) : Registry :=
  fun k => if k = key then some value else reg k

/-- A Go map literal from type URL to handler list, as the chain packages
export it: the entries in some iteration order, the keys pairwise distinct. -/
structure HandlerTable where
  entries : List (String × List HandlerFunc)
  nodup : (entries.map Prod.fst).Nodup

/-- The nil map: ranging over it visits nothing. -/
def HandlerTable.nil : HandlerTable := ⟨[], List.nodup_nil⟩

/-- Looking a key up in a table. -/
def HandlerTable.get (t : HandlerTable) (key : String) : Option (List HandlerFunc) :=
  (t.entries.find? (fun e => e.1 == key)).map Prod.snd

/-- One iteration of the range loop of `ChainSpecificMessageTypeHandlerBootstrap`. -/
def bootstrapStep (reg : Registry) (e : String × List HandlerFunc) : Registry :=
  match reg e.1 with
  | some list => reg.set e.1 (e.2 ++ list)
  | none => reg.set e.1 e.2

/-- Merge the chain specific handlers into `messageTypeHandler`. The constants
`osmosis.ChainID` and `osmosis.MessageTypeHandler` belong to another package
and are parameters. Returns the registry after the call. -/
def ChainSpecificMessageTypeHandlerBootstrap (osmosisChainID : String)
    (osmosisMessageTypeHandler : HandlerTable) (messageTypeHandler : Registry)
    (chainID : String) : Registry :=
  let chainSpecificMessageTpeHandler : HandlerTable :=
    if chainID = osmosisChainID then osmosisMessageTypeHandler else HandlerTable.nil
  chainSpecificMessageTpeHandler.entries.foldl bootstrapStep messageTypeHandler

/-- What `ParseCosmosMessage` returns, `(msgHandler, type, err)`, together with
the record of the calls it made: `invoked` lists, in order, the index of each
handler whose `HandleMsg` was called and the decoder it was called on. -/
structure ParseResult where
  msgHandler : Option CosmosMessage
  msgType : String
  err : Option GoError
  invoked : List (Nat × CosmosMessage)
  deriving DecidableEq, Repr

/-- The `for _, handlerFunc := range handlerList` loop of `ParseCosmosMessage`:
`idx` is the index of the head of the remaining list, `msgHandler` and `err`
the values of the two variables on entry. -/
def handlerLoop (typ : String) (message : Msg) (log : LogMessage) :
    Nat → List HandlerFunc → Option CosmosMessage → Option GoError →
    List (Nat × CosmosMessage) → ParseResult
  | _, [], msgHandler, err, calls => ⟨msgHandler, typ, err, calls⟩
  | idx, handlerFunc :: rest, _, _, calls =>
    let fresh := handlerFunc.create
    let r := handlerFunc.HandleMsg fresh typ message log
    match r.2 with
    | none => ⟨some r.1, typ, none, calls ++ [(idx, fresh)]⟩
    | some e => handlerLoop typ message log (idx + 1) rest (some r.1) (some e)
        (calls ++ [(idx, fresh)])

/-- Parse a single Cosmos message into the appropriate type. -/
def ParseCosmosMessage (messageTypeHandler : Registry) (message : Msg) (log : LogMessage) :
    ParseResult :=
  let typ := message.typeURL
  match messageTypeHandler typ with
  | none => ⟨none, typ, some GoError.ErrUnknownMessage, []⟩
  | some handlerList => handlerLoop typ message log 0 handlerList none none []

/-! ## Transactions as the SDK decodes them -/

/-- The sign modes of the SDK (`signing.SignMode`). -/
inductive SignMode where
  | SIGN_MODE_UNSPECIFIED
  | SIGN_MODE_DIRECT
  | SIGN_MODE_TEXTUAL
  | SIGN_MODE_DIRECT_AUX
  | SIGN_MODE_LEGACY_AMINO_JSON
  | SIGN_MODE_EIP_191
  deriving DecidableEq, Repr

/-- The name the protobuf text format prints for a sign mode. -/
def SignMode.name : SignMode → String
  | .SIGN_MODE_UNSPECIFIED => "SIGN_MODE_UNSPECIFIED"
  | .SIGN_MODE_DIRECT => "SIGN_MODE_DIRECT"
  | .SIGN_MODE_TEXTUAL => "SIGN_MODE_TEXTUAL"
  | .SIGN_MODE_DIRECT_AUX => "SIGN_MODE_DIRECT_AUX"
  | .SIGN_MODE_LEGACY_AMINO_JSON => "SIGN_MODE_LEGACY_AMINO_JSON"
  | .SIGN_MODE_EIP_191 => "SIGN_MODE_EIP_191"

/-- The `ModeInfo` of a signer: a single sign mode, or a multisig with the mode
infos of its signers. -/
inductive ModeInfo where
  | single (mode : SignMode)
  | multi (modeInfos : List ModeInfo)

mutual
/-- The compact protobuf text of a `ModeInfo` message. A field holding the zero
value of its type is not printed. The bit array of a multisig mode info is left
out of the rendering. -/
def ModeInfo.text : ModeInfo → String
  | .single m =>
    "single:<" ++ (if m = SignMode.SIGN_MODE_UNSPECIFIED then "" else "mode:" ++ m.name ++ " ")
      ++ "> "
  | .multi ms => "multi:<" ++ modeInfosText ms ++ "> "
/-- The compact protobuf text of the repeated field `mode_infos`. -/
def modeInfosText : List ModeInfo → String
  | [] => ""
  | m :: ms => "mode_infos:<" ++ m.text ++ "> " ++ modeInfosText ms
end

/-- The value of `ModeInfo.GetMulti().String()`: `GetMulti` returns nil on a nil
mode info and on a single one, and the text of a nil message is `<nil>`. -/
def ModeInfo.multiString : Option ModeInfo → String
  | some (.multi ms) => modeInfosText ms
  | _ => "<nil>"

/-- A public key (`cryptoTypes.PubKey`), through its `Bytes()`; a byte is a
natural number read modulo 256. -/
structure PubKey where
  Bytes : List Nat
  deriving DecidableEq, Repr

/-- What `PublicKey.GetCachedValue()` can hold: nothing that is a public key, a
plain public key, or a `*multisig.LegacyAminoPubKey`, which is a public key
itself (`key`) and has the inner keys `GetPubKeys()`. -/
inductive CachedKey where
  | notAKey
  | pubKey (key : PubKey)
  | legacyAminoPubKey (key : PubKey) (pubKeys : List PubKey)
  deriving DecidableEq, Repr

/-- A signer info of the auth info. `PublicKey` is a pointer to an `Any`: `none`
is the nil pointer, `some none` an `Any` without cached value. -/
structure SignerInfo where
  PublicKey : Option (Option CachedKey)
  ModeInfo : Option ModeInfo

/-- The fee of the auth info: `Payer` is what `GetPayer()` returns. -/
structure Fee where
  Amount : List Coin
  Payer : String
  deriving DecidableEq, Repr

/-- The `cosmosTx.AuthInfo` of a transaction. -/
structure AuthInfo where
  SignerInfos : List SignerInfo
  Fee : Fee

/-- An account address (`types.AccAddress`), a byte string. -/
structure AccAddress where
  bytes : List Nat
  deriving DecidableEq, Repr

/-- A `time.Time`, as seconds since the epoch. -/
structure Time where
  unix : Int
  deriving DecidableEq, Repr

/-- The zero `time.Time`. -/
def Time.zero : Time := ⟨0⟩

/-! ## Rows handed to the database writer -/

/-- The row `dbTypes.Denom`. -/
structure Denom where
  ID : Nat
  Base : String
  deriving DecidableEq, Repr

/-- The row `dbTypes.Address`. -/
structure Address where
  Address : String
  deriving DecidableEq, Repr

/-- The row `dbTypes.Fee`; the amount is a decimal holding an integer. -/
structure DbFee where
  Amount : Int
  Denomination : Denom
  PayerAddress : Address
  deriving DecidableEq, Repr

/-- The row `dbTypes.TaxableTx`. -/
structure TaxableTx where
  AmountSent : Int
  AmountReceived : Int
  DenominationSent : Denom
  DenominationReceived : Denom
  deriving DecidableEq, Repr

/-- The wrapper `dbTypes.TaxableTxDBWrapper`. -/
structure TaxableTxDBWrapper where
  TaxableTx : TaxableTx
  SenderAddress : Address
  ReceiverAddress : Address
  deriving DecidableEq, Repr

/-- The row `dbTypes.MessageType`. -/
structure MessageType where
  MessageType : String
  deriving DecidableEq, Repr

/-- The row `dbTypes.Message`. -/
structure Message where
  MessageIndex : Nat
  MessageType : MessageType
  deriving DecidableEq, Repr

/-- The wrapper `dbTypes.MessageDBWrapper`. -/
structure MessageDBWrapper where
  Message : Message
  TaxableTxs : List TaxableTxDBWrapper
  deriving DecidableEq, Repr

/-- The row `dbTypes.Tx`. -/
structure Tx where
  Hash : String
  Code : Nat
  Fees : List DbFee
  deriving DecidableEq, Repr

/-- The wrapper `dbTypes.TxDBWrapper`. -/
structure TxDBWrapper where
  Tx : Tx
  SignerAddress : Address
  Messages : List MessageDBWrapper
  deriving DecidableEq, Repr

/-- The zero value of `dbTypes.Denom`. -/
def Denom.zero : Denom := ⟨0, ""⟩

/-- The zero value of `dbTypes.TaxableTxDBWrapper`, an element of a fresh `make`. -/
def TaxableTxDBWrapper.zero : TaxableTxDBWrapper :=
  ⟨⟨0, 0, Denom.zero, Denom.zero⟩, ⟨""⟩, ⟨""⟩⟩

/-- The zero value of `dbTypes.TxDBWrapper`. -/
def TxDBWrapper.zero : TxDBWrapper := ⟨⟨"", 0, []⟩, ⟨""⟩, []⟩

/-- An entry of the global `allSwaps` (`gamm.ArbitrageTx`). -/
structure ArbitrageTx where
  TokenIn : Coin
  TokenOut : Coin
  BlockTime : Time
  deriving DecidableEq, Repr

/-! ## The indexer's own transaction types (`txTypes`) -/

/-- The body `txTypes.Body`. -/
structure Body where
  Messages : List Msg
  deriving DecidableEq, Repr

/-- The transaction `txTypes.IndexerTx`. -/
structure IndexerTx where
  Body : Body
  AuthInfo : AuthInfo
  Signers : List AccAddress

/-- The response `txTypes.Response`. -/
structure Response where
  TxHash : String
  Height : String
  TimeStamp : String
  RawLog : String
  Log : List LogMessage
  Code : Nat
  deriving DecidableEq, Repr

/-- The pair `txTypes.MergedTx`. -/
structure MergedTx where
  Tx : IndexerTx
  TxResponse : Response

/-! ## Code of other packages -/

/-- A raw transaction of a block (`tendermint/types.Tx`), a byte string. -/
structure RawTx where
  bytes : List Nat
  deriving DecidableEq, Repr

/-- A transaction as the codec decodes it (`cosmosTx.Tx`). `Messages` holds the
cached value of each `Any` of the body, `none` where it is absent; `GetSigners`
and `FeePayer` are the values of the SDK methods of these names. -/
structure CosmosTx where
  Messages : List (Option Msg)
  AuthInfo : AuthInfo
  GetSigners : List AccAddress
  FeePayer : AccAddress

/-- The functions of other packages the parser calls, over a database state
`σ` (the tables and the denomination cache). -/
structure Env (σ : Type) where
  /-- The function `dbTypes.GetDenomForBase`, a lookup in the denomination cache. -/
  GetDenomForBase : σ → String → Except GoError Denom
  /-- The function `dbTypes.AddUnknownDenom`, which writes to the database. -/
  AddUnknownDenom : σ → String → Except GoError Denom × σ
  /-- The function `core.ParseSignerAddress`, from a hex public key to a bech32 address. -/
  ParseSignerAddress : String → String → Except GoError String
  /-- The method `types.AccAddress.String`, the bech32 text of an address. -/
  AccAddressString : AccAddress → String
  /-- The function `txTypes.GetMessageLogForIndex`; `none` is the nil pointer. -/
  GetMessageLogForIndex : List LogMessage → Nat → Option LogMessage
  /-- The function `strings.ToLower`. -/
  ToLower : String → String
  /-- The call `time.Parse(time.RFC3339, _)`. -/
  timeParse : String → Except GoError Time
  /-- The call `Time.Format(time.RFC3339)`. -/
  timeFormat : Time → String
  /-- The codec's `TxDecoder()`, followed by the read of the wrapped `*cosmosTx.Tx`. -/
  TxDecoder : RawTx → Except GoError CosmosTx
  /-- The function `types.ParseABCILogs`. -/
  ParseABCILogs : String → Except GoError (List ABCIMessageLog)
  /-- The method `tendermint/types.Tx.Hash`, the bytes of the hash. -/
  TxHash : RawTx → List Nat
  /-- The function `dbTypes.UpsertFailedBlock`. -/
  UpsertFailedBlock : σ → Int → Option GoError × σ

/-- Modelled from the spec: `util.ToNumeric` is not among the sources; a fee
and a taxable amount are stored as the decimal with the value of the integer
they come from. -/
def ToNumeric (i : Int) : Int := i

/-- The test `strings.Contains` on the characters of the two strings. -/
def containsChars : List Char → List Char → Bool
  | [], substr => substr.isEmpty
  | c :: cs, substr => substr.isPrefixOf (c :: cs) || containsChars cs substr

/-- The library function `strings.Contains`. -/
def stringsContains (s substr : String) : Bool := containsChars s.toList substr.toList

/-- A hexadecimal digit, lower case. -/
def hexDigit (n : Nat) : Char := "0123456789abcdef".toList.getD n '0'

/-- The characters of `hex.EncodeToString`. -/
def hexChars : List Nat → List Char
  | [] => []
  | b :: bs => hexDigit (b % 256 / 16) :: hexDigit (b % 16) :: hexChars bs

/-- The library function `hex.EncodeToString`. -/
def hexEncodeToString (bs : List Nat) : String := String.mk (hexChars bs)

/-! ## Fees -/

section Parser

variable {σ : Type}

/-- The denomination lookup `ProcessFees` and `ProcessTx` both do: ask the
cache, and on a miss insert the base as an unknown denomination. -/
def lookupOrAddDenom (env : Env σ) (db : σ) (base : String) : Except GoError Denom × σ :=
  match env.GetDenomForBase db base with
  | .ok denom => (.ok denom, db)
  | .error _ => env.AddUnknownDenom db base

/-- The public key the payer address is derived from, inside `ProcessFees`: the
first inner key of a legacy multisig when the text of the multi mode info has a
legacy-amino sign mode, else the cached key itself. A failing type assertion
and an empty key list panic; so does a nil `PublicKey`, whose cached value is
read as nil here. -/
def signerPubKey (first : SignerInfo) : Except Abort PubKey :=
  let cpk : Option CachedKey := first.PublicKey.join
  if stringsContains (ModeInfo.multiString first.ModeInfo) "mode:SIGN_MODE_LEGACY_AMINO_JSON" then
    match cpk with
    | some (.legacyAminoPubKey _ (k :: _)) => .ok k
    | some (.legacyAminoPubKey _ []) => .error (.panic "index out of range [0] with length 0")
    | _ => .error (.panic "interface conversion: not *multisig.LegacyAminoPubKey")
  else
    match cpk with
    | some (.pubKey k) => .ok k
    | some (.legacyAminoPubKey k _) => .ok k
    | _ => .error (.panic "interface conversion: not cryptoTypes.PubKey")

/-- The payer address of a fee, lines 525 to 549 of `ProcessFees`. -/
def payerAddr (env : Env σ) (authInfo : AuthInfo) (signers : List AccAddress) :
    Except Abort Address :=
  if authInfo.Fee.Payer ≠ "" then .ok ⟨authInfo.Fee.Payer⟩
  else
    match authInfo.SignerInfos with
    | [] => .error (.panic "index out of range [0] with length 0")
    | first :: _ =>
      match first.PublicKey, signers with
      | none, s :: _ => .ok ⟨env.AccAddressString s⟩
      | _, _ =>
        match signerPubKey first with
        | .error a => .error a
        | .ok pubKey =>
          let hexPub := hexEncodeToString pubKey.Bytes
          match env.ParseSignerAddress hexPub "" with
          | .error _ => .ok ⟨""⟩
          | .ok bechAddr => .ok ⟨bechAddr⟩

/-- The `for _, coin := range feeCoins` loop of `ProcessFees`; `fees` is the
slice built so far. -/
def feesLoop (env : Env σ) (authInfo : AuthInfo) (signers : List AccAddress) :
    List Coin → σ → List DbFee → Except Abort ((List DbFee × Option GoError) × σ)
  | [], db, fees => .ok ((fees, none), db)
  | coin :: rest, db, fees =>
    if coin.Amount ≠ 0 then
      let amount := ToNumeric coin.Amount
      match lookupOrAddDenom env db coin.Denom with
      | (.error err, db1) => .ok (([], some err), db1)
      | (.ok denom, db1) =>
        match payerAddr env authInfo signers with
        | .error a => .error a
        | .ok payer => feesLoop env authInfo signers rest db1 (fees ++ [⟨amount, denom, payer⟩])
    else feesLoop env authInfo signers rest db fees

/-- The fees of a transaction, one for each fee coin with a non-zero amount. -/
def ProcessFees (env : Env σ) (db : σ) (authInfo : AuthInfo) (signers : List AccAddress) :
    Except Abort ((List DbFee × Option GoError) × σ) :=
  feesLoop env authInfo signers authInfo.Fee.Amount db []

/-! ## One transaction -/

/-- The state the parser works on: the database, the global `allSwaps`, and the
type URLs for which the missing-handler warning has been logged. -/
structure PState (σ : Type) where
  db : σ
  allSwaps : List ArbitrageTx
  warned : List String

/-- The denomination of one side of a taxable transfer: looked up when the base
is not empty, the zero value otherwise. -/
def denomFor (env : Env σ) (db : σ) (base : String) : Except GoError Denom × σ :=
  if base ≠ "" then lookupOrAddDenom env db base else (.ok Denom.zero, db)

/-- The value stored for an amount of a decoder's record: zero when the pointer
is nil. -/
def amountOf : Option Int → Int
  | some a => ToNumeric a
  | none => 0

/-- The `for i, v := range relevantData` loop of `ProcessTx`; `taxableTxs` is
the part of the slice filled so far. An error of `AddUnknownDenom` ends it. -/
def taxableTxsLoop (env : Env σ) :
    List MessageRelevantInformation → σ → List TaxableTxDBWrapper →
    Except GoError (List TaxableTxDBWrapper) × σ
  | [], db, taxableTxs => (.ok taxableTxs, db)
  | v :: rest, db, taxableTxs =>
    match denomFor env db v.DenominationSent with
    | (.error err, db1) => (.error err, db1)
    | (.ok denomSent, db1) =>
      match denomFor env db1 v.DenominationReceived with
      | (.error err, db2) => (.error err, db2)
      | (.ok denomReceived, db2) =>
        taxableTxsLoop env rest db2 (taxableTxs ++
          [⟨⟨amountOf v.AmountSent, amountOf v.AmountReceived, denomSent, denomReceived⟩,
            ⟨env.ToLower v.SenderAddress⟩, ⟨env.ToLower v.ReceiverAddress⟩⟩])

/-- The taxable transfers of a decoded message, lines 432 to 481. -/
def taxableTxsOf (env : Env σ) (db : σ) (relevantData : List MessageRelevantInformation) :
    Except GoError (List TaxableTxDBWrapper) × σ :=
  if relevantData.length > 0 then taxableTxsLoop env relevantData db [] else (.ok [], db)

/-- The append to `allSwaps` when the decoder is a `*gamm.WrapperMsgSwapExactAmountIn`. -/
def recordSwap (cosmosMessage : Option CosmosMessage) (txTime : Time)
    (allSwaps : List ArbitrageTx) : List ArbitrageTx :=
  match cosmosMessage with
  | some ⟨_, _, some (tokenIn, tokenOut)⟩ => allSwaps ++ [⟨tokenIn, tokenOut, txTime⟩]
  | _ => allSwaps

/-- The `for messageIndex, message := range tx.Tx.Body.Messages` loop of
`ProcessTx`; `messages` is the slice built so far. The outer result tells a
fatal log or a panic from a return, the inner one an error return from the
end of the loop. -/
def messagesLoop (env : Env σ) (messageTypeHandler : Registry) (messageTypeIgnorer : List String)
    (resp : Response) (txTime : Time) :
    Nat → List Msg → PState σ → List MessageDBWrapper →
    Except Abort (Except GoError (List MessageDBWrapper) × PState σ)
  | _, [], st, messages => .ok (.ok messages, st)
  | messageIndex, message :: rest, st, messages =>
    match env.GetMessageLogForIndex resp.Log messageIndex with
    | none => .error (.panic "invalid memory address or nil pointer dereference")
    | some messageLog =>
      let r := ParseCosmosMessage messageTypeHandler message messageLog
      match r.err with
      | some err =>
        if err ≠ GoError.ErrUnknownMessage then
          .error (.fatal "Issue parsing a cosmos msg that we DO have a parser for! PLEASE INVESTIGATE")
        else
          let warned := if r.msgType ∈ messageTypeIgnorer then st.warned
            else st.warned ++ [r.msgType]
          let st1 : PState σ := ⟨st.db, recordSwap r.msgHandler txTime st.allSwaps, warned⟩
          messagesLoop env messageTypeHandler messageTypeIgnorer resp txTime (messageIndex + 1)
            rest st1 (messages ++ [⟨⟨messageIndex, ⟨r.msgType⟩⟩, []⟩])
      | none =>
        match r.msgHandler with
        | none => .error (.panic "invalid memory address or nil pointer dereference")
        | some cosmosMessage =>
          match taxableTxsOf env st.db cosmosMessage.ParseRelevantData with
          | (.error err, db1) => .ok (.error err, ⟨db1, st.allSwaps, st.warned⟩)
          | (.ok taxableTxs, db1) =>
            let st1 : PState σ := ⟨db1, recordSwap r.msgHandler txTime st.allSwaps, st.warned⟩
            messagesLoop env messageTypeHandler messageTypeIgnorer resp txTime (messageIndex + 1)
              rest st1 (messages ++ [⟨⟨messageIndex, ⟨cosmosMessage.GetType⟩⟩, taxableTxs⟩])

/-- The messages of a transaction: parsed when the code is zero, none otherwise. -/
def messagesOf (env : Env σ) (messageTypeHandler : Registry) (messageTypeIgnorer : List String)
    (st : PState σ) (tx : MergedTx) (txTime : Time) :
    Except Abort (Except GoError (List MessageDBWrapper) × PState σ) :=
  if tx.TxResponse.Code = 0 then
    messagesLoop env messageTypeHandler messageTypeIgnorer tx.TxResponse txTime 0
      tx.Tx.Body.Messages st []
  else .ok (.ok [], st)

/-- Build the database wrapper of one merged transaction. Returns the triple
`(txDBWapper, txTime, err)` and the state after the call. -/
def ProcessTx (env : Env σ) (messageTypeHandler : Registry) (messageTypeIgnorer : List String)
    (st : PState σ) (tx : MergedTx) :
    Except Abort ((TxDBWrapper × Time × Option GoError) × PState σ) :=
  match env.timeParse tx.TxResponse.TimeStamp with
  | .error err => .ok ((TxDBWrapper.zero, Time.zero, some err), st)
  | .ok txTime =>
    match messagesOf env messageTypeHandler messageTypeIgnorer st tx txTime with
    | .error a => .error a
    | .ok (.error err, st1) => .ok ((TxDBWrapper.zero, txTime, some err), st1)
    | .ok (.ok messages, st1) =>
      match ProcessFees env st1.db tx.Tx.AuthInfo tx.Tx.Signers with
      | .error a => .error a
      | .ok ((_, some err), db2) =>
        .ok ((TxDBWrapper.zero, txTime, some err), ⟨db2, st1.allSwaps, st1.warned⟩)
      | .ok ((fees, none), db2) =>
        .ok ((⟨⟨tx.TxResponse.TxHash, tx.TxResponse.Code, fees⟩, ⟨""⟩, messages⟩, txTime, none),
          ⟨db2, st1.allSwaps, st1.warned⟩)

/-! ## The two block parsers -/

/-- The transaction response of the SDK (`types.TxResponse`). -/
structure TxResponse where
  Height : Int
  TxHash : String
  Code : Nat
  RawLog : String
  Logs : List ABCIMessageLog
  Timestamp : String
  deriving DecidableEq, Repr

/-- The answer `cosmosTx.GetTxsEventResponse` of the txs-by-height query. -/
structure GetTxsEventResponse where
  Txs : List CosmosTx
  TxResponses : List TxResponse

/-- The result of one transaction in a block-results answer
(`abci.ResponseDeliverTx`). -/
structure ResponseDeliverTx where
  Code : Nat
  Log : String
  deriving DecidableEq, Repr

/-- The answer `coretypes.ResultBlockResults` of the block-results query. -/
structure ResultBlockResults where
  Height : Int
  TxsResults : List ResponseDeliverTx
  deriving DecidableEq, Repr

/-- The block inside `coretypes.ResultBlock`. -/
structure Block where
  Height : Int
  Time : Time
  Txs : List RawTx
  deriving DecidableEq, Repr

/-- The answer `coretypes.ResultBlock` of the block query. -/
structure ResultBlock where
  Block : Block
  deriving DecidableEq, Repr

/-- The conversion `toAttributes`. -/
def toAttributes (attrs : List Attribute) : List Attribute :=
  attrs.map fun attr => ⟨attr.Key, attr.Value⟩

/-- The conversion `toEvents`. -/
def toEvents (msgEvents : List StringEvent) : List LogMessageEvent :=
  msgEvents.map fun evt => ⟨evt.Type_, toAttributes evt.Attributes⟩

/-- A character of the standard base64 alphabet. -/
def b64Char (n : Nat) : Char :=
  "ABCDEFGHIJKLMNOPQRSTUVWXYZabcdefghijklmnopqrstuvwxyz0123456789+/".toList.getD n 'A'

/-- The characters of `b64.StdEncoding.EncodeToString`, padding included. -/
def b64Chars : List Nat → List Char
  | [] => []
  | [a] => [b64Char (a % 256 / 4), b64Char (a % 4 * 16), '=', '=']
  | [a, b] =>
    [b64Char (a % 256 / 4), b64Char (a % 4 * 16 + b % 256 / 16), b64Char (b % 16 * 4), '=']
  | a :: b :: c :: rest =>
    b64Char (a % 256 / 4) :: b64Char (a % 4 * 16 + b % 256 / 16) ::
      b64Char (b % 16 * 4 + c % 256 / 64) :: b64Char (c % 64) :: b64Chars rest

/-- The library function `b64.StdEncoding.EncodeToString`. -/
def b64EncodeToString (bs : List Nat) : String := String.mk (b64Chars bs)

/-- The message loop of `ProcessRPCTXs`, lines 301 to 322: the messages and the
log messages collected so far; `none` when a cached value is absent, which is
the error return. A log message is built only where the log list is long
enough. -/
def rpcTxMessages (logs : List ABCIMessageLog) :
    Nat → List (Option Msg) → List Msg → List LogMessage → Option (List Msg × List LogMessage)
  | _, [], currMessages, currLogMsgs => some (currMessages, currLogMsgs)
  | _, none :: _, _, _ => none
  | msgIdx, some msg :: rest, currMessages, currLogMsgs =>
    if h : logs.length ≥ msgIdx + 1 then
      rpcTxMessages logs (msgIdx + 1) rest (currMessages ++ [msg])
        (currLogMsgs ++ [⟨msgIdx, toEvents (logs.get ⟨msgIdx, h⟩).Events⟩])
    else rpcTxMessages logs (msgIdx + 1) rest (currMessages ++ [msg]) currLogMsgs

/-- The `for txIdx := range txEventResp.Txs` loop of `ProcessRPCTXs`: `txs` are
the transactions from `txIdx` on, `currTxDbWrappers` the slice made at entry and
filled so far. -/
def rpcTxsLoop (env : Env σ) (messageTypeHandler : Registry) (messageTypeIgnorer : List String)
    (txResponses : List TxResponse) :
    Nat → List CosmosTx → PState σ → List TxDBWrapper → Option Time →
    Except Abort ((List TxDBWrapper × Option Time × Option GoError) × PState σ)
  | _, [], st, currTxDbWrappers, blockTime => .ok ((currTxDbWrappers, blockTime, none), st)
  | txIdx, currTx :: rest, st, currTxDbWrappers, blockTime =>
    match txResponses.get? txIdx with
    | none => .error (.panic "index out of range")
    | some currTxResp =>
      match rpcTxMessages currTxResp.Logs 0 currTx.Messages [] [] with
      | none =>
        .ok (([], blockTime, some (.errorString
          "tx message could not be processed. CachedValue is not present.")), st)
      | some (currMessages, currLogMsgs) =>
        let indexerTxResp : Response :=
          ⟨currTxResp.TxHash, toString currTxResp.Height, currTxResp.Timestamp,
            currTxResp.RawLog, currLogMsgs, currTxResp.Code⟩
        let indexerMergedTx : MergedTx :=
          ⟨⟨⟨currMessages⟩, currTx.AuthInfo, currTx.GetSigners⟩, indexerTxResp⟩
        match ProcessTx env messageTypeHandler messageTypeIgnorer st indexerMergedTx with
        | .error a => .error a
        | .ok ((_, _, some err), st1) => .ok ((currTxDbWrappers, blockTime, some err), st1)
        | .ok ((processedTx, txTime, none), st1) =>
          let blockTime1 := match blockTime with
            | none => some txTime
            | some t => some t
          let processedTx1 : TxDBWrapper :=
            { processedTx with SignerAddress := ⟨env.AccAddressString currTx.FeePayer⟩ }
          rpcTxsLoop env messageTypeHandler messageTypeIgnorer txResponses (txIdx + 1) rest st1
            (currTxDbWrappers.set txIdx processedTx1) blockTime1

/-- Given the answer of the txs-by-height query, build the wrappers of its
transactions. Returns `(wrappers, blockTime, err)` and the state after. -/
def ProcessRPCTXs (env : Env σ) (messageTypeHandler : Registry)
    (messageTypeIgnorer : List String) (st : PState σ) (txEventResp : GetTxsEventResponse) :
    Except Abort ((List TxDBWrapper × Option Time × Option GoError) × PState σ) :=
  rpcTxsLoop env messageTypeHandler messageTypeIgnorer txEventResp.TxResponses 0
    txEventResp.Txs st (List.replicate txEventResp.Txs.length TxDBWrapper.zero) none

/-- The message loop of `ProcessRPCBlockByHeightTXs`, lines 237 to 253. For a
transaction with code zero the log list is indexed without a check of its
length. -/
def blockTxMessages (code : Nat) (logs : List ABCIMessageLog) :
    Nat → List (Option Msg) → List Msg → List LogMessage →
    Except Abort (Option (List Msg × List LogMessage))
  | _, [], currMessages, currLogMsgs => .ok (some (currMessages, currLogMsgs))
  | _, none :: _, _, _ => .ok none
  | msgIdx, some currMsg :: rest, currMessages, currLogMsgs =>
    if code = 0 then
      match logs.get? msgIdx with
      | none => .error (.panic "index out of range")
      | some l =>
        blockTxMessages code logs (msgIdx + 1) rest (currMessages ++ [currMsg])
          (currLogMsgs ++ [⟨msgIdx, toEvents l.Events⟩])
    else
      blockTxMessages code logs (msgIdx + 1) rest (currMessages ++ [currMsg])
        (currLogMsgs ++ [⟨msgIdx, toEvents []⟩])

/-- The `for txIdx, tendermintTx := range blockResults.Block.Txs` loop of
`ProcessRPCBlockByHeightTXs`. -/
def blockTxsLoop (env : Env σ) (messageTypeHandler : Registry) (messageTypeIgnorer : List String)
    (block : Block) (txsResults : List ResponseDeliverTx) :
    Nat → List RawTx → PState σ → List TxDBWrapper →
    Except Abort ((List TxDBWrapper × Option Time × Option GoError) × PState σ)
  | _, [], st, currTxDbWrappers => .ok ((currTxDbWrappers, some block.Time, none), st)
  | txIdx, tendermintTx :: rest, st, currTxDbWrappers =>
    match txsResults.get? txIdx with
    | none => .error (.panic "index out of range")
    | some txResult =>
      match env.TxDecoder tendermintTx with
      | .error _ => .error (.fatal "ProcessRPCBlockByHeightTXs: TX cannot be parsed from block")
      | .ok txFull =>
        let parsed : Except GoError (List ABCIMessageLog) :=
          if txResult.Code = 0 then env.ParseABCILogs txResult.Log else .ok []
        match parsed with
        | .error _ =>
          .ok (([], some block.Time, some (.errorString "logs could not be parsed")), st)
        | .ok logs =>
          match blockTxMessages txResult.Code logs 0 txFull.Messages [] [] with
          | .error a => .error a
          | .ok none =>
            .ok (([], some block.Time,
              some (.errorString "tx message could not be processed")), st)
          | .ok (some (currMessages, currLogMsgs)) =>
            let txHash := env.TxHash tendermintTx
            let indexerTxResp : Response :=
              ⟨b64EncodeToString txHash, toString block.Height, env.timeFormat block.Time,
                txResult.Log, currLogMsgs, txResult.Code⟩
            let indexerMergedTx : MergedTx :=
              ⟨⟨⟨currMessages⟩, txFull.AuthInfo, txFull.GetSigners⟩, indexerTxResp⟩
            match ProcessTx env messageTypeHandler messageTypeIgnorer st indexerMergedTx with
            | .error a => .error a
            | .ok ((_, _, some err), st1) =>
              .ok ((currTxDbWrappers, some block.Time, some err), st1)
            | .ok ((processedTx, _, none), st1) =>
              let processedTx1 : TxDBWrapper :=
                { processedTx with SignerAddress := ⟨env.AccAddressString txFull.FeePayer⟩ }
              blockTxsLoop env messageTypeHandler messageTypeIgnorer block txsResults
                (txIdx + 1) rest st1 (currTxDbWrappers.set txIdx processedTx1)

/-- Build the wrappers of a block from the block and its results. Returns
`(wrappers, blockTime, err)` and the state after. -/
def ProcessRPCBlockByHeightTXs (env : Env σ) (messageTypeHandler : Registry)
    (messageTypeIgnorer : List String) (st : PState σ) (blockResults : ResultBlock)
    (resultBlockRes : ResultBlockResults) :
    Except Abort ((List TxDBWrapper × Option Time × Option GoError) × PState σ) :=
  if blockResults.Block.Txs.length ≠ resultBlockRes.TxsResults.length then
    .error (.fatal "blockResults & resultBlockRes: different length")
  else
    blockTxsLoop env messageTypeHandler messageTypeIgnorer blockResults.Block
      resultBlockRes.TxsResults 0 blockResults.Block.Txs st
      (List.replicate blockResults.Block.Txs.length TxDBWrapper.zero)

/-! ## The tx worker (`cmd/index.go`) -/

/-- The batch `dbData` a worker sends to the database writer. -/
structure dbData where
  txDBWrappers : List TxDBWrapper
  blockTime : Time
  blockHeight : Int
  deriving DecidableEq, Repr

/-- The failure codes `core.BlockProcessingFailure` that `processBlock` reports. -/
inductive BlockProcessingFailure where
  | NodeMissingHistoryForBlock
  | BlockQueryError
  | UnprocessableTxError
  deriving DecidableEq, Repr

/-- What a worker does to the outside, in the order it does it: the queries to
the node, the calls of the two parsers, the calls of the failed-block handler,
the sends on the tx-batch channel and the calls of `dbTypes.UpsertFailedBlock`. -/
inductive Event where
  | GetTxsByBlockHeight (height : Int)
  | GetBlockByHeight (height : Int)
  | GetBlock (height : Int)
  | ProcessRPCTXs (height : Int)
  | ProcessRPCBlockByHeightTXs (height : Int)
  | failedBlockHandler (height : Int) (code : BlockProcessingFailure)
  | send (res : dbData)
  | UpsertFailedBlock (height : Int)
  deriving DecidableEq, Repr

/-- The node behind the RPC client: the answer of each query of package `rpc`
at a height, an error given by its text. `GetBlockByHeight` is the
block-results query; its pointer result may be nil without an error. -/
structure RPC where
  GetTxsByBlockHeight : Int → Except String GetTxsEventResponse
  GetBlockByHeight : Int → Except String (Option ResultBlockResults)
  GetBlock : Int → Except String ResultBlock

/-- The outcome of `processBlock`: the events in order, and either the end of
the process or the returned error with the state after. -/
abbrev Outcome (σ : Type) := List Event × Except Abort (Option GoError × PState σ)

/-- The end of `processBlock`, lines 450 to 467: fetch the block for its time
when no parser gave one, then send the batch. -/
def sendBlock (rpc : RPC) (st : PState σ) (blockToProcess : Int)
    (txDBWrappers : List TxDBWrapper) (blockTime : Option Time) (trace : List Event) :
    Outcome σ :=
  match blockTime with
  | some t =>
    (trace ++ [Event.send ⟨txDBWrappers, t, blockToProcess⟩], .ok (none, st))
  | none =>
    match rpc.GetBlock blockToProcess with
    | .error msg =>
      (trace ++ [Event.GetBlock blockToProcess], .ok (some (.errorString msg), st))
    | .ok result =>
      (trace ++ [Event.GetBlock blockToProcess,
        Event.send ⟨txDBWrappers, result.Block.Time, blockToProcess⟩], .ok (none, st))

/-- The branch of `processBlock` after a type-URL error or an empty answer,
lines 416 to 440. -/
def fallbackPath (env : Env σ) (rpc : RPC) (messageTypeHandler : Registry)
    (messageTypeIgnorer : List String) (st : PState σ) (blockToProcess : Int)
    (trace : List Event) : Outcome σ :=
  let trace1 := trace ++ [Event.GetBlockByHeight blockToProcess]
  match rpc.GetBlockByHeight blockToProcess with
  | .error msg =>
    if stringsContains msg "is not available, lowest height is" then
      (trace1 ++ [Event.failedBlockHandler blockToProcess .NodeMissingHistoryForBlock],
        .ok (some (.errorString msg), st))
    else
      (trace1 ++ [Event.failedBlockHandler blockToProcess .BlockQueryError],
        .ok (some (.errorString msg), st))
  | .ok none =>
    (trace1 ++ [Event.failedBlockHandler blockToProcess .BlockQueryError], .ok (none, st))
  | .ok (some resBlockResults) =>
    if resBlockResults.TxsResults.length > 0 then
      let trace2 := trace1 ++ [Event.GetBlock blockToProcess]
      match rpc.GetBlock blockToProcess with
      | .error msg => (trace2, .ok (some (.errorString msg), st))
      | .ok blockResults =>
        let trace3 := trace2 ++ [Event.ProcessRPCBlockByHeightTXs blockToProcess]
        match ProcessRPCBlockByHeightTXs env messageTypeHandler messageTypeIgnorer st
            blockResults resBlockResults with
        | .error a => (trace3, .error a)
        | .ok ((_, _, some err), st1) => (trace3, .ok (some err, st1))
        | .ok ((txDBWrappers, blockTime, none), st1) =>
          sendBlock rpc st1 blockToProcess txDBWrappers blockTime trace3
    else sendBlock rpc st blockToProcess [] none trace1

/-- Query the node for one block, parse it and send the batch to the writer. -/
def processBlock (env : Env σ) (rpc : RPC) (messageTypeHandler : Registry)
    (messageTypeIgnorer : List String) (st : PState σ) (blockToProcess : Int) : Outcome σ :=
  let trace := [Event.GetTxsByBlockHeight blockToProcess]
  match rpc.GetTxsByBlockHeight blockToProcess with
  | .error msg =>
    if stringsContains msg "unable to resolve type URL" then
      fallbackPath env rpc messageTypeHandler messageTypeIgnorer st blockToProcess trace
    else (trace, .ok (some (.errorString msg), st))
  | .ok txsEventResp =>
    if txsEventResp.Txs.length = 0 then
      fallbackPath env rpc messageTypeHandler messageTypeIgnorer st blockToProcess trace
    else
      let trace1 := trace ++ [Event.ProcessRPCTXs blockToProcess]
      match ProcessRPCTXs env messageTypeHandler messageTypeIgnorer st txsEventResp with
      | .error a => (trace1, .error a)
      | .ok ((_, _, some err), st1) =>
        (trace1 ++ [Event.failedBlockHandler blockToProcess .UnprocessableTxError],
          .ok (some err, st1))
      | .ok ((txDBWrappers, blockTime, none), st1) =>
        sendBlock rpc st1 blockToProcess txDBWrappers blockTime trace1

/-- The worker loop `queryRPC` over the heights it takes from the channel, in
the order it takes them; `trace` holds the events so far. The process ends when
a block cannot be stored as failed. -/
def queryRPC (env : Env σ) (rpc : RPC) (messageTypeHandler : Registry)
    (messageTypeIgnorer : List String) :
    List Int → PState σ → List Event → List Event × Except Abort (PState σ)
  | [], st, trace => (trace, .ok st)
  | blockToProcess :: rest, st, trace =>
    match processBlock env rpc messageTypeHandler messageTypeIgnorer st blockToProcess with
    | (t, .error a) => (trace ++ t, .error a)
    | (t, .ok (none, st1)) =>
      queryRPC env rpc messageTypeHandler messageTypeIgnorer rest st1 (trace ++ t)
    | (t, .ok (some _, st1)) =>
      let trace1 := trace ++ t ++ [Event.UpsertFailedBlock blockToProcess]
      match env.UpsertFailedBlock st1.db blockToProcess with
      | (some _, _) =>
        (trace1, .error (.fatal "Failed to store that block failed. Not safe to continue."))
      | (none, db2) =>
        queryRPC env rpc messageTypeHandler messageTypeIgnorer rest
          ⟨db2, st1.allSwaps, st1.warned⟩ trace1

end Parser

/-! ## The database as the enqueuer reads it -/

/-- A row of the table `blocks`. -/
structure BlockRow where
  ID : Nat
  Height : Int
  BlockchainID : Nat
  Indexed : Bool
  TimeStamp : Time
  deriving DecidableEq, Repr

/-- A row of the table `txes`. -/
structure TxRow where
  ID : Nat
  BlockID : Nat
  deriving DecidableEq, Repr

/-- A row of the table `messages`. -/
structure MessageRow where
  ID : Nat
  TxID : Nat
  MessageTypeID : Nat
  deriving DecidableEq, Repr

/-- A row of the table `message_types`. -/
structure MessageTypeRow where
  ID : Nat
  MessageType : String
  deriving DecidableEq, Repr

/-- A row of the Failure Ledger (`dbTypes.FailedBlock`). -/
structure FailedBlock where
  Height : Int
  BlockchainID : Nat
  deriving DecidableEq, Repr

/-- The database while the enqueuer runs: the tables the queries of
`cmd/index.go` read, in the order in which a scan returns their rows, and
`noMissingBlock`, what `GetFirstMissingBlockInRange` answers for a range in
which no height is missing, which the spec leaves open. -/
structure Database where
  blocks : List BlockRow
  txes : List TxRow
  messages : List MessageRow
  messageTypes : List MessageTypeRow
  failedBlocks : List FailedBlock
  noMissingBlock : Int → Int → Int

/-- The `WHERE` clause the indexer uses for a block that counts as indexed:
of the chain, flagged as indexed, and with a time stamp other than the zero
time. -/
def BlockRow.isIndexed (chainID : Nat) (b : BlockRow) : Bool :=
  b.BlockchainID == chainID && b.Indexed && b.TimeStamp != Time.zero

/-- The function `blockAlreadyIndexed`: true if the block is already in the
database. The query is read by its relational meaning: it counts the rows of
`blocks` with the height, the chain, the flag and a non-zero time stamp. -/
def blockAlreadyIndexed (blockHeight : Int) (chainID : Nat) (db : Database) : Bool :=
  decide ((db.blocks.filter fun b => b.Height == blockHeight && b.isIndexed chainID).length > 0)

/-- The zero value of `dbTypes.Block`. -/
def BlockRow.zero : BlockRow := ⟨0, 0, 0, false, Time.zero⟩

/-- Modelled from the spec: `dbTypes.GetHighestIndexedBlock` is not among the
sources; the spec has the resume logic take `max(indexed_block.height)`. The
row of greatest height among the indexed rows of the chain, the zero value
when there is none. -/
def GetHighestIndexedBlock (db : Database) (chainID : Nat) : BlockRow :=
  match db.blocks.filter fun b => b.isIndexed chainID with
  | [] => BlockRow.zero
  | b :: rest => rest.foldl (fun best r => if best.Height < r.Height then r else best) b

/-- The first height from `height` on, among the next `n`, that is not
already indexed. -/
def firstMissingFrom (db : Database) (chainID : Nat) : Nat → Int → Option Int
  | 0, _ => none
  | n + 1, height =>
    if blockAlreadyIndexed height chainID db then firstMissingFrom db chainID n (height + 1)
    else some height

/-- Modelled from the spec: `dbTypes.GetFirstMissingBlockInRange` is not among
the sources; the spec has it give the first height in `[start, end]` with no
indexed block row. For a range without such a height the answer is the one the
database holds in `noMissingBlock`. -/
def GetFirstMissingBlockInRange (db : Database) (start endBlock : Int) (chainID : Nat) : Int :=
  match firstMissingFrom db chainID (endBlock - start + 1).toNat start with
  | some height => height
  | none => db.noMissingBlock start endBlock

/-- Modelled from the spec: `dbTypes.GetFailedBlocks` is not among the sources;
the spec has `get_failed_blocks(chain)` return all rows of the Failure Ledger
for the chain. -/
def GetFailedBlocks (db : Database) (chainID : Nat) : List FailedBlock :=
  db.failedBlocks.filter fun f => f.BlockchainID == chainID

/-! ## The block enqueuer (`cmd/index.go`) -/

/-- The options of `cfg.Base` that the enqueuer, `index` and the database
writer read. The numeric options are signed integers, as the comparisons with
`-1` and `0` in the source show; `rpc-workers` and `block-timer` are converted
with `int(...)` where they are used. The throttling option only makes the
enqueuer sleep and is left out. -/
structure Base where
  StartBlock : Int
  EndBlock : Int
  ReIndex : Bool
  PreventReattempts : Bool
  ExitWhenCaughtUp : Bool
  RPCWorkers : Int
  BlockTimer : Int
  ChainIndexingEnabled : Bool
  BlockEventIndexingEnabled : Bool
  EpochEventIndexingEnabled : Bool
  deriving DecidableEq, Repr

/-- What the enqueuer does to the outside, in order: a height sent on the
heights channel, an answer of `rpc.GetLatestBlockHeight`, and the starting
height once `GetIndexerStartingHeight` has returned it. -/
inductive EnqEvent where
  | send (height : Int)
  | latest (height : Int)
  | startingHeight (height : Int)
  deriving DecidableEq, Repr

/-- The surroundings of the enqueuer. `GetLatestBlockHeight n` is the answer
of the node to the call number `n` of `rpc.GetLatestBlockHeight`. `left t n` is
the number of heights the workers have left in the heights channel when the
enqueuer reads `len(blockChan)` for the time number `t`, `n` being the number
the channel held after the enqueuer last touched it. -/
structure Surroundings where
  GetLatestBlockHeight : Nat → Except String Int
  left : Nat → Nat → Nat

/-- The state of the enqueuer: the events so far, the number of heights in the
heights channel, and how often it has read the length of the channel and has
asked the node for its latest height. -/
structure EnqState where
  trace : List EnqEvent
  len : Nat
  looks : Nat
  calls : Nat
  deriving DecidableEq, Repr

/-- The statement `blockChan <- height` on a channel of capacity `cap`. On a
full channel the send waits for a worker to take a height, and the channel is
full again after it. -/
def EnqState.send (cap : Nat) (s : EnqState) (height : Int) : EnqState :=
  { s with trace := s.trace ++ [EnqEvent.send height], len := min (s.len + 1) cap }

/-- The expression `len(blockChan)`: the workers can only have taken heights
out of the channel since the enqueuer last touched it. -/
def EnqState.look (w : Surroundings) (s : EnqState) : Nat × EnqState :=
  let n := min s.len (w.left s.looks s.len)
  (n, { s with len := n, looks := s.looks + 1 })

/-- The function `enqueueFailedBlocks`: every failed block of the chain is
sent, in the order `GetFailedBlocks` returns them. -/
def enqueueFailedBlocks (db : Database) (chainID : Nat) (cap : Nat) (s : EnqState) : EnqState :=
  (GetFailedBlocks db chainID).foldl (fun s1 block => s1.send cap block.Height) s

/-- The function `GetIndexerStartingHeight`: which block to start at. Returns
the height and the state after, or ends the process when the node does not
give its latest height. -/
def GetIndexerStartingHeight (cfg : Base) (db : Database) (chainID : Nat) (w : Surroundings)
    (s : EnqState) : Except Abort (Int × EnqState) :=
  let rest (s1 : EnqState) : Except Abort (Int × EnqState) :=
    if cfg.ReIndex then .ok (cfg.StartBlock, s1)
    else
      let maxStart :=
        if cfg.EndBlock = -1 then (GetHighestIndexedBlock db chainID).Height else cfg.EndBlock
      .ok (GetFirstMissingBlockInRange db cfg.StartBlock maxStart chainID, s1)
  if cfg.StartBlock = -1 then
    match w.GetLatestBlockHeight s.calls with
    | .error _ => .error (.fatal "Error getting blockchain latest height.")
    | .ok latestBlock =>
      let s1 : EnqState :=
        { s with calls := s.calls + 1, trace := s.trace ++ [EnqEvent.latest latestBlock] }
      let highestIndexedBlock := GetHighestIndexedBlock db chainID
      if highestIndexedBlock.Height < latestBlock then .ok (highestIndexedBlock.Height + 1, s1)
      else rest s1
  else rest s

/-- How a run of the enqueuer stands after a number of steps: it has returned,
it has ended the process, or it is still in its loop. -/
inductive EnqResult where
  | returned (s : EnqState)
  | fatal (s : EnqState)
  | running (s : EnqState)
  deriving DecidableEq, Repr

/-- The inner loop of `enqueueBlocksToProcess`, lines 305 to 319, for at most
`fuel` tests of its condition: the current block when the loop is left, `none`
when the tests do not suffice, and the state reached. -/
def sendLoop (cfg : Base) (db : Database) (chainID : Nat) (w : Surroundings) (cap : Nat)
    (latestBlock : Int) : Nat → Int → EnqState → Option Int × EnqState
  | 0, _, s => (none, s)
  | fuel + 1, currBlock, s =>
    if currBlock ≤ latestBlock ∧ (currBlock ≤ cfg.EndBlock ∨ cfg.EndBlock = -1) then
      if (s.look w).1 ≠ cap then
        if !cfg.ReIndex && blockAlreadyIndexed currBlock chainID db then
          sendLoop cfg db chainID w cap latestBlock fuel (currBlock + 1) (s.look w).2
        else
          sendLoop cfg db chainID w cap latestBlock fuel (currBlock + 1)
            ((s.look w).2.send cap currBlock)
      else (some currBlock, (s.look w).2)
    else (some currBlock, s)

/-- The outer loop of `enqueueBlocksToProcess`, lines 279 to 321, for at most
`fuel` rounds. -/
def liveLoop (cfg : Base) (db : Database) (chainID : Nat) (w : Surroundings) (cap : Nat) :
    Nat → Int → Int → EnqState → EnqResult
  | 0, _, _, s => .running s
  | fuel + 1, currBlock, latestBlock, s =>
    if cfg.EndBlock ≠ -1 ∧ currBlock > cfg.EndBlock then .returned s
    else if cfg.ExitWhenCaughtUp = true ∧ currBlock > latestBlock then .returned s
    else if (s.look w).1 ≤ cap / 4 then
      match w.GetLatestBlockHeight (s.look w).2.calls with
      | .error _ => .fatal (s.look w).2
      | .ok latest =>
        let s1 : EnqState :=
          { (s.look w).2 with
            calls := (s.look w).2.calls + 1,
            trace := (s.look w).2.trace ++ [EnqEvent.latest latest] }
        match sendLoop cfg db chainID w cap latest fuel currBlock s1 with
        | (none, s2) => .running s2
        | (some currBlock1, s2) => liveLoop cfg db chainID w cap fuel currBlock1 latest s2
    else liveLoop cfg db chainID w cap fuel currBlock latestBlock (s.look w).2

/-- The constant `math.MaxInt64`. -/
def MaxInt64 : Int := 2 ^ 63 - 1

/-- The function `enqueueBlocksToProcess`, its live loop run for at most
`fuel` rounds. -/
def enqueueBlocksToProcess (cfg : Base) (db : Database) (chainID : Nat) (w : Surroundings)
    (cap : Nat) (fuel : Nat) (s : EnqState) : EnqResult :=
  let s1 := if !cfg.PreventReattempts then enqueueFailedBlocks db chainID cap s else s
  match GetIndexerStartingHeight cfg db chainID w s1 with
  | .error _ => .fatal s1
  | .ok (currBlock, s2) =>
    liveLoop cfg db chainID w cap fuel currBlock MaxInt64
      { s2 with trace := s2.trace ++ [EnqEvent.startingHeight currBlock] }

/-- The rows of the query of `enqueueBlocksToProcessByMsgType`: the height of
the block for every message of the type in a transaction of a block of the
chain with a height strictly between the two bounds. -/
def heightsWithMsgType (db : Database) (msgType : String) (startBlock endBlock : Int)
    (chainID : Nat) : List Int :=
  db.blocks.flatMap fun b =>
    db.txes.flatMap fun t =>
      db.messages.flatMap fun m =>
        db.messageTypes.flatMap fun mt =>
          if t.BlockID = b.ID ∧ m.TxID = t.ID ∧ mt.ID = m.MessageTypeID ∧
              mt.MessageType = msgType ∧ b.Height > startBlock ∧ b.Height < endBlock ∧
              b.BlockchainID = chainID then [b.Height]
          else []

/-- The method `ScanRows` of the database library (gorm) for a destination
that is a pointer to an integer, as on line 234, called when `rows.Next()` has
moved the cursor to the row `current` and the rows `rest` are left. For such a
destination the library scans the current row into the integer and then goes
on with `rows.Next()` and scans every row that is left into the same integer,
each over the one before: the integer ends as the last row of the query and
the cursor at its end. The result is the integer and the rows left after the
call. -/
def ScanRows : Int → List Int → Int × List Int
  | current, [] => (current, [])
  | _, next :: rest => ScanRows next rest

/-- The loop `for rows.Next()` of `enqueueBlocksToProcessByMsgType`, lines 232
to 246, for at most `fuel` runs of its body: `rows` are the rows the cursor has
not moved to yet. Each run of the body scans with `ScanRows` and sends the
integer it has filled. -/
def rowsLoop (cap : Nat) : Nat → List Int → EnqState → EnqState
  | _, [], s => s
  | 0, _ :: _, s => s
  | fuel + 1, current :: rest, s =>
    rowsLoop cap fuel (ScanRows current rest).2 (s.send cap (ScanRows current rest).1)

/-- The function `enqueueBlocksToProcessByMsgType`: the loop over the rows of
the query, which has a run of its body for each row at most. -/
def enqueueBlocksToProcessByMsgType (cfg : Base) (db : Database) (chainID : Nat)
    (msgType : String) (cap : Nat) (s : EnqState) : EnqState :=
  let startBlock := cfg.StartBlock
  let endBlock :=
    if cfg.EndBlock = -1 then (GetHighestIndexedBlock db chainID).Height else cfg.EndBlock
  let rows := heightsWithMsgType db msgType startBlock endBlock chainID
  rowsLoop cap rows.length rows s

/-! ## Channels and workers made by `index` -/

/-- What `index` has made when it starts to enqueue: the capacity of each of
its four channels and the number of tx workers it has started. -/
structure Pipeline where
  blockChan : Nat
  txDataChan : Nat
  blockEventsDataChan : Nat
  epochEventsDataChan : Nat
  txWorkers : Nat
  deriving DecidableEq, Repr

/-- The statement `make(chan T, size)`: a negative size is a run-time panic. -/
def makeChan (size : Int) : Except Abort Nat :=
  if size < 0 then .error (.panic "makechan: size out of range") else .ok size.toNat

/-- The number `rpcQueryThreads` computed by `index`, lines 134 to 139. -/
def rpcQueryThreads (cfg : Base) : Int :=
  if cfg.RPCWorkers = 0 then 4
  else if cfg.RPCWorkers > 64 then 64
  else cfg.RPCWorkers

/-- The part of `index` that makes the channels and starts the tx workers,
lines 127 to 187. `dbChainID` is the result of `dbTypes.GetDBChainID`, an error
of which ends the process before the epoch channel is made. -/
def index (cfg : Base) (dbChainID : Except GoError Nat) : Except Abort Pipeline :=
  match makeChan 10000 with
  | .error a => .error a
  | .ok blockChan =>
    match makeChan (4 * rpcQueryThreads cfg) with
    | .error a => .error a
    | .ok txDataChan =>
      let txWorkers := if cfg.ChainIndexingEnabled then (rpcQueryThreads cfg).toNat else 0
      match makeChan (4 * rpcQueryThreads cfg) with
      | .error a => .error a
      | .ok blockEventsDataChan =>
        match dbChainID with
        | .error _ => .error (.fatal "Failed to add/create chain in DB")
        | .ok _ =>
          match makeChan (4 * rpcQueryThreads cfg) with
          | .error a => .error a
          | .ok epochEventsDataChan =>
            .ok ⟨blockChan, txDataChan, blockEventsDataChan, epochEventsDataChan, txWorkers⟩

/-! ## The database writer (`cmd/index.go`) -/

/-- An event the event parsers found relevant
(`eventTypes.EventRelevantInformation`), carried through as it is. -/
structure EventRelevantInformation where
  data : String
  deriving DecidableEq, Repr

/-- The batch `blockEventsDBData` of the block-event loop. -/
structure blockEventsDBData where
  blockRelevantEvents : List EventRelevantInformation
  blockTime : Time
  blockHeight : Int
  deriving DecidableEq, Repr

/-- The batch `epochEventsDBData` of the epoch-event loop. -/
structure epochEventsDBData where
  blockRelevantEvents : List EventRelevantInformation
  blockTime : Time
  blockHeight : Int
  epochIdentifier : String
  epochNumber : Nat
  deriving DecidableEq, Repr

/-- The three cases of the `select` of `doDBUpdates`, one for each channel. -/
inductive Case where
  | txData
  | blockEvents
  | epochEvents
  deriving DecidableEq, Repr

/-- What the writer does, in order: a batch received in a case, with its block
height; the handle of a case set to nil; and an attempt of one of the three
database operations, with whether it succeeded. -/
inductive WEvent where
  | received (c : Case) (blockHeight : Int)
  | setNil (c : Case)
  | IndexNewBlock (blockHeight : Int) (ok : Bool)
  | IndexBlockEvents (blockHeight : Int) (ok : Bool)
  | UpdateEpochIndexingStatus (epochNumber : Nat) (ok : Bool)
  deriving DecidableEq, Repr

/-- The operations of package `db` the writer calls, over a database state
`σ`. The first argument of the two event operations is the dry-run flag, the
last one of `IndexBlockEvents` the logging string. -/
structure WriterEnv (σ : Type) where
  IndexNewBlock : σ → Int → Time → List TxDBWrapper → Nat → Option GoError × σ
  IndexBlockEvents : σ → Bool → Int → Time → List EventRelevantInformation → String →
    Option GoError × σ
  UpdateEpochIndexingStatus : σ → Bool → Nat → String → Option GoError × σ

/-- The local variables of `doDBUpdates` other than the channels, the database
and the record of what the writer has done. -/
structure WState (σ : Type) where
  db : σ
  blocksProcessed : Nat
  dbWrites : Nat
  dbReattempts : Nat
  log : List WEvent

/-- The pattern all three cases use for a database operation: one attempt; on
an error `dbReattempts++` and a second attempt. Returns the error of the last
attempt made. -/
def retryOnce {σ : Type} (attempt : σ → Option GoError × σ) (event : Bool → WEvent)
    (st : WState σ) : WState σ × Option GoError :=
  match attempt st.db with
  | (none, db1) => ({ st with db := db1, log := st.log ++ [event true] }, none)
  | (some _, db1) =>
    match attempt db1 with
    | (none, db2) =>
      ({ st with db := db2, dbReattempts := st.dbReattempts + 1,
                 log := st.log ++ [event false, event true] }, none)
    | (some err, db2) =>
      ({ st with db := db2, dbReattempts := st.dbReattempts + 1,
                 log := st.log ++ [event false, event false] }, some err)

/-- The test `float64(dbReattempts)/float64(dbWrites) > .1`. For counts below
`2 ^ 52` the two conversions are exact and the rounded quotient is greater than
the double nearest to one tenth exactly when the quotient of the counts is
greater than one tenth, which is what is computed here. -/
def reattemptsExceeded (dbReattempts dbWrites : Nat) : Bool :=
  decide (10 * dbReattempts > dbWrites)

/-- The case of `doDBUpdates` for a batch from the tx-batch channel, lines 711
to 746. Returns the state after and, when the process is ended, the fatal log. -/
def handleTxData {σ : Type} (env : WriterEnv σ) (cfg : Base) (dryRun : Bool) (dbChainID : Nat)
    (st : WState σ) (data : dbData) : WState σ × Option Abort :=
  let st0 : WState σ := { st with dbWrites := st.dbWrites + 1 }
  let r : WState σ × Option GoError :=
    if !dryRun then
      retryOnce (fun db => env.IndexNewBlock db data.blockHeight data.blockTime
        data.txDBWrappers dbChainID) (WEvent.IndexNewBlock data.blockHeight) st0
    else (st0, none)
  match r.2 with
  | some _ => (r.1, some (.fatal "Error indexing block"))
  | none =>
    if cfg.BlockTimer > 0 then
      let st1 : WState σ := { r.1 with blocksProcessed := r.1.blocksProcessed + 1 }
      if reattemptsExceeded st1.dbReattempts st1.dbWrites then
        (st1, some (.fatal "More than 10% of the last DB writes have failed."))
      else (st1, none)
    else (r.1, none)

/-- The case of `doDBUpdates` for a batch from the block-events channel, lines
747 to 765. -/
def handleBlockEvents {σ : Type} (env : WriterEnv σ) (dryRun : Bool) (st : WState σ)
    (eventData : blockEventsDBData) : WState σ × Option Abort :=
  let st0 : WState σ := { st with dbWrites := st.dbWrites + 1 }
  let identifierLoggingString := "block " ++ toString eventData.blockHeight
  let r := retryOnce (fun db => env.IndexBlockEvents db dryRun eventData.blockHeight
    eventData.blockTime eventData.blockRelevantEvents identifierLoggingString)
    (WEvent.IndexBlockEvents eventData.blockHeight) st0
  match r.2 with
  | some _ => (r.1, some (.fatal "Error indexing block events"))
  | none => (r.1, none)

/-- The case of `doDBUpdates` for a batch from the epoch-events channel, lines
766 to 789: after the events are stored the epoch is marked as indexed, in one
attempt. -/
def handleEpochEvents {σ : Type} (env : WriterEnv σ) (dryRun : Bool) (st : WState σ)
    (epochEventData : epochEventsDBData) : WState σ × Option Abort :=
  let st0 : WState σ := { st with dbWrites := st.dbWrites + 1 }
  let identifierLoggingString := "epoch " ++ toString epochEventData.epochNumber
    ++ " in epoch identifier " ++ epochEventData.epochIdentifier
  let r := retryOnce (fun db => env.IndexBlockEvents db dryRun epochEventData.blockHeight
    epochEventData.blockTime epochEventData.blockRelevantEvents identifierLoggingString)
    (WEvent.IndexBlockEvents epochEventData.blockHeight) st0
  match r.2 with
  | some _ => (r.1, some (.fatal "Error indexing block events"))
  | none =>
    match env.UpdateEpochIndexingStatus r.1.db dryRun epochEventData.epochNumber
        epochEventData.epochIdentifier with
    | (none, db1) =>
      ({ r.1 with db := db1,
                  log := r.1.log ++ [WEvent.UpdateEpochIndexingStatus
                    epochEventData.epochNumber true] }, none)
    | (some _, db1) =>
      ({ r.1 with db := db1,
                  log := r.1.log ++ [WEvent.UpdateEpochIndexingStatus
                    epochEventData.epochNumber false] },
        some (.fatal "Could not mark Epoch indexed."))

/-- A channel as its receiver meets it: the values it still delivers, in
order, and whether it is closed after them. A channel that is not closed
delivers nothing after its last value, however long the receiver waits. -/
structure Chan (α : Type) where
  pending : List α
  closes : Bool

/-- The three channel variables of `doDBUpdates`; `none` is the nil channel. -/
structure Handles where
  txDataChan : Option (Chan dbData)
  blockEventsDataChan : Option (Chan blockEventsDBData)
  epochEventsDataChan : Option (Chan epochEventsDBData)

/-- A receive from the channel can proceed: it delivers a value, or it is
closed and drained. A receive from a nil channel never proceeds. -/
def ready {α : Type} : Option (Chan α) → Bool
  | none => false
  | some ch => !ch.pending.isEmpty || ch.closes

/-- The cases of the `select` that can proceed. -/
def readyCases (h : Handles) : List Case :=
  (if ready h.txDataChan then [Case.txData] else []) ++
  (if ready h.blockEventsDataChan then [Case.blockEvents] else []) ++
  (if ready h.epochEventsDataChan then [Case.epochEvents] else [])

/-- The `select` statement: one of the cases that can proceed, picked by the
scheduler through `choice`, or `none` when no case can proceed, ever. -/
def select (h : Handles) (choice : Nat) : Option Case :=
  (readyCases h).get? (choice % (readyCases h).length)

/-- How a run of the writer stands after a number of rounds of its loop: it
has returned, it has ended the process, it waits in its `select` for ever, or
it is still running. -/
inductive WResult (σ : Type) where
  | returned (st : WState σ)
  | aborted (st : WState σ) (a : Abort)
  | blocked (st : WState σ)
  | running (st : WState σ)

/-- The function `doDBUpdates`, for at most `fuel` rounds of its loop; `pick`
gives the choice of the scheduler in each round, `round` counts the rounds. -/
def doDBUpdates {σ : Type} (env : WriterEnv σ) (cfg : Base) (dryRun : Bool) (dbChainID : Nat)
    (pick : Nat → Nat) : Nat → Nat → Handles → WState σ → WResult σ
  | 0, _, _, st => .running st
  | fuel + 1, round, h, st =>
    if h.txDataChan.isNone ∧ h.blockEventsDataChan.isNone ∧ h.epochEventsDataChan.isNone then
      .returned st
    else
      match select h (pick round) with
      | none => .blocked st
      | some Case.txData =>
        match h.txDataChan with
        | none => .blocked st
        | some ⟨[], _⟩ =>
          doDBUpdates env cfg dryRun dbChainID pick fuel (round + 1)
            { h with txDataChan := none }
            { st with log := st.log ++ [WEvent.setNil Case.txData] }
        | some ⟨data :: rest, closes⟩ =>
          match handleTxData env cfg dryRun dbChainID
              { st with log := st.log ++ [WEvent.received Case.txData data.blockHeight] }
              data with
          | (st1, some a) => .aborted st1 a
          | (st1, none) =>
            doDBUpdates env cfg dryRun dbChainID pick fuel (round + 1)
              { h with txDataChan := some ⟨rest, closes⟩ } st1
      | some Case.blockEvents =>
        match h.blockEventsDataChan with
        | none => .blocked st
        | some ⟨[], _⟩ =>
          doDBUpdates env cfg dryRun dbChainID pick fuel (round + 1)
            { h with blockEventsDataChan := none }
            { st with log := st.log ++ [WEvent.setNil Case.blockEvents] }
        | some ⟨eventData :: rest, closes⟩ =>
          match handleBlockEvents env dryRun
              { st with log := st.log ++
                  [WEvent.received Case.blockEvents eventData.blockHeight] }
              eventData with
          | (st1, some a) => .aborted st1 a
          | (st1, none) =>
            doDBUpdates env cfg dryRun dbChainID pick fuel (round + 1)
              { h with blockEventsDataChan := some ⟨rest, closes⟩ } st1
      | some Case.epochEvents =>
        match h.epochEventsDataChan with
        | none => .blocked st
        | some ⟨[], _⟩ =>
          doDBUpdates env cfg dryRun dbChainID pick fuel (round + 1)
            { h with epochEventsDataChan := none }
            { st with log := st.log ++ [WEvent.setNil Case.epochEvents] }
        | some ⟨epochEventData :: rest, closes⟩ =>
          match handleEpochEvents env dryRun
              { st with log := st.log ++
                  [WEvent.received Case.epochEvents epochEventData.blockHeight] }
              epochEventData with
          | (st1, some a) => .aborted st1 a
          | (st1, none) =>
            doDBUpdates env cfg dryRun dbChainID pick fuel (round + 1)
              { h with epochEventsDataChan := some ⟨rest, closes⟩ } st1

/-! ## The event loops (`cmd/index.go`) -/

/-- The block results `rpc.GetBlockResultWithRetry` returns: the height, which
the two loops read, and the events of the block, which only the event parsers
read. A nil error comes with a result that is not nil. -/
structure BlockResults where
  Height : Int
  events : List StringEvent
  deriving DecidableEq, Repr

/-- A row of the table of epochs (`dbTypes.Epoch`), with the columns the epoch
loop and its query read. -/
structure Epoch where
  EpochNumber : Nat
  StartHeight : Nat
  Identifier : String
  BlockchainID : Nat
  Indexed : Bool
  deriving DecidableEq, Repr

/-- What an event loop does to the outside, in order: its queries to the node,
with the answer for the latest height, the calls of the failed-block handler
(always with the code `core.FailedBlockEventHandling`) and of
`dbTypes.UpsertFailedEventBlock`, and the sends on its channel. -/
inductive EvEvent where
  | GetBlockResultWithRetry (height : Int)
  | GetBlock (height : Int)
  | latest (height : Int)
  | failedBlockHandler (height : Int)
  | UpsertFailedEventBlock (height : Int)
  | sendBlockEvents (res : blockEventsDBData)
  | sendEpochEvents (res : epochEventsDBData)
  deriving DecidableEq, Repr

/-- The functions of other packages the two event loops call, over a database
state `σ`. The node answers a query for a height the same way each time a loop
asks it; `GetLatestBlockHeight n` is its answer to the call number `n`.
`GetHighestTaxableEventBlock` returns its row, of which the height is read,
together with its error; `epochs` is the table of epochs, or the error of a
query on it. -/
structure EventsEnv (σ : Type) where
  GetBlockResultWithRetry : Int → Except String BlockResults
  ProcessRPCBlockEvents : BlockResults → Except GoError (List EventRelevantInformation)
  ProcessRPCEpochEvents : BlockResults → String → Except GoError (List EventRelevantInformation)
  GetBlock : Int → Except String ResultBlock
  GetLatestBlockHeight : Nat → Except String Int
  UpsertFailedEventBlock : σ → Int → Option GoError × σ
  GetHighestTaxableEventBlock : σ → Int × Option GoError
  epochs : σ → Except GoError (List Epoch)

/-- The state of an event loop: the database, the events so far and the number
of times it has asked the node for its latest height. -/
structure EvState (σ : Type) where
  db : σ
  trace : List EvEvent
  calls : Nat

/-- What both loops do with a height they cannot handle: the failed-block
handler is called, the height is stored as a failed event block, and the
process is ended when that fails. Returns the state after and the fatal log. -/
def failedEventBlock {σ : Type} (env : EventsEnv σ) (st : EvState σ) (height : Int) :
    EvState σ × Option Abort :=
  let trace1 := st.trace ++ [EvEvent.failedBlockHandler height,
    EvEvent.UpsertFailedEventBlock height]
  match env.UpsertFailedEventBlock st.db height with
  | (some _, db1) =>
    ({ st with db := db1, trace := trace1 }, some (.fatal "Failed to insert failed block event"))
  | (none, db1) => ({ st with db := db1, trace := trace1 }, none)

/-- How an iteration of the block-event loop ends: the loop goes on to test its
condition with the new current height and last known height, the process is
ended, or the iteration is still in its sleep loop after the steps given. -/
inductive Iteration (σ : Type) where
  | next (currentHeight lastKnownBlockHeight : Int) (st : EvState σ)
  | aborted (st : EvState σ) (a : Abort)
  | sleeping (currentHeight : Int) (st : EvState σ)

/-- The sleep loop of `indexBlockEvents`, lines 578 to 592, for at most `fuel`
queries of the latest height. -/
def sleepLoop {σ : Type} (env : EventsEnv σ) : Nat → Int → EvState σ → Iteration σ
  | 0, currentHeight, st => .sleeping currentHeight st
  | fuel + 1, currentHeight, st =>
    match env.GetLatestBlockHeight st.calls with
    | .error _ =>
      .aborted { st with calls := st.calls + 1 }
        (.fatal "Error getting blockchain latest height in block event indexer.")
    | .ok lastKnownBlockHeight =>
      let st1 : EvState σ :=
        { st with calls := st.calls + 1,
                  trace := st.trace ++ [EvEvent.latest lastKnownBlockHeight] }
      if currentHeight > lastKnownBlockHeight then sleepLoop env fuel currentHeight st1
      else .next currentHeight lastKnownBlockHeight st1

/-- The `switch` of `indexBlockEvents`, lines 541 to 568, on the block results
of the current height. -/
def blockEventsSwitch {σ : Type} (env : EventsEnv σ) (st : EvState σ) (currentHeight : Int)
    (bresults : BlockResults) : EvState σ × Option Abort :=
  match env.ProcessRPCBlockEvents bresults with
  | .error _ => failedEventBlock env st currentHeight
  | .ok blockRelevantEvents =>
    if blockRelevantEvents.length ≠ 0 then
      let st1 : EvState σ := { st with trace := st.trace ++ [EvEvent.GetBlock bresults.Height] }
      match env.GetBlock bresults.Height with
      | .error _ => failedEventBlock env st1 currentHeight
      | .ok result =>
        ({ st1 with trace := st1.trace ++ [EvEvent.sendBlockEvents
            ⟨blockRelevantEvents, result.Block.Time, bresults.Height⟩] }, none)
    else (st, none)

/-- One iteration of the loop of `indexBlockEvents`, lines 524 to 595; `fuel`
bounds the sleep loop. After a failed query of the block results the loop
continues without a look at the last known height. -/
def blockEventsIteration {σ : Type} (env : EventsEnv σ) (fuel : Nat)
    (currentHeight lastKnownBlockHeight : Int) (st : EvState σ) : Iteration σ :=
  let st0 : EvState σ :=
    { st with trace := st.trace ++ [EvEvent.GetBlockResultWithRetry currentHeight] }
  match env.GetBlockResultWithRetry currentHeight with
  | .error _ =>
    match failedEventBlock env st0 currentHeight with
    | (st1, some a) => .aborted st1 a
    | (st1, none) => .next (currentHeight + 1) lastKnownBlockHeight st1
  | .ok bresults =>
    match blockEventsSwitch env st0 currentHeight bresults with
    | (st1, some a) => .aborted st1 a
    | (st1, none) =>
      if currentHeight + 1 > lastKnownBlockHeight then sleepLoop env fuel (currentHeight + 1) st1
      else .next (currentHeight + 1) lastKnownBlockHeight st1

/-- How a run of the block-event loop stands after a number of iterations. -/
inductive EvResult (σ : Type) where
  | returned (st : EvState σ)
  | aborted (st : EvState σ) (a : Abort)
  | running (st : EvState σ)

/-- The loop of `indexBlockEvents`, lines 523 to 596, for at most `fuel`
iterations. -/
def blockEventsLoop {σ : Type} (env : EventsEnv σ) (endHeight : Int) :
    Nat → Int → Int → EvState σ → EvResult σ
  | 0, _, _, st => .running st
  | fuel + 1, currentHeight, lastKnownBlockHeight, st =>
    if endHeight = -1 ∨ currentHeight ≤ endHeight then
      match blockEventsIteration env fuel currentHeight lastKnownBlockHeight st with
      | .aborted st1 a => .aborted st1 a
      | .sleeping _ st1 => .running st1
      | .next currentHeight1 lastKnownBlockHeight1 st1 =>
        blockEventsLoop env endHeight fuel currentHeight1 lastKnownBlockHeight1 st1
    else .returned st

/-- The function `GetBlockEventsStartIndexHeight`: the height of the highest
block with indexed events; an error other than a missing record ends the
process. -/
def GetBlockEventsStartIndexHeight {σ : Type} (env : EventsEnv σ) (db : σ) : Except Abort Int :=
  match env.GetHighestTaxableEventBlock db with
  | (height, none) => .ok height
  | (height, some err) =>
    if err ≠ GoError.errorString "record not found" then
      .error (.fatal "Cannot retrieve highest indexed block event.")
    else .ok height

/-- The function `indexBlockEvents`, its loop run for at most `fuel`
iterations; the two options of `cfg.Base` it reads are parameters. -/
def indexBlockEvents {σ : Type} (env : EventsEnv σ)
    (BlockEventsStartBlock BlockEventsEndBlock : Int) (fuel : Nat) (st : EvState σ) :
    EvResult σ :=
  let resumed : Except Abort Int :=
    if BlockEventsStartBlock ≤ 0 then
      match GetBlockEventsStartIndexHeight env st.db with
      | .error a => .error a
      | .ok dbLastIndexedBlockEvent =>
        if dbLastIndexedBlockEvent > 0 then .ok (dbLastIndexedBlockEvent + 1)
        else .ok BlockEventsStartBlock
    else .ok BlockEventsStartBlock
  match resumed with
  | .error a => .aborted st a
  | .ok startHeight0 =>
    let startHeight := if startHeight0 ≤ 0 then 1 else startHeight0
    match env.GetLatestBlockHeight st.calls with
    | .error _ =>
      .aborted { st with calls := st.calls + 1 }
        (.fatal "Error getting blockchain latest height in block event indexer.")
    | .ok lastKnownBlockHeight =>
      blockEventsLoop env BlockEventsEndBlock fuel startHeight lastKnownBlockHeight
        { st with calls := st.calls + 1,
                  trace := st.trace ++ [EvEvent.latest lastKnownBlockHeight] }

/-- The function `GetUnindexedEpochsAtIdentifierBetweenStartAndEnd`: the rows
of the epoch table for the chain and the identifier with a number between the
two bounds that are not indexed, in the order of the table. -/
def GetUnindexedEpochsAtIdentifierBetweenStartAndEnd {σ : Type} (env : EventsEnv σ) (db : σ)
    (chainID : Nat) (identifier : String) (startEpochNumber endEpochNumber : Int) :
    Except GoError (List Epoch) :=
  match env.epochs db with
  | .error err => .error err
  | .ok rows =>
    .ok (rows.filter fun e =>
      decide ((e.EpochNumber : Int) ≥ startEpochNumber) &&
      decide ((e.EpochNumber : Int) ≤ endEpochNumber) &&
      e.Identifier == identifier && e.BlockchainID == chainID && !e.Indexed)

/-- One iteration of the loop of `indexEpochEvents`, lines 626 to 679. -/
def epochEventsIteration {σ : Type} (env : EventsEnv σ) (epochIdentifier : String)
    (st : EvState σ) (epoch : Epoch) : EvState σ × Option Abort :=
  let startHeight : Int := epoch.StartHeight
  let st0 : EvState σ :=
    { st with trace := st.trace ++ [EvEvent.GetBlockResultWithRetry startHeight] }
  match env.GetBlockResultWithRetry startHeight with
  | .error _ => failedEventBlock env st0 startHeight
  | .ok bresults =>
    match env.ProcessRPCEpochEvents bresults epochIdentifier with
    | .error _ => failedEventBlock env st0 startHeight
    | .ok blockRelevantEvents =>
      let st1 : EvState σ :=
        { st0 with trace := st0.trace ++ [EvEvent.GetBlock bresults.Height] }
      match env.GetBlock bresults.Height with
      | .error _ => failedEventBlock env st1 startHeight
      | .ok result =>
        ({ st1 with trace := st1.trace ++ [EvEvent.sendEpochEvents
            ⟨blockRelevantEvents, result.Block.Time, bresults.Height, epochIdentifier,
              epoch.EpochNumber⟩] }, none)

/-- The loop `for _, epoch := range epochsBetween` of `indexEpochEvents`. -/
def epochEventsLoop {σ : Type} (env : EventsEnv σ) (epochIdentifier : String) :
    List Epoch → EvState σ → EvState σ × Option Abort
  | [], st => (st, none)
  | epoch :: rest, st =>
    match epochEventsIteration env epochIdentifier st epoch with
    | (st1, some a) => (st1, some a)
    | (st1, none) => epochEventsLoop env epochIdentifier rest st1

/-- The function `indexEpochEvents`; the three options of `cfg.Base` it reads
are parameters. Returns the state after and, when the process is ended, the
fatal log. -/
def indexEpochEvents {σ : Type} (env : EventsEnv σ) (chainID : Nat)
    (EpochEventsStartEpoch EpochEventsEndEpoch : Int) (EpochIndexingIdentifier : String)
    (st : EvState σ) : EvState σ × Option Abort :=
  match GetUnindexedEpochsAtIdentifierBetweenStartAndEnd env st.db chainID
      EpochIndexingIdentifier EpochEventsStartEpoch EpochEventsEndEpoch with
  | .error _ => (st, some (.fatal "Error getting epochs"))
  | .ok epochsBetween =>
    if epochsBetween.length = 0 then (st, none)
    else epochEventsLoop env EpochIndexingIdentifier epochsBetween st

/-! ## Vocabulary of the statements -/

/-- The decoder and the error a handler yields when it is offered a message:
its `HandleMsg` on the decoder it has just created. -/
def HandlerFunc.run (f : HandlerFunc) (message : Msg) (log : LogMessage) :
    CosmosMessage × Option GoError :=
  f.HandleMsg f.create message.typeURL message log

/-- A handler accepts a message when its decoder returns a nil error. -/
def HandlerFunc.accepts (f : HandlerFunc) (message : Msg) (log : LogMessage) : Prop :=
  (f.run message log).2 = none

/-- The record of calls that offers the message to each handler of a list in
turn, the first one having index `idx`, each on its freshly created decoder. -/
def callsOf (idx : Nat) (fs : List HandlerFunc) : List (Nat × CosmosMessage) :=
  (fs.enumFrom idx).map fun p => (p.1, p.2.create)

/-- The address `ProcessFees` records for a key: what `ParseSignerAddress`
derives from the hex of its bytes, the empty string when that fails. -/
def derivedAddress {σ : Type} (env : Env σ) (k : PubKey) : String :=
  match env.ParseSignerAddress (hexEncodeToString k.Bytes) "" with
  | .ok bechAddr => bechAddr
  | .error _ => ""

/-- What the message loop of `ProcessTx` records for the message `p.2` at the
position `p.1` of the body: a wrapper with that position as its index, which
for a type URL without a handler list is the type URL and no taxable
transfers. -/
def entryOf (messageTypeHandler : Registry) (p : Nat × Msg) (w : MessageDBWrapper) : Prop :=
  w.Message.MessageIndex = p.1 ∧
    (messageTypeHandler p.2.typeURL = none → w = ⟨⟨p.1, ⟨p.2.typeURL⟩⟩, []⟩)

/-- The key the payer address is derived from, in the words of the fee rule:
the first inner key of a legacy multisig key when the text of the multi mode
info has a legacy-amino sign mode, and otherwise the public key of the signer
info itself, be it plain or a multisig. -/
def IsPayerKey (first : SignerInfo) (k : PubKey) : Prop :=
  (stringsContains (ModeInfo.multiString first.ModeInfo) "mode:SIGN_MODE_LEGACY_AMINO_JSON"
      = true ∧
    ∃ own rest, first.PublicKey = some (some (.legacyAminoPubKey own (k :: rest)))) ∨
  (stringsContains (ModeInfo.multiString first.ModeInfo) "mode:SIGN_MODE_LEGACY_AMINO_JSON"
      = false ∧
    (first.PublicKey = some (some (.pubKey k)) ∨
      ∃ inner, first.PublicKey = some (some (.legacyAminoPubKey k inner))))

/-- A hexadecimal digit, upper case. -/
def hexUpperDigit (n : Nat) : Char := "0123456789ABCDEF".toList.getD n '0'

/-- The characters of the upper-case hexadecimal text of a byte string. -/
def hexUpperChars : List Nat → List Char
  | [] => []
  | b :: bs => hexUpperDigit (b % 256 / 16) :: hexUpperDigit (b % 16) :: hexUpperChars bs

/-- The text of a transaction hash in a `TxResponse` of the SDK: the hash bytes
in upper-case hexadecimal (`bytes.HexBytes.String`). -/
def hexUpperEncode (bs : List Nat) : String := String.mk (hexUpperChars bs)

/-- The node presents a block consistently through both routes: the
transactions of the txs-by-height answer are the decoded transactions of the
block, in order, and each response carries the hash of its transaction in
hexadecimal, the code and the log of its result, the parsed form of that log
when the code is zero, and the height and the time of the block. -/
def Consistent {σ : Type} (env : Env σ) (txEventResp : GetTxsEventResponse)
    (blockResults : ResultBlock) (resultBlockRes : ResultBlockResults) : Prop :=
  blockResults.Block.Txs.map env.TxDecoder = txEventResp.Txs.map Except.ok ∧
  txEventResp.TxResponses.map (fun r => r.TxHash)
    = blockResults.Block.Txs.map (fun raw => hexUpperEncode (env.TxHash raw)) ∧
  txEventResp.TxResponses.map (fun r => (r.Code, r.RawLog))
    = resultBlockRes.TxsResults.map (fun r => (r.Code, r.Log)) ∧
  (∀ r ∈ txEventResp.TxResponses, r.Code = 0 → env.ParseABCILogs r.RawLog = .ok r.Logs) ∧
  (∀ r ∈ txEventResp.TxResponses,
    r.Timestamp = env.timeFormat blockResults.Block.Time ∧ r.Height = blockResults.Block.Height)

/-- An event that is neither a send on the tx-batch channel nor a call of
`UpsertFailedBlock`. -/
def Event.quiet : Event → Bool
  | .send _ => false
  | .UpsertFailedBlock _ => false
  | _ => true

/-- A record of events in which no batch is sent and no block stored as failed. -/
def Quiet (trace : List Event) : Prop := ∀ e ∈ trace, e.quiet = true

/-- The record of events ends with the one send it has, of a batch for the
given height. -/
def OneSend (blockToProcess : Int) (trace : List Event) : Prop :=
  ∃ pre d, trace = pre ++ [Event.send d] ∧ d.blockHeight = blockToProcess ∧ Quiet pre

/-- The state an enqueuer run has reached. -/
def EnqResult.state : EnqResult → EnqState
  | .returned s => s
  | .fatal s => s
  | .running s => s

/-- The heights sent on the heights channel, in the order of the sends. -/
def sentHeights : List EnqEvent → List Int
  | [] => []
  | .send height :: rest => height :: sentHeights rest
  | .latest _ :: rest => sentHeights rest
  | .startingHeight _ :: rest => sentHeights rest

/-- The `n` heights from `height` on, in increasing order. -/
def heightsFrom (height : Int) : Nat → List Int
  | 0 => []
  | n + 1 => height :: heightsFrom (height + 1) n

/-- A height the live loop does not skip: the enqueuer is in reindex mode or
the block is not already indexed. -/
def wanted (cfg : Base) (db : Database) (chainID : Nat) (height : Int) : Bool :=
  cfg.ReIndex || !blockAlreadyIndexed height chainID db

/-- The heights among the `n` from `height` on that the live loop does not
skip, in increasing order. -/
def toSend (cfg : Base) (db : Database) (chainID : Nat) (height : Int) (n : Nat) : List Int :=
  (heightsFrom height n).filter (wanted cfg db chainID)

/-- Every height sent in the events is at most `endBlock` and at most the
latest height the node has reported last before the send, `last` being the
report before the events. -/
def boundedSends (endBlock : Int) : Option Int → List EnqEvent → Prop
  | _, [] => True
  | last, .send height :: rest =>
    height ≤ endBlock ∧ (∃ latest, last = some latest ∧ height ≤ latest) ∧
      boundedSends endBlock last rest
  | _, .latest latest :: rest => boundedSends endBlock (some latest) rest
  | last, .startingHeight _ :: rest => boundedSends endBlock last rest

/-- The persist operation of a tx batch, as `doDBUpdates` calls it. -/
def persistTx {σ : Type} (env : WriterEnv σ) (dbChainID : Nat) (data : dbData) :
    σ → Option GoError × σ :=
  fun db => env.IndexNewBlock db data.blockHeight data.blockTime data.txDBWrappers dbChainID

/-- The persist operation of a block-events batch, as `doDBUpdates` calls it. -/
def persistBlockEvents {σ : Type} (env : WriterEnv σ) (dryRun : Bool)
    (eventData : blockEventsDBData) : σ → Option GoError × σ :=
  fun db => env.IndexBlockEvents db dryRun eventData.blockHeight eventData.blockTime
    eventData.blockRelevantEvents ("block " ++ toString eventData.blockHeight)

/-- The persist operation of an epoch-events batch, as `doDBUpdates` calls it. -/
def persistEpochEvents {σ : Type} (env : WriterEnv σ) (dryRun : Bool)
    (epochEventData : epochEventsDBData) : σ → Option GoError × σ :=
  fun db => env.IndexBlockEvents db dryRun epochEventData.blockHeight epochEventData.blockTime
    epochEventData.blockRelevantEvents
    ("epoch " ++ toString epochEventData.epochNumber ++ " in epoch identifier "
      ++ epochEventData.epochIdentifier)

/-- The first attempt of a persist operation on the database fails. -/
def firstFails {σ : Type} (attempt : σ → Option GoError × σ) (db : σ) : Bool :=
  (attempt db).1.isSome

/-- A second attempt of the persist operation, on the database the first
attempt has left, fails. -/
def secondFails {σ : Type} (attempt : σ → Option GoError × σ) (db : σ) : Bool :=
  (attempt (attempt db).2).1.isSome

/-- The outcomes of the attempts the spec asks for: one attempt when the first
succeeds, two when it fails, true for a success. -/
def expectedOutcomes {σ : Type} (attempt : σ → Option GoError × σ) (db : σ) : List Bool :=
  if firstFails attempt db then [false, !secondFails attempt db] else [true]

/-- The database after the attempts the spec asks for. -/
def afterAttempts {σ : Type} (attempt : σ → Option GoError × σ) (db : σ) : σ :=
  if firstFails attempt db then (attempt (attempt db).2).2 else (attempt db).2

/-- The outcome of the persist attempt an event of the writer records, if it
records one. -/
def WEvent.persistOutcome : WEvent → Option Bool
  | .IndexNewBlock _ ok => some ok
  | .IndexBlockEvents _ ok => some ok
  | _ => none

/-- The outcomes of the persist attempts in a log of the writer, in order. -/
def persistOutcomes (log : List WEvent) : List Bool :=
  log.filterMap WEvent.persistOutcome

/-- The state a run of the writer has reached. -/
def WResult.state {σ : Type} : WResult σ → WState σ
  | .returned st => st
  | .aborted st _ => st
  | .blocked st => st
  | .running st => st

/-- The run of the writer has ended the process. -/
def WResult.isAborted {σ : Type} : WResult σ → Bool
  | .aborted _ _ => true
  | _ => false

/-- The last thing the log records is the end of a tx batch: its reception in
a dry run, the successful attempt of `IndexNewBlock` otherwise. -/
def endsWithTxBatch (log : List WEvent) : Bool :=
  match log.getLast? with
  | some (.received Case.txData _) => true
  | some (.IndexNewBlock _ true) => true
  | _ => false

/-- The block heights of the batches a channel handle still delivers; `none`
for a nil handle. -/
def Handles.heights (h : Handles) : Case → Option (List Int)
  | .txData => h.txDataChan.map fun ch => ch.pending.map fun d => d.blockHeight
  | .blockEvents => h.blockEventsDataChan.map fun ch => ch.pending.map fun d => d.blockHeight
  | .epochEvents => h.epochEventsDataChan.map fun ch => ch.pending.map fun d => d.blockHeight

/-- Whether the channel of a handle is closed after its batches; true for a
nil handle. -/
def Handles.closes (h : Handles) : Case → Bool
  | .txData => match h.txDataChan with | none => true | some ch => ch.closes
  | .blockEvents => match h.blockEventsDataChan with | none => true | some ch => ch.closes
  | .epochEvents => match h.epochEventsDataChan with | none => true | some ch => ch.closes

/-- The state an iteration of the block-event loop has reached. -/
def Iteration.state {σ : Type} : Iteration σ → EvState σ
  | .next _ _ st => st
  | .aborted st _ => st
  | .sleeping _ st => st

/-- The heights for which `UpsertFailedEventBlock` is called in the events, in
order. -/
def upsertedHeights : List EvEvent → List Int
  | [] => []
  | .UpsertFailedEventBlock height :: rest => height :: upsertedHeights rest
  | _ :: rest => upsertedHeights rest

/-- The batches sent on the block-events channel in the events, in order. -/
def sentBlockEvents : List EvEvent → List blockEventsDBData
  | [] => []
  | .sendBlockEvents res :: rest => res :: sentBlockEvents rest
  | _ :: rest => sentBlockEvents rest

/-- The batches sent on the epoch-events channel in the events, in order. -/
def sentEpochEvents : List EvEvent → List epochEventsDBData
  | [] => []
  | .sendEpochEvents res :: rest => res :: sentEpochEvents rest
  | _ :: rest => sentEpochEvents rest

/-- The block-results fetch, the event parsing or the block fetch fails at the
height, for a block-event iteration: the block is fetched only for a list of
relevant events that is not empty. -/
def BlockEventsFail {σ : Type} (env : EventsEnv σ) (height : Int) : Prop :=
  (∃ e, env.GetBlockResultWithRetry height = .error e) ∨
  (∃ r e, env.GetBlockResultWithRetry height = .ok r ∧ env.ProcessRPCBlockEvents r = .error e) ∨
  (∃ r events e, env.GetBlockResultWithRetry height = .ok r ∧
    env.ProcessRPCBlockEvents r = .ok events ∧ events ≠ [] ∧ env.GetBlock height = .error e)

/-- The block-results fetch, the event parsing or the block fetch fails at the
height, for an epoch iteration. -/
def EpochEventsFail {σ : Type} (env : EventsEnv σ) (identifier : String) (height : Int) : Prop :=
  (∃ e, env.GetBlockResultWithRetry height = .error e) ∨
  (∃ r e, env.GetBlockResultWithRetry height = .ok r ∧
    env.ProcessRPCEpochEvents r identifier = .error e) ∨
  (∃ r events e, env.GetBlockResultWithRetry height = .ok r ∧
    env.ProcessRPCEpochEvents r identifier = .ok events ∧ env.GetBlock height = .error e)

/-- What the spec asks of the events of one epoch: when a fetch or the parsing
fails at the start height, one failed event block is stored at that height and
nothing is sent; otherwise nothing is stored as failed and one batch is sent,
with the number of the epoch, the identifier, the parsed events and the time
of the block at the start height. -/
def EpochHandled {σ : Type} (env : EventsEnv σ) (identifier : String) (epoch : Epoch)
    (events : List EvEvent) : Prop :=
  (EpochEventsFail env identifier epoch.StartHeight →
    upsertedHeights events = [(epoch.StartHeight : Int)] ∧ sentEpochEvents events = []) ∧
  (∀ r relevant b, env.GetBlockResultWithRetry epoch.StartHeight = .ok r →
    env.ProcessRPCEpochEvents r identifier = .ok relevant →
    env.GetBlock epoch.StartHeight = .ok b →
    upsertedHeights events = [] ∧
    sentEpochEvents events
      = [⟨relevant, b.Block.Time, epoch.StartHeight, identifier, epoch.EpochNumber⟩])

/-! ## Sample inputs -/

/-- A decoder of a bank send, before it has handled a message. -/
def sampleDecoder : CosmosMessage := ⟨"/cosmos.bank.v1beta1.MsgSend", [], none⟩

/-- A handler that accepts every message and reports one transfer. -/
def acceptingHandler : HandlerFunc :=
  ⟨sampleDecoder, fun d _ _ _ =>
    ({ d with ParseRelevantData := [⟨"SENDER", "RECEIVER", some 5, some 5, "uatom", "uatom"⟩] },
      none)⟩

/-- A handler that rejects every message with an error of its own. -/
def rejectingHandler : HandlerFunc :=
  ⟨sampleDecoder, fun d _ _ _ => (d, some (.errorString "wrong message shape"))⟩

/-- A bank send message. -/
def sampleMsg : Msg := ⟨"/cosmos.bank.v1beta1.MsgSend", [1, 2, 3]⟩

/-- The log of the first message of a transaction, without events. -/
def sampleLog : LogMessage := ⟨0, []⟩

/-- A registry with one type URL, handled by the given list. -/
def registryOf (typeURL : String) (fs : List HandlerFunc) : Registry :=
  fun k => if k = typeURL then some fs else none

/-- A chain table with one entry, for the bank send type URL. -/
def sampleTable : HandlerTable :=
  ⟨[("/cosmos.bank.v1beta1.MsgSend", [rejectingHandler])], by simp⟩

/-- A compressed secp256k1 public key: 33 bytes. -/
def sampleKey : PubKey := ⟨2 :: List.replicate 32 17⟩

/-- A second key of the same shape. -/
def sampleInnerKey : PubKey := ⟨3 :: List.replicate 32 34⟩

/-- A byte string that is too short to be a public key. -/
def shortKey : PubKey := ⟨[1, 2, 3]⟩

/-- The decoded form of a sample raw transaction: one bank send for each of
its bytes, signed by `sampleKey`, paying 5000uatom, with no named payer. -/
def sampleDecode (raw : RawTx) : CosmosTx :=
  ⟨raw.bytes.map fun b => some ⟨"/cosmos.bank.v1beta1.MsgSend", [b]⟩,
    ⟨[⟨some (some (.pubKey sampleKey)), some (.single .SIGN_MODE_DIRECT)⟩],
      ⟨[⟨"uatom", 5000⟩], ""⟩⟩,
    [⟨[7]⟩], ⟨[7]⟩⟩

/-- The hash of a sample raw transaction: 32 bytes, the first one taken from
the transaction. -/
def sampleHash (raw : RawTx) : List Nat := raw.bytes.take 1 ++ List.replicate 31 171

/-- A sample environment over a database that is the list of the known
denomination bases. An address is derived from a key of 33 bytes only; a time
is written as its seconds; only one log text parses. -/
def sampleEnv : Env (List String) where
  GetDenomForBase db base :=
    if base ∈ db then .ok ⟨db.indexOf base + 1, base⟩ else .error (.errorString "denom not found")
  AddUnknownDenom db base := (.ok ⟨db.length + 1, base⟩, db ++ [base])
  ParseSignerAddress hexPub _ :=
    if hexPub.length = 66 then .ok ("cosmos1" ++ hexPub) else .error (.errorString "bad key")
  AccAddressString a := "cosmos1" ++ hexEncodeToString a.bytes
  GetMessageLogForIndex logs index := logs.find? fun l => l.MessageIndex == index
  ToLower str := String.mk (str.toList.map Char.toLower)
  timeParse str :=
    if str.toList.all Char.isDigit && !str.toList.isEmpty then
      .ok ⟨str.toList.foldl (fun n c => 10 * n + (c.toNat - 48)) 0⟩
    else .error (.errorString "cannot parse time")
  timeFormat t := toString t.unix
  TxDecoder raw := .ok (sampleDecode raw)
  ParseABCILogs log :=
    if log = "one message, no events" then .ok [⟨0, "", []⟩]
    else .error (.errorString "invalid character")
  TxHash := sampleHash
  UpsertFailedBlock db _ := (none, db)

/-- A parser state with an empty `allSwaps` and no warning logged. -/
def sampleState (db : List String) : PState (List String) := ⟨db, [], []⟩

/-- An auth info with one signer, given by its public key pointer and its mode
info, and with the given fee. -/
def authInfoOf (publicKey : Option (Option CachedKey)) (modeInfo : Option ModeInfo)
    (fee : Fee) : AuthInfo :=
  ⟨[⟨publicKey, modeInfo⟩], fee⟩

/-- A handler for the vote message that accepts it and reports a transfer. -/
def voteHandler : HandlerFunc :=
  ⟨⟨"/cosmos.gov.v1beta1.MsgVote", [], none⟩, fun d _ _ _ =>
    ({ d with ParseRelevantData := [⟨"SENDER", "RECEIVER", some 5, none, "uatom", ""⟩] }, none)⟩

/-- A vote message. -/
def voteMsg : Msg := ⟨"/cosmos.gov.v1beta1.MsgVote", [1]⟩

/-- A merged transaction with the given messages and code, a log without
events for each message, and a fee of 5000uatom from a named payer. -/
def sampleTx (msgs : List Msg) (code : Nat) : MergedTx :=
  ⟨⟨⟨msgs⟩,
    authInfoOf (some (some (.pubKey sampleKey))) (some (.single .SIGN_MODE_DIRECT))
      ⟨[⟨"uatom", 5000⟩], "cosmos1payer"⟩,
    [⟨[7]⟩]⟩,
   ⟨"A1B2", "100", "1700000000", "", msgs.enum.map fun p => ⟨p.1, []⟩, code⟩⟩

/-- The block at height 100: one transaction, at time 1700000000. -/
def sampleBlock : ResultBlock := ⟨⟨100, ⟨1700000000⟩, [⟨[1]⟩]⟩⟩

/-- The results of the block at height 100: its transaction succeeded. -/
def sampleBlockResults : ResultBlockResults := ⟨100, [⟨0, "one message, no events"⟩]⟩

/-- The answer of the txs-by-height query at height 100 for the same block. -/
def sampleTxsResponse : GetTxsEventResponse :=
  ⟨[sampleDecode ⟨[1]⟩],
    [⟨100, hexUpperEncode (sampleHash ⟨[1]⟩), 0, "one message, no events", [⟨0, "", []⟩],
      "1700000000"⟩]⟩

/-- A node whose txs-by-height query finds no transaction and whose
block-results query returns a nil result and a nil error. -/
def silentNode : RPC :=
  ⟨fun _ => .ok ⟨[], []⟩, fun _ => .ok none, fun h => .ok ⟨⟨h, ⟨1700000000⟩, []⟩⟩⟩

/-- The wrapper both parsers build for the transaction of the sample block, up
to the text of its hash. -/
def sampleWrapper (hash : String) : TxDBWrapper :=
  ⟨⟨hash, 0, [⟨5000, ⟨1, "uatom"⟩,
      ⟨"cosmos1021111111111111111111111111111111111111111111111111111111111111111"⟩⟩]⟩,
    ⟨"cosmos107"⟩,
    [⟨⟨0, ⟨"/cosmos.bank.v1beta1.MsgSend"⟩⟩,
      [⟨⟨5, 5, ⟨1, "uatom"⟩, ⟨1, "uatom"⟩⟩, ⟨"sender"⟩, ⟨"receiver"⟩⟩]⟩]⟩

/-- A node on which every block is empty: the txs-by-height query finds no
transaction, the block results have no transaction result, and the block is at
time 1700000000. -/
def emptyBlockNode : RPC :=
  ⟨fun _ => .ok ⟨[], []⟩, fun h => .ok (some ⟨h, []⟩), fun h => .ok ⟨⟨h, ⟨1700000000⟩, []⟩⟩⟩

/-- The rows of `blocks` for chain 1 with the given heights, all indexed. -/
def indexedBlocks (heights : List Int) : List BlockRow :=
  heights.map fun h => ⟨h.toNat, h, 1, true, ⟨1700000000⟩⟩

/-- A database of chain 1 with indexed blocks at the given heights and failed
blocks at the given heights; for a range in which nothing is missing it
answers with the start of the range. -/
def sampleDatabase (heights failed : List Int) : Database :=
  ⟨indexedBlocks heights, [], [], [], failed.map fun h => ⟨h, 1⟩, fun start _ => start⟩

/-- Surroundings in which the node always reports the same latest height and
the workers have emptied the heights channel whenever the enqueuer looks. -/
def calmSurroundings (latest : Int) : Surroundings :=
  ⟨fun _ => .ok latest, fun _ _ => 0⟩

/-- A configuration of the enqueuer with the given range, not in reindex mode,
with four tx workers and a block timer of five. -/
def sampleBase (startBlock endBlock : Int) : Base :=
  ⟨startBlock, endBlock, false, false, false, 4, 5, true, false, false⟩

/-- An enqueuer that has done nothing yet, in front of an empty channel. -/
def freshEnq : EnqState := ⟨[], 0, 0, 0⟩

/-- A database of chain 1 with indexed blocks at the heights 10, 15 and 20,
each with one transaction; the transactions of the blocks 10 and 20 have one
bank send message each, the one of block 15 has two. -/
def msgSendDatabase : Database :=
  ⟨indexedBlocks [10, 15, 20], [⟨10, 10⟩, ⟨15, 15⟩, ⟨20, 20⟩],
    [⟨1, 10, 1⟩, ⟨2, 15, 1⟩, ⟨3, 15, 1⟩, ⟨4, 20, 1⟩],
    [⟨1, "/cosmos.bank.v1beta1.MsgSend"⟩], [], fun start _ => start⟩

/-- A database of the writer that records the heights it was asked to store.
An attempt for a height in `flaky` fails the first time and succeeds from then
on; marking an epoch in `badEpochs` as indexed fails. -/
def flakyWriter (flaky : List Int) (badEpochs : List Nat) : WriterEnv (List Int) :=
  ⟨fun db height _ _ _ =>
      if height ∈ flaky ∧ height ∉ db then (some (.errorString "deadlock detected"), height :: db)
      else (none, height :: db),
    fun db _ height _ _ _ =>
      if height ∈ flaky ∧ height ∉ db then (some (.errorString "deadlock detected"), height :: db)
      else (none, height :: db),
    fun db _ epochNumber _ =>
      if epochNumber ∈ badEpochs then (some (.errorString "record not found"), db)
      else (none, db)⟩

/-- The writer as it starts: an empty database and all counters zero. -/
def freshWriter : WState (List Int) := ⟨[], 0, 0, 0, []⟩

/-- The tx batch of an empty block at the height. -/
def txBatch (height : Int) : dbData := ⟨[], ⟨1700000000⟩, height⟩

/-- The block-events batch without events of the block at the height. -/
def blockEventsBatch (height : Int) : blockEventsDBData := ⟨[], ⟨1700000000⟩, height⟩

/-- The epoch-events batch without events of the epoch, at the height. -/
def epochEventsBatch (height : Int) (epochNumber : Nat) : epochEventsDBData :=
  ⟨[], ⟨1700000000⟩, height, "day", epochNumber⟩

/-- The handles of a writer that gets the tx batches at the heights and has
its two event channels already nil. -/
def txOnly (heights : List Int) : Handles :=
  ⟨some ⟨heights.map txBatch, true⟩, none, none⟩

/-- The handles of a writer that gets two tx batches, one block-events batch
and one epoch-events batch, each channel being closed after them. -/
def sampleHandles : Handles :=
  ⟨some ⟨[txBatch 1, txBatch 2], true⟩, some ⟨[blockEventsBatch 1], true⟩,
    some ⟨[epochEventsBatch 1 7], true⟩⟩

/-- A node and a database for the event loops. The block results of height 13
cannot be fetched, those of height 14 cannot be parsed, the block at height 16
cannot be fetched; a block at an even height has one relevant event, a block at
an odd height none, and every block has an epoch event. The node is at height
100. Storing a height in `unstorable` as failed fails; `epochs` is the table
of epochs. -/
def sampleEventsEnv (unstorable : List Int) (epochs : List Epoch) : EventsEnv (List Int) :=
  ⟨fun height => if height = 13 then .error "timeout" else .ok ⟨height, []⟩,
    fun r =>
      if r.Height = 14 then .error (.errorString "bad event")
      else if r.Height % 2 = 0 then .ok [⟨"block event"⟩] else .ok [],
    fun r _ => if r.Height = 14 then .error (.errorString "bad event") else .ok [⟨"epoch event"⟩],
    fun height =>
      if height = 16 then .error "timeout" else .ok ⟨⟨height, ⟨1700000000 + height⟩, []⟩⟩,
    fun _ => .ok 100,
    fun db height =>
      if height ∈ unstorable then (some (.errorString "connection lost"), db)
      else (none, height :: db),
    fun _ => (0, some (.errorString "record not found")),
    fun _ => .ok epochs⟩

/-- An event loop that has done nothing yet, on an empty database. -/
def freshEvents : EvState (List Int) := ⟨[], [], 0⟩

/-- The unindexed epoch of the identifier `day` of chain 1 with the number and
the start height. -/
def sampleEpoch (epochNumber startHeight : Nat) : Epoch :=
  ⟨epochNumber, startHeight, "day", 1, false⟩

theorem callsOf_nil (idx : Nat) : callsOf idx [] = [] := rfl

theorem callsOf_cons (idx : Nat) (f : HandlerFunc) (fs : List HandlerFunc) :
    callsOf idx (f :: fs) = (idx, f.create) :: callsOf (idx + 1) fs := rfl

/-- The loop over a list whose first accepting handler is `h`: it stops at `h`
with a nil error and the decoder of `h`, having called `pre` and `h` only. -/
theorem handlerLoop_accepts (message : Msg) (log : LogMessage) (h : HandlerFunc)
    (post : List HandlerFunc) (hacc : h.accepts message log) :
    ∀ (pre : List HandlerFunc) (idx : Nat) (cur : Option CosmosMessage) (err : Option GoError)
      (calls : List (Nat × CosmosMessage)),
      (∀ f ∈ pre, ¬ f.accepts message log) →
      handlerLoop message.typeURL message log idx (pre ++ h :: post) cur err calls
        = ⟨some (h.run message log).1, message.typeURL, none,
            calls ++ callsOf idx (pre ++ [h])⟩ := by
  intro pre
  induction pre with
  | nil =>
    intro idx cur err calls _
    have hacc2 : (h.HandleMsg h.create message.typeURL message log).2 = none := hacc
    simp [handlerLoop, hacc2, HandlerFunc.run, callsOf_cons, callsOf_nil]
  | cons f pre ih =>
    intro idx cur err calls hpre
    have hf : ¬ f.accepts message log := hpre f (List.mem_cons_self _ _)
    have hrest : ∀ g ∈ pre, ¬ g.accepts message log :=
      fun g hg => hpre g (List.mem_cons_of_mem _ hg)
    cases hr : (f.HandleMsg f.create message.typeURL message log).2 with
    | none => exact absurd hr hf
    | some e =>
      simp only [List.cons_append, handlerLoop, hr, List.append_eq]
      rw [ih (idx + 1) _ _ _ hrest, callsOf_cons]
      simp

/-- The loop over a non-empty list all of whose handlers reject: it ends with
the decoder and the error of the last handler, having called every handler. -/
theorem handlerLoop_rejects (message : Msg) (log : LogMessage) (last : HandlerFunc) :
    ∀ (init : List HandlerFunc) (idx : Nat) (cur : Option CosmosMessage) (err : Option GoError)
      (calls : List (Nat × CosmosMessage)),
      (∀ f ∈ init ++ [last], ¬ f.accepts message log) →
      handlerLoop message.typeURL message log idx (init ++ [last]) cur err calls
        = ⟨some (last.run message log).1, message.typeURL, (last.run message log).2,
            calls ++ callsOf idx (init ++ [last])⟩ := by
  intro init
  induction init with
  | nil =>
    intro idx cur err calls hall
    have hl : ¬ last.accepts message log := hall last (by simp)
    cases hr : (last.HandleMsg last.create message.typeURL message log).2 with
    | none => exact absurd hr hl
    | some e =>
      simp [handlerLoop, hr, HandlerFunc.run, callsOf_cons, callsOf_nil]
  | cons f init ih =>
    intro idx cur err calls hall
    have hf : ¬ f.accepts message log := hall f (by simp)
    have hrest : ∀ g ∈ init ++ [last], ¬ g.accepts message log :=
      fun g hg => hall g (by simp only [List.cons_append, List.mem_cons]; exact Or.inr hg)
    cases hr : (f.HandleMsg f.create message.typeURL message log).2 with
    | none => exact absurd hr hf
    | some e =>
      simp only [List.cons_append, handlerLoop, hr, List.append_eq]
      rw [ih (idx + 1) _ _ _ hrest, callsOf_cons]
      simp

/-- A list with an accepting handler splits at its first accepting handler. -/
theorem exists_first_accepting (message : Msg) (log : LogMessage) :
    ∀ (fs : List HandlerFunc), (∃ f ∈ fs, f.accepts message log) →
      ∃ pre h post, fs = pre ++ h :: post ∧ (∀ f ∈ pre, ¬ f.accepts message log) ∧
        h.accepts message log := by
  intro fs
  induction fs with
  | nil => rintro ⟨f, hf, _⟩; exact absurd hf (List.not_mem_nil f)
  | cons g fs ih =>
    rintro ⟨f, hf, hacc⟩
    by_cases hg : g.accepts message log
    · exact ⟨[], g, fs, rfl, by simp, hg⟩
    · have hf2 : f ∈ fs := by
        rcases List.mem_cons.mp hf with rfl | h
        · exact absurd hacc hg
        · exact h
      obtain ⟨pre, h, post, hsplit, hpre, hh⟩ := ih ⟨f, hf2, hacc⟩
      refine ⟨g :: pre, h, post, by simp [hsplit], ?_, hh⟩
      intro f2 hf2
      rcases List.mem_cons.mp hf2 with rfl | h2
      · exact hg
      · exact hpre f2 h2

/-- C6: when the type URL of a message is registered with a handler list of
which at least one handler accepts the message, the list splits at its first
accepting handler `h`, and `ParseCosmosMessage` returns a nil error with the
decoder of `h`; it has offered the message, in list order and each time to a
freshly created decoder, to the handlers before `h` and to `h`, and to no
handler after `h`. -/
theorem ParseCosmosMessage_first_accepting_wins (messageTypeHandler : Registry) (message : Msg)
    (log : LogMessage) (handlerList : List HandlerFunc)
    (hreg : messageTypeHandler message.typeURL = some handlerList)
    (hsome : ∃ f ∈ handlerList, f.accepts message log) :
    ∃ pre h post, handlerList = pre ++ h :: post ∧
      (∀ f ∈ pre, ¬ f.accepts message log) ∧ h.accepts message log ∧
      (ParseCosmosMessage messageTypeHandler message log).err = none ∧
      (ParseCosmosMessage messageTypeHandler message log).msgHandler
        = some (h.run message log).1 ∧
      (ParseCosmosMessage messageTypeHandler message log).msgType = message.typeURL ∧
      (ParseCosmosMessage messageTypeHandler message log).invoked = callsOf 0 (pre ++ [h]) := by
  obtain ⟨pre, h, post, hsplit, hpre, hh⟩ := exists_first_accepting message log handlerList hsome
  refine ⟨pre, h, post, hsplit, hpre, hh, ?_⟩
  have hloop := handlerLoop_accepts message log h post hh pre 0 none none [] hpre
  simp only [ParseCosmosMessage, hreg, hsplit, hloop, List.nil_append, and_self]

/-- C6, on a registry whose list for the bank send is a rejecting handler
followed by two accepting ones. -/
theorem ParseCosmosMessage_first_accepting_wins_witness :
    ∃ pre h post, [rejectingHandler, acceptingHandler, acceptingHandler] = pre ++ h :: post ∧
      (∀ f ∈ pre, ¬ f.accepts sampleMsg sampleLog) ∧ h.accepts sampleMsg sampleLog ∧
      (ParseCosmosMessage (registryOf sampleMsg.typeURL
          [rejectingHandler, acceptingHandler, acceptingHandler]) sampleMsg sampleLog).err
        = none ∧
      (ParseCosmosMessage (registryOf sampleMsg.typeURL
          [rejectingHandler, acceptingHandler, acceptingHandler]) sampleMsg sampleLog).msgHandler
        = some (h.run sampleMsg sampleLog).1 ∧
      (ParseCosmosMessage (registryOf sampleMsg.typeURL
          [rejectingHandler, acceptingHandler, acceptingHandler]) sampleMsg sampleLog).msgType
        = sampleMsg.typeURL ∧
      (ParseCosmosMessage (registryOf sampleMsg.typeURL
          [rejectingHandler, acceptingHandler, acceptingHandler]) sampleMsg sampleLog).invoked
        = callsOf 0 (pre ++ [h]) :=
  ParseCosmosMessage_first_accepting_wins
    (registryOf sampleMsg.typeURL [rejectingHandler, acceptingHandler, acceptingHandler])
    sampleMsg sampleLog [rejectingHandler, acceptingHandler, acceptingHandler]
    (by simp [registryOf])
    ⟨acceptingHandler, by simp, rfl⟩

/-- C7, as stated, fails: the bank send type URL is registered with one
handler, which rejects the message with an error of its own, and
`ParseCosmosMessage` returns that error, which is not `ErrUnknownMessage`. -/
theorem ParseCosmosMessage_all_reject_not_unknown :
    registryOf sampleMsg.typeURL [rejectingHandler] sampleMsg.typeURL = some [rejectingHandler] ∧
    (∀ f ∈ [rejectingHandler], ¬ f.accepts sampleMsg sampleLog) ∧
    (ParseCosmosMessage (registryOf sampleMsg.typeURL [rejectingHandler]) sampleMsg sampleLog).err
      = some (GoError.errorString "wrong message shape") ∧
    (ParseCosmosMessage (registryOf sampleMsg.typeURL [rejectingHandler]) sampleMsg sampleLog).err
      ≠ some GoError.ErrUnknownMessage := by
  refine ⟨by simp [registryOf], ?_, ?_, ?_⟩
  · intro f hf
    rw [List.mem_singleton.mp hf]
    simp [HandlerFunc.accepts, HandlerFunc.run, rejectingHandler]
  · simp [ParseCosmosMessage, registryOf, handlerLoop, rejectingHandler]
  · simp [ParseCosmosMessage, registryOf, handlerLoop, rejectingHandler]

/-- C7, amended: when the type URL of a message is registered with a non-empty
handler list and every handler rejects the message, `ParseCosmosMessage` has
offered the message to every handler and returns the decoder and the error of
the last one: a non-nil error, which is `ErrUnknownMessage` exactly when that
is what the last decoder returned. -/
theorem ParseCosmosMessage_all_reject (messageTypeHandler : Registry) (message : Msg)
    (log : LogMessage) (init : List HandlerFunc) (last : HandlerFunc)
    (hreg : messageTypeHandler message.typeURL = some (init ++ [last]))
    (hall : ∀ f ∈ init ++ [last], ¬ f.accepts message log) :
    (ParseCosmosMessage messageTypeHandler message log).err = (last.run message log).2 ∧
    (ParseCosmosMessage messageTypeHandler message log).err ≠ none ∧
    ((ParseCosmosMessage messageTypeHandler message log).err = some GoError.ErrUnknownMessage ↔
      (last.run message log).2 = some GoError.ErrUnknownMessage) ∧
    (ParseCosmosMessage messageTypeHandler message log).msgHandler
      = some (last.run message log).1 ∧
    (ParseCosmosMessage messageTypeHandler message log).invoked = callsOf 0 (init ++ [last]) := by
  have hloop := handlerLoop_rejects message log last init 0 none none [] hall
  have hlast : ¬ last.accepts message log := hall last (by simp)
  have herr : (ParseCosmosMessage messageTypeHandler message log).err
      = (last.run message log).2 := by
    simp only [ParseCosmosMessage, hreg, hloop]
  refine ⟨herr, ?_, ?_, ?_, ?_⟩
  · rw [herr]; exact hlast
  · rw [herr]
  · simp only [ParseCosmosMessage, hreg, hloop]
  · simp only [ParseCosmosMessage, hreg, hloop, List.nil_append]

/-- C7, amended, on a registry whose list for the bank send is two rejecting
handlers. -/
theorem ParseCosmosMessage_all_reject_witness :
    (ParseCosmosMessage (registryOf sampleMsg.typeURL [rejectingHandler, rejectingHandler])
        sampleMsg sampleLog).err = (rejectingHandler.run sampleMsg sampleLog).2 ∧
    (ParseCosmosMessage (registryOf sampleMsg.typeURL [rejectingHandler, rejectingHandler])
        sampleMsg sampleLog).err ≠ none ∧
    ((ParseCosmosMessage (registryOf sampleMsg.typeURL [rejectingHandler, rejectingHandler])
        sampleMsg sampleLog).err = some GoError.ErrUnknownMessage ↔
      (rejectingHandler.run sampleMsg sampleLog).2 = some GoError.ErrUnknownMessage) ∧
    (ParseCosmosMessage (registryOf sampleMsg.typeURL [rejectingHandler, rejectingHandler])
        sampleMsg sampleLog).msgHandler = some (rejectingHandler.run sampleMsg sampleLog).1 ∧
    (ParseCosmosMessage (registryOf sampleMsg.typeURL [rejectingHandler, rejectingHandler])
        sampleMsg sampleLog).invoked = callsOf 0 ([rejectingHandler] ++ [rejectingHandler]) :=
  ParseCosmosMessage_all_reject
    (registryOf sampleMsg.typeURL [rejectingHandler, rejectingHandler]) sampleMsg sampleLog
    [rejectingHandler] rejectingHandler (by simp [registryOf])
    (by
      intro f hf
      have hf2 : f = rejectingHandler := by simpa using hf
      rw [hf2]
      simp [HandlerFunc.accepts, HandlerFunc.run, rejectingHandler])

/-- A type URL that is not registered gets `ErrUnknownMessage`, no decoder, and
no handler is called. -/
theorem ParseCosmosMessage_unregistered (messageTypeHandler : Registry) (message : Msg)
    (log : LogMessage) (hreg : messageTypeHandler message.typeURL = none) :
    ParseCosmosMessage messageTypeHandler message log
      = ⟨none, message.typeURL, some GoError.ErrUnknownMessage, []⟩ := by
  simp only [ParseCosmosMessage, hreg]

/-- One step of the bootstrap loop leaves every other key alone. -/
theorem bootstrapStep_other (reg : Registry) (e : String × List HandlerFunc) (key : String)
    (hne : key ≠ e.1) : bootstrapStep reg e key = reg key := by
  unfold bootstrapStep
  cases reg e.1 <;> simp [Registry.set, hne]

/-- One step of the bootstrap loop puts the chain list before the old one. -/
theorem bootstrapStep_self (reg : Registry) (e : String × List HandlerFunc) :
    bootstrapStep reg e e.1 = some (e.2 ++ (reg e.1).getD []) := by
  unfold bootstrapStep
  cases reg e.1 <;> simp [Registry.set]

/-- The bootstrap loop leaves a key that is not in the table alone. -/
theorem foldl_bootstrapStep_not_mem (key : String) :
    ∀ (entries : List (String × List HandlerFunc)) (reg : Registry),
      key ∉ entries.map Prod.fst → entries.foldl bootstrapStep reg key = reg key := by
  intro entries
  induction entries with
  | nil => intro reg _; rfl
  | cons e rest ih =>
    intro reg hkey
    have hne : key ≠ e.1 := fun h => hkey (by simp [h])
    have hrest : key ∉ rest.map Prod.fst := fun h => hkey (by simp only [List.map_cons]; exact List.mem_cons_of_mem _ h)
    rw [List.foldl_cons, ih _ hrest, bootstrapStep_other reg e key hne]

/-- The bootstrap loop over a table with distinct keys: the list of an entry
ends up before the list registered at entry. -/
theorem foldl_bootstrapStep_mem (key : String) (value : List HandlerFunc) :
    ∀ (entries : List (String × List HandlerFunc)) (reg : Registry),
      (entries.map Prod.fst).Nodup → (key, value) ∈ entries →
      entries.foldl bootstrapStep reg key = some (value ++ (reg key).getD []) := by
  intro entries
  induction entries with
  | nil => intro reg _ h; exact absurd h (List.not_mem_nil _)
  | cons e rest ih =>
    intro reg hnd hmem
    rw [List.map_cons, List.nodup_cons] at hnd
    rw [List.foldl_cons]
    rcases List.mem_cons.mp hmem with heq | hin
    · have hk : key ∉ rest.map Prod.fst := by
        have : e.1 = key := by rw [← heq]
        rw [← this]; exact hnd.1
      rw [foldl_bootstrapStep_not_mem key rest _ hk, ← heq]
      exact bootstrapStep_self reg (key, value)
    · have hne : key ≠ e.1 := by
        intro h
        apply hnd.1
        rw [← h]
        exact List.mem_map_of_mem Prod.fst hin
      rw [ih _ hnd.2 hin, bootstrapStep_other reg e key hne]

/-- C9: after the bootstrap for the Osmosis chain id, the registry maps every
type URL of the chain table to the chain list followed by the list registered
before (to the chain list alone if none was), and every other type URL to what
it mapped to before; for any other chain id the registry is unchanged. -/
theorem ChainSpecificMessageTypeHandlerBootstrap_prepends (osmosisChainID : String)
    (osmosisMessageTypeHandler : HandlerTable) (messageTypeHandler : Registry)
    (chainID : String) :
    (chainID = osmosisChainID →
      (∀ key value, (key, value) ∈ osmosisMessageTypeHandler.entries →
        ChainSpecificMessageTypeHandlerBootstrap osmosisChainID osmosisMessageTypeHandler
            messageTypeHandler chainID key
          = some (value ++ (messageTypeHandler key).getD [])) ∧
      (∀ key, key ∉ osmosisMessageTypeHandler.entries.map Prod.fst →
        ChainSpecificMessageTypeHandlerBootstrap osmosisChainID osmosisMessageTypeHandler
            messageTypeHandler chainID key
          = messageTypeHandler key)) ∧
    (chainID ≠ osmosisChainID →
      ChainSpecificMessageTypeHandlerBootstrap osmosisChainID osmosisMessageTypeHandler
          messageTypeHandler chainID
        = messageTypeHandler) := by
  refine ⟨fun hid => ⟨?_, ?_⟩, fun hid => ?_⟩
  · intro key value hmem
    simp only [ChainSpecificMessageTypeHandlerBootstrap, hid, if_true]
    exact foldl_bootstrapStep_mem key value _ _ osmosisMessageTypeHandler.nodup hmem
  · intro key hkey
    simp only [ChainSpecificMessageTypeHandlerBootstrap, hid, if_true]
    exact foldl_bootstrapStep_not_mem key _ _ hkey
  · simp only [ChainSpecificMessageTypeHandlerBootstrap, hid, if_false]
    rfl

/-- C9, on the sample table: the bank send had an accepting handler registered
and gets the rejecting chain handler before it, an unrelated type URL stays
unregistered, and the bootstrap for another chain changes nothing. -/
theorem ChainSpecificMessageTypeHandlerBootstrap_prepends_witness :
    ChainSpecificMessageTypeHandlerBootstrap "osmosis-1" sampleTable
        (registryOf "/cosmos.bank.v1beta1.MsgSend" [acceptingHandler]) "osmosis-1"
        "/cosmos.bank.v1beta1.MsgSend"
      = some ([rejectingHandler] ++
          ((registryOf "/cosmos.bank.v1beta1.MsgSend" [acceptingHandler])
            "/cosmos.bank.v1beta1.MsgSend").getD []) ∧
    ChainSpecificMessageTypeHandlerBootstrap "osmosis-1" sampleTable
        (registryOf "/cosmos.bank.v1beta1.MsgSend" [acceptingHandler]) "osmosis-1"
        "/cosmos.gov.v1beta1.MsgVote"
      = (registryOf "/cosmos.bank.v1beta1.MsgSend" [acceptingHandler])
          "/cosmos.gov.v1beta1.MsgVote" ∧
    ChainSpecificMessageTypeHandlerBootstrap "osmosis-1" sampleTable
        (registryOf "/cosmos.bank.v1beta1.MsgSend" [acceptingHandler]) "cosmoshub-4"
      = registryOf "/cosmos.bank.v1beta1.MsgSend" [acceptingHandler] :=
  ⟨((ChainSpecificMessageTypeHandlerBootstrap_prepends "osmosis-1" sampleTable
      (registryOf "/cosmos.bank.v1beta1.MsgSend" [acceptingHandler]) "osmosis-1").1 rfl).1
      "/cosmos.bank.v1beta1.MsgSend" [rejectingHandler] (by simp [sampleTable]),
   ((ChainSpecificMessageTypeHandlerBootstrap_prepends "osmosis-1" sampleTable
      (registryOf "/cosmos.bank.v1beta1.MsgSend" [acceptingHandler]) "osmosis-1").1 rfl).2
      "/cosmos.gov.v1beta1.MsgVote" (by simp [sampleTable]),
   (ChainSpecificMessageTypeHandlerBootstrap_prepends "osmosis-1" sampleTable
      (registryOf "/cosmos.bank.v1beta1.MsgSend" [acceptingHandler]) "cosmoshub-4").2
      (by decide)⟩

/-! ## Fees -/

section Fees

variable {σ : Type}

/-- Every fee built by the fee loop comes from a coin with a non-zero amount,
has that amount, and has the payer address computed for the transaction. -/
theorem feesLoop_forall (env : Env σ) (authInfo : AuthInfo) (signers : List AccAddress)
    (P : DbFee → Prop) :
    ∀ (coins : List Coin) (db : σ) (fees : List DbFee) (out : List DbFee)
      (err : Option GoError) (db1 : σ),
      (∀ coin ∈ coins, coin.Amount ≠ 0 → ∀ denom payer,
        payerAddr env authInfo signers = .ok payer → P ⟨coin.Amount, denom, payer⟩) →
      (∀ fee ∈ fees, P fee) →
      feesLoop env authInfo signers coins db fees = .ok ((out, err), db1) →
      ∀ fee ∈ out, P fee := by
  intro coins
  induction coins with
  | nil =>
    intro db fees out err db1 _ hfees h
    simp only [feesLoop, Except.ok.injEq, Prod.mk.injEq] at h
    obtain ⟨⟨rfl, _⟩, _⟩ := h
    exact hfees
  | cons coin rest ih =>
    intro db fees out err db1 hcoins hfees h
    have hrest : ∀ c ∈ rest, c.Amount ≠ 0 → ∀ denom payer,
        payerAddr env authInfo signers = .ok payer → P ⟨c.Amount, denom, payer⟩ :=
      fun c hc => hcoins c (List.mem_cons_of_mem _ hc)
    unfold feesLoop at h
    split at h
    · next hne =>
      split at h
      · next e dbx hl =>
        simp only [Except.ok.injEq, Prod.mk.injEq] at h
        obtain ⟨⟨rfl, _⟩, _⟩ := h
        intro fee hfee
        exact absurd hfee (List.not_mem_nil _)
      · next denom dbx hl =>
        split at h
        · exact absurd h (by simp)
        · next payer hp =>
          refine ih dbx _ out err db1 hrest ?_ h
          intro fee hfee
          rcases List.mem_append.mp hfee with hin | hin
          · exact hfees fee hin
          · rw [List.mem_singleton.mp hin]
            exact hcoins coin (List.mem_cons_self _ _) hne denom payer hp
    · exact ih db fees out err db1 hrest hfees h

/-- The key `signerPubKey` yields is the key of the fee rule. -/
theorem signerPubKey_ok (first : SignerInfo) (k : PubKey) (h : signerPubKey first = .ok k) :
    IsPayerKey first k := by
  unfold signerPubKey at h
  unfold IsPayerKey
  cases hc : stringsContains (ModeInfo.multiString first.ModeInfo)
      "mode:SIGN_MODE_LEGACY_AMINO_JSON" with
  | true =>
    left
    refine ⟨rfl, ?_⟩
    rcases hpk : first.PublicKey with _ | _ | _ | k2 | ⟨own, _ | ⟨k2, rest⟩⟩ <;>
      simp [hc, hpk] at h
    exact ⟨own, rest, by rw [h]⟩
  | false =>
    right
    refine ⟨rfl, ?_⟩
    rcases hpk : first.PublicKey with _ | _ | _ | k2 | ⟨own, inner⟩ <;>
      simp [hc, hpk] at h
    · exact Or.inl (by rw [h])
    · exact Or.inr ⟨inner, by rw [h]⟩

/-- The payer address by cases, when there is one. -/
theorem payerAddr_cases (env : Env σ) (authInfo : AuthInfo) (signers : List AccAddress)
    (payer : Address) (h : payerAddr env authInfo signers = .ok payer) :
    (authInfo.Fee.Payer ≠ "" → payer.Address = authInfo.Fee.Payer) ∧
    (authInfo.Fee.Payer = "" → ∃ first rest, authInfo.SignerInfos = first :: rest ∧
      (first.PublicKey = none ∧ signers ≠ [] →
        ∃ s, signers.head? = some s ∧ payer.Address = env.AccAddressString s) ∧
      (¬ (first.PublicKey = none ∧ signers ≠ []) →
        ∃ k, IsPayerKey first k ∧ payer.Address = derivedAddress env k)) := by
  unfold payerAddr at h
  split at h
  · next hp =>
    simp only [Except.ok.injEq] at h
    subst h
    exact ⟨fun _ => rfl, fun he => absurd he hp⟩
  · next hp =>
    have hp2 : authInfo.Fee.Payer = "" := by simpa using hp
    refine ⟨fun hne => absurd hp2 hne, fun _ => ?_⟩
    split at h
    · exact absurd h (by simp)
    · next first rest hsi =>
      refine ⟨first, rest, hsi, ?_⟩
      have hother : ¬ (first.PublicKey = none ∧ signers ≠ []) →
          (match signerPubKey first with
            | .error a => (.error a : Except Abort Address)
            | .ok pubKey =>
              match env.ParseSignerAddress (hexEncodeToString pubKey.Bytes) "" with
              | .error _ => .ok ⟨""⟩
              | .ok bechAddr => .ok ⟨bechAddr⟩) = .ok payer →
          ∃ k, IsPayerKey first k ∧ payer.Address = derivedAddress env k := by
        intro _ h2
        split at h2
        · exact absurd h2 (by simp)
        · next pubKey hk =>
          refine ⟨pubKey, signerPubKey_ok first pubKey hk, ?_⟩
          unfold derivedAddress
          split at h2
          · next e he =>
            simp only [Except.ok.injEq] at h2
            subst h2
            simp only [he]
          · next bechAddr he =>
            simp only [Except.ok.injEq] at h2
            subst h2
            simp only [he]
      cases hpk : first.PublicKey with
      | none =>
        cases hs : signers with
        | nil =>
          simp only [hpk, hs] at h
          exact ⟨fun hc => absurd rfl hc.2, fun hc => hother (by simp [hs]) h⟩
        | cons s tl =>
          simp only [hpk, hs, Except.ok.injEq] at h
          subst h
          exact ⟨fun _ => ⟨s, rfl, rfl⟩, fun hn => absurd ⟨rfl, by simp⟩ hn⟩
      | some pk =>
        simp only [hpk] at h
        exact ⟨fun hc => absurd hc.1 (by simp), fun hc => hother (by simp [hpk]) h⟩

/-- C4, as stated, fails: a fee coin with the amount -5 is not dropped, and the
fee returned for it has the amount -5, which is not greater than zero. -/
theorem ProcessFees_negative_amount :
    ProcessFees sampleEnv ["uatom"]
        (authInfoOf (some (some (.pubKey sampleKey))) (some (.single .SIGN_MODE_DIRECT))
          ⟨[⟨"uatom", -5⟩], "cosmos1payer"⟩) []
      = .ok (([⟨-5, ⟨1, "uatom"⟩, ⟨"cosmos1payer"⟩⟩], none), ["uatom"]) ∧
    ¬ (0 < (⟨-5, ⟨1, "uatom"⟩, ⟨"cosmos1payer"⟩⟩ : DbFee).Amount) :=
  ⟨rfl, by decide⟩

/-- C4, amended: every fee `ProcessFees` returns has the amount of one of the
fee coins and that amount is not zero; it is greater than zero when no fee coin
has a negative amount. -/
theorem ProcessFees_amount_ne_zero (env : Env σ) (db : σ) (authInfo : AuthInfo)
    (signers : List AccAddress) (fees : List DbFee) (err : Option GoError) (db1 : σ)
    (h : ProcessFees env db authInfo signers = .ok ((fees, err), db1)) :
    ∀ fee ∈ fees, fee.Amount ≠ 0 ∧
      (∃ coin ∈ authInfo.Fee.Amount, fee.Amount = coin.Amount) ∧
      ((∀ coin ∈ authInfo.Fee.Amount, 0 ≤ coin.Amount) → 0 < fee.Amount) := by
  refine feesLoop_forall env authInfo signers _ authInfo.Fee.Amount db [] fees err db1 ?_ ?_ h
  · intro coin hcoin hne denom payer _
    refine ⟨hne, ⟨coin, hcoin, rfl⟩, fun hall => ?_⟩
    exact lt_of_le_of_ne (hall coin hcoin) (Ne.symm hne)
  · intro fee hfee
    exact absurd hfee (List.not_mem_nil _)

/-- C4, amended, on a fee of 5000uatom, 0uosmo and 3ibc/X: the fee for
5000uatom. -/
theorem ProcessFees_amount_ne_zero_witness :
    (⟨5000, ⟨1, "uatom"⟩, ⟨"cosmos1payer"⟩⟩ : DbFee).Amount ≠ 0 ∧
    (∃ coin ∈ ([⟨"uatom", 5000⟩, ⟨"uosmo", 0⟩, ⟨"ibc/X", 3⟩] : List Coin),
      (⟨5000, ⟨1, "uatom"⟩, ⟨"cosmos1payer"⟩⟩ : DbFee).Amount = coin.Amount) ∧
    ((∀ coin ∈ ([⟨"uatom", 5000⟩, ⟨"uosmo", 0⟩, ⟨"ibc/X", 3⟩] : List Coin), 0 ≤ coin.Amount) →
      0 < (⟨5000, ⟨1, "uatom"⟩, ⟨"cosmos1payer"⟩⟩ : DbFee).Amount) :=
  ProcessFees_amount_ne_zero sampleEnv ["uatom"]
    (authInfoOf (some (some (.pubKey sampleKey))) (some (.single .SIGN_MODE_DIRECT))
      ⟨[⟨"uatom", 5000⟩, ⟨"uosmo", 0⟩, ⟨"ibc/X", 3⟩], "cosmos1payer"⟩) []
    [⟨5000, ⟨1, "uatom"⟩, ⟨"cosmos1payer"⟩⟩, ⟨3, ⟨2, "ibc/X"⟩, ⟨"cosmos1payer"⟩⟩] none
    ["uatom", "ibc/X"] rfl ⟨5000, ⟨1, "uatom"⟩, ⟨"cosmos1payer"⟩⟩ (by simp)

/-- C5, as stated, fails: the fee names no payer, the first signer info has a
public key, so the second rule does not apply, and no address can be derived
from that key; still a fee is returned, and its payer address is empty. -/
theorem ProcessFees_payer_empty_when_underivable :
    (authInfoOf (some (some (.pubKey shortKey))) (some (.single .SIGN_MODE_DIRECT))
        ⟨[⟨"uatom", 5000⟩], ""⟩).Fee.Payer = "" ∧
    sampleEnv.ParseSignerAddress (hexEncodeToString shortKey.Bytes) ""
      = .error (.errorString "bad key") ∧
    ProcessFees sampleEnv ["uatom"]
        (authInfoOf (some (some (.pubKey shortKey))) (some (.single .SIGN_MODE_DIRECT))
          ⟨[⟨"uatom", 5000⟩], ""⟩) [⟨[7]⟩]
      = .ok (([⟨5000, ⟨1, "uatom"⟩, ⟨""⟩⟩], none), ["uatom"]) :=
  ⟨rfl, rfl, rfl⟩

/-- C5, amended: the payer address of every fee `ProcessFees` returns is
`authInfo.Fee.payer` when that is not empty; otherwise the text of `signers[0]`
when the first signer info has no public key and the signers list is not
empty; otherwise what `ParseSignerAddress` derives from the public key of the
first signer info (from the first inner key of a legacy multisig key when the
text of the multi mode info has a legacy-amino mode), and the empty address
when that derivation fails. -/
theorem ProcessFees_payer_precedence (env : Env σ) (db : σ) (authInfo : AuthInfo)
    (signers : List AccAddress) (fees : List DbFee) (err : Option GoError) (db1 : σ)
    (h : ProcessFees env db authInfo signers = .ok ((fees, err), db1)) :
    ∀ fee ∈ fees,
      (authInfo.Fee.Payer ≠ "" → fee.PayerAddress.Address = authInfo.Fee.Payer) ∧
      (authInfo.Fee.Payer = "" → ∃ first rest, authInfo.SignerInfos = first :: rest ∧
        (first.PublicKey = none ∧ signers ≠ [] →
          ∃ s, signers.head? = some s ∧ fee.PayerAddress.Address = env.AccAddressString s) ∧
        (¬ (first.PublicKey = none ∧ signers ≠ []) →
          ∃ k, IsPayerKey first k ∧
            fee.PayerAddress.Address = derivedAddress env k)) := by
  refine feesLoop_forall env authInfo signers _ authInfo.Fee.Amount db [] fees err db1 ?_ ?_ h
  · intro coin _ _ denom payer hp
    exact payerAddr_cases env authInfo signers payer hp
  · intro fee hfee
    exact absurd hfee (List.not_mem_nil _)

/-- C5, amended, on a legacy multisig signer whose mode info records a
legacy-amino mode: the payer is derived from the first inner key. -/
theorem ProcessFees_payer_precedence_witness :
    ((authInfoOf (some (some (.legacyAminoPubKey sampleKey [sampleInnerKey])))
          (some (.multi [.single .SIGN_MODE_LEGACY_AMINO_JSON]))
          ⟨[⟨"uatom", 5000⟩], ""⟩).Fee.Payer ≠ "" →
      (⟨5000, ⟨1, "uatom"⟩, ⟨derivedAddress sampleEnv sampleInnerKey⟩⟩ : DbFee).PayerAddress.Address
        = (authInfoOf (some (some (.legacyAminoPubKey sampleKey [sampleInnerKey])))
            (some (.multi [.single .SIGN_MODE_LEGACY_AMINO_JSON]))
            ⟨[⟨"uatom", 5000⟩], ""⟩).Fee.Payer) ∧
    ((authInfoOf (some (some (.legacyAminoPubKey sampleKey [sampleInnerKey])))
          (some (.multi [.single .SIGN_MODE_LEGACY_AMINO_JSON]))
          ⟨[⟨"uatom", 5000⟩], ""⟩).Fee.Payer = "" →
      ∃ first rest,
        (authInfoOf (some (some (.legacyAminoPubKey sampleKey [sampleInnerKey])))
          (some (.multi [.single .SIGN_MODE_LEGACY_AMINO_JSON]))
          ⟨[⟨"uatom", 5000⟩], ""⟩).SignerInfos = first :: rest ∧
        (first.PublicKey = none ∧ ([⟨[7]⟩] : List AccAddress) ≠ [] →
          ∃ s, ([⟨[7]⟩] : List AccAddress).head? = some s ∧
            (⟨5000, ⟨1, "uatom"⟩, ⟨derivedAddress sampleEnv sampleInnerKey⟩⟩ :
              DbFee).PayerAddress.Address = sampleEnv.AccAddressString s) ∧
        (¬ (first.PublicKey = none ∧ ([⟨[7]⟩] : List AccAddress) ≠ []) →
          ∃ k, IsPayerKey first k ∧
            (⟨5000, ⟨1, "uatom"⟩, ⟨derivedAddress sampleEnv sampleInnerKey⟩⟩ :
              DbFee).PayerAddress.Address = derivedAddress sampleEnv k)) :=
  ProcessFees_payer_precedence sampleEnv ["uatom"]
    (authInfoOf (some (some (.legacyAminoPubKey sampleKey [sampleInnerKey])))
      (some (.multi [.single .SIGN_MODE_LEGACY_AMINO_JSON])) ⟨[⟨"uatom", 5000⟩], ""⟩)
    [⟨[7]⟩] [⟨5000, ⟨1, "uatom"⟩, ⟨derivedAddress sampleEnv sampleInnerKey⟩⟩] none ["uatom"]
    rfl ⟨5000, ⟨1, "uatom"⟩, ⟨derivedAddress sampleEnv sampleInnerKey⟩⟩ (by simp)

end Fees

/-! ## One transaction -/

section Tx

variable {σ : Type}

/-- The handler loop returns the type URL it was given. -/
theorem handlerLoop_msgType (typ : String) (message : Msg) (log : LogMessage) :
    ∀ (fs : List HandlerFunc) (idx : Nat) (cur : Option CosmosMessage) (err : Option GoError)
      (calls : List (Nat × CosmosMessage)),
      (handlerLoop typ message log idx fs cur err calls).msgType = typ := by
  intro fs
  induction fs with
  | nil => intro idx cur err calls; rfl
  | cons f fs ih =>
    intro idx cur err calls
    unfold handlerLoop
    cases hr : (f.HandleMsg f.create typ message log).2 with
    | none => simp only [hr]
    | some e => simp only [hr]; exact ih _ _ _ _

/-- The type string `ParseCosmosMessage` returns is the type URL of the message. -/
theorem ParseCosmosMessage_msgType (messageTypeHandler : Registry) (message : Msg)
    (log : LogMessage) :
    (ParseCosmosMessage messageTypeHandler message log).msgType = message.typeURL := by
  unfold ParseCosmosMessage
  dsimp only
  cases messageTypeHandler message.typeURL with
  | none => rfl
  | some fs => exact handlerLoop_msgType _ _ _ _ _ _ _ _

/-- When the message loop runs to its end it has appended one wrapper for each
message, in order, and has logged a warning only for type URLs outside the
ignore set. -/
theorem messagesLoop_entries (env : Env σ) (messageTypeHandler : Registry)
    (messageTypeIgnorer : List String) (resp : Response) (txTime : Time) :
    ∀ (msgs : List Msg) (idx : Nat) (st : PState σ) (acc out : List MessageDBWrapper)
      (st1 : PState σ),
      messagesLoop env messageTypeHandler messageTypeIgnorer resp txTime idx msgs st acc
        = .ok (.ok out, st1) →
      ∃ new, out = acc ++ new ∧
        List.Forall₂ (entryOf messageTypeHandler) (msgs.enumFrom idx) new ∧
        (∀ u ∈ st1.warned, u ∈ st.warned ∨ u ∉ messageTypeIgnorer) := by
  intro msgs
  induction msgs with
  | nil =>
    intro idx st acc out st1 h
    simp only [messagesLoop, Except.ok.injEq, Prod.mk.injEq] at h
    obtain ⟨h1, h2⟩ := h
    subst h1 h2
    exact ⟨[], by simp, List.Forall₂.nil, fun u hu => Or.inl hu⟩
  | cons m rest ih =>
    intro idx st acc out st1 h
    unfold messagesLoop at h
    split at h
    · exact absurd h (by simp)
    · next messageLog hlog =>
      dsimp only at h
      have hty := ParseCosmosMessage_msgType messageTypeHandler m messageLog
      split at h
      · next err herr =>
        split at h
        · exact absurd h (by simp)
        · obtain ⟨new, hout, hall, hw⟩ := ih _ _ _ _ _ h
          refine ⟨⟨⟨idx, ⟨(ParseCosmosMessage messageTypeHandler m messageLog).msgType⟩⟩, []⟩ :: new,
            by rw [hout, List.append_assoc]; rfl, ?_, ?_⟩
          · refine List.Forall₂.cons ⟨rfl, fun _ => ?_⟩ hall
            rw [hty]
          · intro u hu
            rcases hw u hu with hin | hnot
            · dsimp only at hin
              split at hin
              · exact Or.inl hin
              · next hni =>
                rcases List.mem_append.mp hin with h1 | h1
                · exact Or.inl h1
                · rw [List.mem_singleton.mp h1]
                  exact Or.inr hni
            · exact Or.inr hnot
      · next herr =>
        split at h
        · exact absurd h (by simp)
        · next cosmosMessage hcm =>
          split at h
          · exact absurd h (by simp)
          · next taxableTxs db1 htax =>
            obtain ⟨new, hout, hall, hw⟩ := ih _ _ _ _ _ h
            refine ⟨⟨⟨idx, ⟨cosmosMessage.GetType⟩⟩, taxableTxs⟩ :: new,
              by rw [hout, List.append_assoc]; rfl, ?_, hw⟩
            refine List.Forall₂.cons ⟨rfl, fun hreg => ?_⟩ hall
            have := ParseCosmosMessage_unregistered messageTypeHandler m messageLog hreg
            rw [this] at herr
            exact absurd herr (by simp)

/-- The shape of a run of `ProcessTx` that returns no error. -/
theorem ProcessTx_ok (env : Env σ) (messageTypeHandler : Registry)
    (messageTypeIgnorer : List String) (st : PState σ) (tx : MergedTx) (w : TxDBWrapper)
    (t : Time) (st1 : PState σ)
    (h : ProcessTx env messageTypeHandler messageTypeIgnorer st tx = .ok ((w, t, none), st1)) :
    ∃ messages stm fees,
      messagesOf env messageTypeHandler messageTypeIgnorer st tx t = .ok (.ok messages, stm) ∧
      ProcessFees env stm.db tx.Tx.AuthInfo tx.Tx.Signers = .ok ((fees, none), st1.db) ∧
      w = ⟨⟨tx.TxResponse.TxHash, tx.TxResponse.Code, fees⟩, ⟨""⟩, messages⟩ ∧
      st1.warned = stm.warned := by
  unfold ProcessTx at h
  split at h
  · simp at h
  · next txTime ht =>
    split at h
    · simp at h
    · simp at h
    · next messages stm hm =>
      split at h
      · simp at h
      · simp at h
      · next fees db2 hf =>
        simp only [Except.ok.injEq, Prod.mk.injEq, and_true] at h
        obtain ⟨⟨hw, htime⟩, hst⟩ := h
        subst hw htime hst
        exact ⟨messages, stm, fees, hm, hf, rfl, rfl⟩

/-- The wrappers of a message loop started at index zero, position by position. -/
theorem entries_get (messageTypeHandler : Registry) (msgs : List Msg)
    (new : List MessageDBWrapper)
    (h : List.Forall₂ (entryOf messageTypeHandler) (msgs.enumFrom 0) new) :
    new.length = msgs.length ∧
    ∀ (i : Nat) (hm : i < msgs.length) (hw : i < new.length),
      entryOf messageTypeHandler (i, msgs.get ⟨i, hm⟩) (new.get ⟨i, hw⟩) := by
  rw [List.forall₂_iff_get] at h
  obtain ⟨hlen, hget⟩ := h
  rw [List.enumFrom_length] at hlen
  refine ⟨hlen.symm, fun i hm hw => ?_⟩
  have := hget i (by rw [List.enumFrom_length]; exact hm) hw
  simpa only [List.get_eq_getElem, List.getElem_enumFrom, Nat.zero_add] using this

/-- C3: when `ProcessTx` returns without error, then for code zero the
returned message list has as many entries as the body has messages and the
entry at position `i` carries the message index `i`, and for a non-zero code
the returned message list is empty. -/
theorem ProcessTx_messages_by_index (env : Env σ) (messageTypeHandler : Registry)
    (messageTypeIgnorer : List String) (st : PState σ) (tx : MergedTx) (w : TxDBWrapper)
    (t : Time) (st1 : PState σ)
    (h : ProcessTx env messageTypeHandler messageTypeIgnorer st tx = .ok ((w, t, none), st1)) :
    (tx.TxResponse.Code = 0 →
      w.Messages.length = tx.Tx.Body.Messages.length ∧
      ∀ (i : Nat) (hi : i < w.Messages.length),
        (w.Messages.get ⟨i, hi⟩).Message.MessageIndex = i) ∧
    (tx.TxResponse.Code ≠ 0 → w.Messages = []) := by
  obtain ⟨messages, stm, fees, hm, _, hw, _⟩ :=
    ProcessTx_ok env messageTypeHandler messageTypeIgnorer st tx w t st1 h
  subst hw
  unfold messagesOf at hm
  refine ⟨fun hc => ?_, fun hc => ?_⟩
  · rw [if_pos hc] at hm
    obtain ⟨new, hout, hall, _⟩ := messagesLoop_entries env messageTypeHandler
      messageTypeIgnorer tx.TxResponse t tx.Tx.Body.Messages 0 st [] messages stm hm
    rw [List.nil_append] at hout
    subst hout
    obtain ⟨hlen, hget⟩ := entries_get messageTypeHandler tx.Tx.Body.Messages messages hall
    exact ⟨hlen, fun i hi => (hget i (hlen ▸ hi) hi).1⟩
  · rw [if_neg hc] at hm
    simp only [Except.ok.injEq, Prod.mk.injEq] at hm
    exact hm.1.symm

/-- C3, on a successful transaction with a vote, a bank send and a message of
an unregistered type: the third wrapper has the message index 2. -/
theorem ProcessTx_messages_by_index_witness :
    ((sampleTx [voteMsg, sampleMsg, ⟨"/foo", []⟩] 0).TxResponse.Code = 0 →
      ([⟨⟨0, ⟨"/cosmos.gov.v1beta1.MsgVote"⟩⟩, []⟩,
        ⟨⟨1, ⟨"/cosmos.bank.v1beta1.MsgSend"⟩⟩,
          [⟨⟨5, 5, ⟨1, "uatom"⟩, ⟨1, "uatom"⟩⟩, ⟨"sender"⟩, ⟨"receiver"⟩⟩]⟩,
        ⟨⟨2, ⟨"/foo"⟩⟩, []⟩] : List MessageDBWrapper).length
        = (sampleTx [voteMsg, sampleMsg, ⟨"/foo", []⟩] 0).Tx.Body.Messages.length ∧
      ∀ (i : Nat) (hi : i < ([⟨⟨0, ⟨"/cosmos.gov.v1beta1.MsgVote"⟩⟩, []⟩,
        ⟨⟨1, ⟨"/cosmos.bank.v1beta1.MsgSend"⟩⟩,
          [⟨⟨5, 5, ⟨1, "uatom"⟩, ⟨1, "uatom"⟩⟩, ⟨"sender"⟩, ⟨"receiver"⟩⟩]⟩,
        ⟨⟨2, ⟨"/foo"⟩⟩, []⟩] : List MessageDBWrapper).length),
        (([⟨⟨0, ⟨"/cosmos.gov.v1beta1.MsgVote"⟩⟩, []⟩,
        ⟨⟨1, ⟨"/cosmos.bank.v1beta1.MsgSend"⟩⟩,
          [⟨⟨5, 5, ⟨1, "uatom"⟩, ⟨1, "uatom"⟩⟩, ⟨"sender"⟩, ⟨"receiver"⟩⟩]⟩,
        ⟨⟨2, ⟨"/foo"⟩⟩, []⟩] : List MessageDBWrapper).get ⟨i, hi⟩).Message.MessageIndex = i) ∧
    ((sampleTx [voteMsg, sampleMsg, ⟨"/foo", []⟩] 0).TxResponse.Code ≠ 0 →
      ([⟨⟨0, ⟨"/cosmos.gov.v1beta1.MsgVote"⟩⟩, []⟩,
        ⟨⟨1, ⟨"/cosmos.bank.v1beta1.MsgSend"⟩⟩,
          [⟨⟨5, 5, ⟨1, "uatom"⟩, ⟨1, "uatom"⟩⟩, ⟨"sender"⟩, ⟨"receiver"⟩⟩]⟩,
        ⟨⟨2, ⟨"/foo"⟩⟩, []⟩] : List MessageDBWrapper) = []) :=
  ProcessTx_messages_by_index sampleEnv
    (registryOf "/cosmos.bank.v1beta1.MsgSend" [acceptingHandler])
    ["/cosmos.gov.v1beta1.MsgVote"] (sampleState ["uatom"])
    (sampleTx [voteMsg, sampleMsg, ⟨"/foo", []⟩] 0)
    ⟨⟨"A1B2", 0, [⟨5000, ⟨1, "uatom"⟩, ⟨"cosmos1payer"⟩⟩]⟩, ⟨""⟩,
      [⟨⟨0, ⟨"/cosmos.gov.v1beta1.MsgVote"⟩⟩, []⟩,
        ⟨⟨1, ⟨"/cosmos.bank.v1beta1.MsgSend"⟩⟩,
          [⟨⟨5, 5, ⟨1, "uatom"⟩, ⟨1, "uatom"⟩⟩, ⟨"sender"⟩, ⟨"receiver"⟩⟩]⟩,
        ⟨⟨2, ⟨"/foo"⟩⟩, []⟩]⟩
    ⟨1700000000⟩ ⟨["uatom"], [], ["/foo"]⟩ rfl

/-- C8, as stated, fails: the vote type URL is in the ignore set and the
registry has a handler for it; `ProcessTx` offers the message to that handler
and the wrapper of the message carries the transfer the handler reports. -/
theorem ProcessTx_parses_ignored_type_when_registered :
    voteMsg.typeURL ∈ ["/cosmos.gov.v1beta1.MsgVote"] ∧
    ProcessTx sampleEnv (registryOf "/cosmos.gov.v1beta1.MsgVote" [voteHandler])
        ["/cosmos.gov.v1beta1.MsgVote"] (sampleState ["uatom"]) (sampleTx [voteMsg] 0)
      = .ok ((⟨⟨"A1B2", 0, [⟨5000, ⟨1, "uatom"⟩, ⟨"cosmos1payer"⟩⟩]⟩, ⟨""⟩,
          [⟨⟨0, ⟨"/cosmos.gov.v1beta1.MsgVote"⟩⟩,
            [⟨⟨5, 0, ⟨1, "uatom"⟩, Denom.zero⟩, ⟨"sender"⟩, ⟨"receiver"⟩⟩]⟩]⟩,
          ⟨1700000000⟩, none), sampleState ["uatom"]) ∧
    (ParseCosmosMessage (registryOf "/cosmos.gov.v1beta1.MsgVote" [voteHandler]) voteMsg
        ⟨0, []⟩).invoked = [(0, voteHandler.create)] :=
  ⟨by decide, rfl, rfl⟩

/-- C8, amended: when `ProcessTx` returns without error for a transaction with
code zero, the wrapper of every message whose type URL is in the ignore set
and has no handler list in the registry carries the position of the message,
its type URL and no taxable transfers; no warning is logged for a type URL of
the ignore set; and the fees of the transaction are what `ProcessFees` returns
for its auth info and signers, on the database as the messages left it. -/
theorem ProcessTx_ignored_unregistered (env : Env σ) (messageTypeHandler : Registry)
    (messageTypeIgnorer : List String) (st : PState σ) (tx : MergedTx) (w : TxDBWrapper)
    (t : Time) (st1 : PState σ)
    (h : ProcessTx env messageTypeHandler messageTypeIgnorer st tx = .ok ((w, t, none), st1))
    (hcode : tx.TxResponse.Code = 0) :
    w.Messages.length = tx.Tx.Body.Messages.length ∧
    (∀ (i : Nat) (hm : i < tx.Tx.Body.Messages.length) (hw : i < w.Messages.length),
      (tx.Tx.Body.Messages.get ⟨i, hm⟩).typeURL ∈ messageTypeIgnorer →
      messageTypeHandler (tx.Tx.Body.Messages.get ⟨i, hm⟩).typeURL = none →
      w.Messages.get ⟨i, hw⟩ = ⟨⟨i, ⟨(tx.Tx.Body.Messages.get ⟨i, hm⟩).typeURL⟩⟩, []⟩) ∧
    (∀ u ∈ st1.warned, u ∈ st.warned ∨ u ∉ messageTypeIgnorer) ∧
    (∃ db, ProcessFees env db tx.Tx.AuthInfo tx.Tx.Signers = .ok ((w.Tx.Fees, none), st1.db)) := by
  obtain ⟨messages, stm, fees, hm, hf, hw, hwarn⟩ :=
    ProcessTx_ok env messageTypeHandler messageTypeIgnorer st tx w t st1 h
  subst hw
  unfold messagesOf at hm
  rw [if_pos hcode] at hm
  obtain ⟨new, hout, hall, hwn⟩ := messagesLoop_entries env messageTypeHandler
    messageTypeIgnorer tx.TxResponse t tx.Tx.Body.Messages 0 st [] messages stm hm
  rw [List.nil_append] at hout
  subst hout
  obtain ⟨hlen, hget⟩ := entries_get messageTypeHandler tx.Tx.Body.Messages messages hall
  refine ⟨hlen, fun i hi hw _ hreg => (hget i hi hw).2 hreg, ?_, ⟨stm.db, hf⟩⟩
  rw [hwarn]
  exact hwn

/-- C8, amended, on a successful transaction with a vote, a bank send and a
message of an unregistered type, the vote being in the ignore set and only the
bank send registered. -/
theorem ProcessTx_ignored_unregistered_witness :
    ([⟨⟨0, ⟨"/cosmos.gov.v1beta1.MsgVote"⟩⟩, []⟩,
        ⟨⟨1, ⟨"/cosmos.bank.v1beta1.MsgSend"⟩⟩,
          [⟨⟨5, 5, ⟨1, "uatom"⟩, ⟨1, "uatom"⟩⟩, ⟨"sender"⟩, ⟨"receiver"⟩⟩]⟩,
        ⟨⟨2, ⟨"/foo"⟩⟩, []⟩] : List MessageDBWrapper).length
      = (sampleTx [voteMsg, sampleMsg, ⟨"/foo", []⟩] 0).Tx.Body.Messages.length ∧
    (∀ (i : Nat) (hm : i < (sampleTx [voteMsg, sampleMsg, ⟨"/foo", []⟩] 0).Tx.Body.Messages.length)
      (hw : i < ([⟨⟨0, ⟨"/cosmos.gov.v1beta1.MsgVote"⟩⟩, []⟩,
        ⟨⟨1, ⟨"/cosmos.bank.v1beta1.MsgSend"⟩⟩,
          [⟨⟨5, 5, ⟨1, "uatom"⟩, ⟨1, "uatom"⟩⟩, ⟨"sender"⟩, ⟨"receiver"⟩⟩]⟩,
        ⟨⟨2, ⟨"/foo"⟩⟩, []⟩] : List MessageDBWrapper).length),
      ((sampleTx [voteMsg, sampleMsg, ⟨"/foo", []⟩] 0).Tx.Body.Messages.get ⟨i, hm⟩).typeURL
        ∈ ["/cosmos.gov.v1beta1.MsgVote"] →
      registryOf "/cosmos.bank.v1beta1.MsgSend" [acceptingHandler]
        ((sampleTx [voteMsg, sampleMsg, ⟨"/foo", []⟩] 0).Tx.Body.Messages.get ⟨i, hm⟩).typeURL
        = none →
      ([⟨⟨0, ⟨"/cosmos.gov.v1beta1.MsgVote"⟩⟩, []⟩,
        ⟨⟨1, ⟨"/cosmos.bank.v1beta1.MsgSend"⟩⟩,
          [⟨⟨5, 5, ⟨1, "uatom"⟩, ⟨1, "uatom"⟩⟩, ⟨"sender"⟩, ⟨"receiver"⟩⟩]⟩,
        ⟨⟨2, ⟨"/foo"⟩⟩, []⟩] : List MessageDBWrapper).get ⟨i, hw⟩
        = ⟨⟨i, ⟨((sampleTx [voteMsg, sampleMsg, ⟨"/foo", []⟩] 0).Tx.Body.Messages.get
            ⟨i, hm⟩).typeURL⟩⟩, []⟩) ∧
    (∀ u ∈ (⟨["uatom"], [], ["/foo"]⟩ : PState (List String)).warned,
      u ∈ (sampleState ["uatom"]).warned ∨ u ∉ ["/cosmos.gov.v1beta1.MsgVote"]) ∧
    (∃ db, ProcessFees sampleEnv db (sampleTx [voteMsg, sampleMsg, ⟨"/foo", []⟩] 0).Tx.AuthInfo
        (sampleTx [voteMsg, sampleMsg, ⟨"/foo", []⟩] 0).Tx.Signers
      = .ok (([⟨5000, ⟨1, "uatom"⟩, ⟨"cosmos1payer"⟩⟩], none),
          (⟨["uatom"], [], ["/foo"]⟩ : PState (List String)).db)) :=
  ProcessTx_ignored_unregistered sampleEnv
    (registryOf "/cosmos.bank.v1beta1.MsgSend" [acceptingHandler])
    ["/cosmos.gov.v1beta1.MsgVote"] (sampleState ["uatom"])
    (sampleTx [voteMsg, sampleMsg, ⟨"/foo", []⟩] 0)
    ⟨⟨"A1B2", 0, [⟨5000, ⟨1, "uatom"⟩, ⟨"cosmos1payer"⟩⟩]⟩, ⟨""⟩,
      [⟨⟨0, ⟨"/cosmos.gov.v1beta1.MsgVote"⟩⟩, []⟩,
        ⟨⟨1, ⟨"/cosmos.bank.v1beta1.MsgSend"⟩⟩,
          [⟨⟨5, 5, ⟨1, "uatom"⟩, ⟨1, "uatom"⟩⟩, ⟨"sender"⟩, ⟨"receiver"⟩⟩]⟩,
        ⟨⟨2, ⟨"/foo"⟩⟩, []⟩]⟩
    ⟨1700000000⟩ ⟨["uatom"], [], ["/foo"]⟩ rfl rfl

end Tx

/-! ## The tx worker -/

section Worker

variable {σ : Type}

/-- When the txs-by-height query finds no transaction and the block-results
query returns a nil result with a nil error, `processBlock` calls the
failed-block handler, sends nothing and returns a nil error. -/
theorem processBlock_nil_block_results (env : Env σ) (rpc : RPC) (messageTypeHandler : Registry)
    (messageTypeIgnorer : List String) (st : PState σ) (blockToProcess : Int)
    (resp : GetTxsEventResponse)
    (htxs : rpc.GetTxsByBlockHeight blockToProcess = .ok resp) (hlen : resp.Txs.length = 0)
    (hres : rpc.GetBlockByHeight blockToProcess = .ok none) :
    processBlock env rpc messageTypeHandler messageTypeIgnorer st blockToProcess
      = ([Event.GetTxsByBlockHeight blockToProcess, Event.GetBlockByHeight blockToProcess,
          Event.failedBlockHandler blockToProcess .BlockQueryError], .ok (none, st)) := by
  unfold processBlock
  simp only [htxs, hlen, if_true]
  unfold fallbackPath
  simp only [hres, List.singleton_append, List.cons_append, List.nil_append]

/-- C1, on the failing input: the worker takes the heights 100 and 101 from a
node whose txs-by-height query finds no transaction and whose block-results
query returns a nil result with a nil error. For neither height a batch is
sent or `UpsertFailedBlock` called; the worker goes on to the next height. -/
theorem queryRPC_neither_send_nor_upsert :
    queryRPC sampleEnv silentNode (registryOf "/cosmos.bank.v1beta1.MsgSend" [acceptingHandler])
        [] [100, 101] (sampleState ["uatom"]) []
      = ([Event.GetTxsByBlockHeight 100, Event.GetBlockByHeight 100,
          Event.failedBlockHandler 100 .BlockQueryError,
          Event.GetTxsByBlockHeight 101, Event.GetBlockByHeight 101,
          Event.failedBlockHandler 101 .BlockQueryError], .ok (sampleState ["uatom"])) ∧
    (∀ d, Event.send d ∉ [Event.GetTxsByBlockHeight 100, Event.GetBlockByHeight 100,
          Event.failedBlockHandler 100 .BlockQueryError,
          Event.GetTxsByBlockHeight 101, Event.GetBlockByHeight 101,
          Event.failedBlockHandler 101 .BlockQueryError]) ∧
    Event.UpsertFailedBlock 100 ∉ [Event.GetTxsByBlockHeight 100, Event.GetBlockByHeight 100,
          Event.failedBlockHandler 100 .BlockQueryError,
          Event.GetTxsByBlockHeight 101, Event.GetBlockByHeight 101,
          Event.failedBlockHandler 101 .BlockQueryError] :=
  ⟨rfl, by simp, by simp⟩

/-- The base64 text of `n` bytes has `4 * ⌈n / 3⌉` characters. -/
theorem b64Chars_length : ∀ bs : List Nat, (b64Chars bs).length = 4 * ((bs.length + 2) / 3)
  | [] => rfl
  | [_] => by simp [b64Chars]
  | [_, _] => by simp [b64Chars]
  | _ :: _ :: _ :: rest => by
    simp only [b64Chars, List.length_cons, b64Chars_length rest]
    omega

/-- The hexadecimal text of `n` bytes has `2 * n` characters. -/
theorem hexUpperChars_length : ∀ bs : List Nat, (hexUpperChars bs).length = 2 * bs.length
  | [] => rfl
  | _ :: rest => by
    simp only [hexUpperChars, List.length_cons, hexUpperChars_length rest]
    omega

/-- The two texts of a 32-byte hash always differ: 64 characters in
hexadecimal, 44 in base64. -/
theorem hash_encodings_differ (bs : List Nat) (h : bs.length = 32) :
    hexUpperEncode bs ≠ b64EncodeToString bs := by
  intro heq
  have hlen := congrArg String.length heq
  simp only [hexUpperEncode, b64EncodeToString, String.length, hexUpperChars_length,
    b64Chars_length, h] at hlen
  omega

/-- C2, on the failing input: the sample node presents the block at height 100
consistently through both routes, both parsers return one wrapper for its
transaction and no error, and the two wrappers agree in code, messages, fees
and signer address but differ in the hash, which the preferred parser takes
from the response in hexadecimal and the fallback parser encodes in base64. -/
theorem preferred_and_fallback_differ_in_hash :
    Consistent sampleEnv sampleTxsResponse sampleBlock sampleBlockResults ∧
    ProcessRPCTXs sampleEnv (registryOf "/cosmos.bank.v1beta1.MsgSend" [acceptingHandler]) []
        (sampleState ["uatom"]) sampleTxsResponse
      = .ok (([sampleWrapper "01ABABABABABABABABABABABABABABABABABABABABABABABABABABABABABABAB"],
          some ⟨1700000000⟩, none), sampleState ["uatom"]) ∧
    ProcessRPCBlockByHeightTXs sampleEnv
        (registryOf "/cosmos.bank.v1beta1.MsgSend" [acceptingHandler]) []
        (sampleState ["uatom"]) sampleBlock sampleBlockResults
      = .ok (([sampleWrapper "Aaurq6urq6urq6urq6urq6urq6urq6urq6urq6urq6s="],
          some ⟨1700000000⟩, none), sampleState ["uatom"]) ∧
    sampleWrapper "01ABABABABABABABABABABABABABABABABABABABABABABABABABABABABABABAB"
      ≠ sampleWrapper "Aaurq6urq6urq6urq6urq6urq6urq6urq6urq6urq6s=" := by
  refine ⟨⟨rfl, rfl, rfl, ?_, ?_⟩, rfl, rfl, by decide⟩
  · intro r hr _
    have : r = ⟨100, hexUpperEncode (sampleHash ⟨[1]⟩), 0, "one message, no events",
        [⟨0, "", []⟩], "1700000000"⟩ := by simpa [sampleTxsResponse] using hr
    subst this
    rfl
  · intro r hr
    have : r = ⟨100, hexUpperEncode (sampleHash ⟨[1]⟩), 0, "one message, no events",
        [⟨0, "", []⟩], "1700000000"⟩ := by simpa [sampleTxsResponse] using hr
    subst this
    exact ⟨rfl, rfl⟩

/-- Appending a quiet event keeps a record quiet. -/
theorem Quiet_append (trace : List Event) (e : Event) (hno : Quiet trace)
    (he : e.quiet = true) : Quiet (trace ++ [e]) := by
  intro d hd
  rcases List.mem_append.mp hd with h | h
  · exact hno d h
  · rw [List.mem_singleton.mp h]; exact he

/-- The end of `processBlock`, after quiet events: one batch for the
height is sent and nil returned, or nothing is sent and an error returned. -/
theorem sendBlock_outcome (rpc : RPC) (st : PState σ) (blockToProcess : Int)
    (txDBWrappers : List TxDBWrapper) (blockTime : Option Time) (trace : List Event)
    (hno : Quiet trace) :
    (OneSend blockToProcess (sendBlock rpc st blockToProcess txDBWrappers blockTime trace).1 ∧
      (sendBlock rpc st blockToProcess txDBWrappers blockTime trace).2 = .ok (none, st)) ∨
    (Quiet (sendBlock rpc st blockToProcess txDBWrappers blockTime trace).1 ∧
      ∃ err, (sendBlock rpc st blockToProcess txDBWrappers blockTime trace).2
        = .ok (some err, st)) := by
  unfold sendBlock
  cases blockTime with
  | some t => exact Or.inl ⟨⟨trace, _, rfl, rfl, hno⟩, rfl⟩
  | none =>
    cases hb : rpc.GetBlock blockToProcess with
    | error msg =>
      exact Or.inr ⟨Quiet_append _ _ hno rfl, _, rfl⟩
    | ok result =>
      refine Or.inl ⟨⟨trace ++ [Event.GetBlock blockToProcess],
        ⟨txDBWrappers, result.Block.Time, blockToProcess⟩, by simp, rfl,
        Quiet_append _ _ hno rfl⟩, rfl⟩

/-- The outcomes of `processBlock` that do not end the process: it sends one
batch for the height and returns nil; or it sends nothing and returns an
error; or, the block-results query having returned a nil result with a nil
error, it sends nothing and returns nil. -/
theorem processBlock_outcome (env : Env σ) (rpc : RPC) (messageTypeHandler : Registry)
    (messageTypeIgnorer : List String) (st : PState σ) (blockToProcess : Int)
    (r : Option GoError × PState σ)
    (h : (processBlock env rpc messageTypeHandler messageTypeIgnorer st blockToProcess).2
      = .ok r) :
    (OneSend blockToProcess
        (processBlock env rpc messageTypeHandler messageTypeIgnorer st blockToProcess).1 ∧
      r.1 = none) ∨
    (Quiet (processBlock env rpc messageTypeHandler messageTypeIgnorer st blockToProcess).1 ∧
      r.1 ≠ none) ∨
    (Quiet (processBlock env rpc messageTypeHandler messageTypeIgnorer st blockToProcess).1 ∧
      r.1 = none ∧ rpc.GetBlockByHeight blockToProcess = .ok none) := by
  have h0 : Quiet [Event.GetTxsByBlockHeight blockToProcess] := by
    intro e he
    rw [List.mem_singleton.mp he]
    rfl
  have hsend : ∀ (st1 : PState σ) ws bt trace, Quiet trace →
      (sendBlock rpc st1 blockToProcess ws bt trace).2 = .ok r →
      (OneSend blockToProcess (sendBlock rpc st1 blockToProcess ws bt trace).1 ∧ r.1 = none) ∨
      (Quiet (sendBlock rpc st1 blockToProcess ws bt trace).1 ∧ r.1 ≠ none) := by
    intro st1 ws bt trace hno hr
    rcases sendBlock_outcome rpc st1 blockToProcess ws bt trace hno with ⟨h1, h2⟩ | ⟨h1, err, h2⟩
    · rw [h2] at hr
      simp only [Except.ok.injEq] at hr
      exact Or.inl ⟨h1, by rw [← hr]⟩
    · rw [h2] at hr
      simp only [Except.ok.injEq] at hr
      exact Or.inr ⟨h1, by rw [← hr]; simp⟩
  have hfall : ∀ trace, Quiet trace →
      (fallbackPath env rpc messageTypeHandler messageTypeIgnorer st blockToProcess trace).2
        = .ok r →
      (OneSend blockToProcess
          (fallbackPath env rpc messageTypeHandler messageTypeIgnorer st blockToProcess trace).1 ∧
        r.1 = none) ∨
      (Quiet (fallbackPath env rpc messageTypeHandler messageTypeIgnorer st blockToProcess
          trace).1 ∧ r.1 ≠ none) ∨
      (Quiet (fallbackPath env rpc messageTypeHandler messageTypeIgnorer st blockToProcess
          trace).1 ∧ r.1 = none ∧ rpc.GetBlockByHeight blockToProcess = .ok none) := by
    intro trace hno hr
    have h1 : Quiet (trace ++ [Event.GetBlockByHeight blockToProcess]) :=
      Quiet_append _ _ hno rfl
    unfold fallbackPath at hr ⊢
    dsimp only at hr ⊢
    cases hq : rpc.GetBlockByHeight blockToProcess with
    | error msg =>
      simp only [hq] at hr ⊢
      split at hr
      · next hc =>
        simp only [hc, if_true] at hr ⊢
        simp only [Except.ok.injEq] at hr
        exact Or.inr (Or.inl ⟨Quiet_append _ _ h1 rfl, by rw [← hr]; simp⟩)
      · next hc =>
        simp only [hc, if_false] at hr ⊢
        simp only [Except.ok.injEq] at hr
        exact Or.inr (Or.inl ⟨Quiet_append _ _ h1 rfl, by rw [← hr]; simp⟩)
    | ok res =>
      cases res with
      | none =>
        simp only [hq] at hr ⊢
        simp only [Except.ok.injEq] at hr
        exact Or.inr (Or.inr ⟨Quiet_append _ _ h1 rfl, by rw [← hr], trivial⟩)
      | some resBlockResults =>
        simp only [hq] at hr ⊢
        split at hr
        · next hlen =>
          simp only [hlen, if_true] at hr ⊢
          have h2 : Quiet (trace ++ [Event.GetBlockByHeight blockToProcess]
              ++ [Event.GetBlock blockToProcess]) :=
            Quiet_append _ _ h1 rfl
          cases hb : rpc.GetBlock blockToProcess with
          | error msg =>
            simp only [hb] at hr ⊢
            simp only [Except.ok.injEq] at hr
            exact Or.inr (Or.inl ⟨h2, by rw [← hr]; simp⟩)
          | ok blockResults =>
            simp only [hb] at hr ⊢
            have h3 : Quiet (trace ++ [Event.GetBlockByHeight blockToProcess]
                ++ [Event.GetBlock blockToProcess]
                ++ [Event.ProcessRPCBlockByHeightTXs blockToProcess]) :=
              Quiet_append _ _ h2 rfl
            split at hr
            · simp at hr
            · next err st1 hp =>
              try simp only [hp]
              simp only [Except.ok.injEq] at hr
              exact Or.inr (Or.inl ⟨h3, by rw [← hr]; simp⟩)
            · next ws bt st1 hp =>
              try simp only [hp]
              rcases hsend st1 ws bt _ h3 hr with hh | hh
              · exact Or.inl hh
              · exact Or.inr (Or.inl hh)
        · next hlen =>
          simp only [hlen, if_false] at hr ⊢
          rcases hsend st [] none _ h1 hr with hh | hh
          · exact Or.inl hh
          · exact Or.inr (Or.inl hh)
  unfold processBlock at h ⊢
  dsimp only at h ⊢
  cases hq : rpc.GetTxsByBlockHeight blockToProcess with
  | error msg =>
    simp only [hq] at h ⊢
    split at h
    · next hc =>
      simp only [hc, if_true]
      exact hfall _ h0 h
    · next hc =>
      simp only [hc, if_false]
      simp only [Except.ok.injEq] at h
      exact Or.inr (Or.inl ⟨h0, by rw [← h]; simp⟩)
  | ok resp =>
    simp only [hq] at h ⊢
    split at h
    · next hlen =>
      simp only [hlen, if_true]
      exact hfall _ h0 h
    · next hlen =>
      simp only [hlen, if_false]
      have h1 : Quiet ([Event.GetTxsByBlockHeight blockToProcess]
          ++ [Event.ProcessRPCTXs blockToProcess]) :=
        Quiet_append _ _ h0 rfl
      split at h
      · simp at h
      · next err st1 hp =>
        try simp only [hp]
        simp only [Except.ok.injEq] at h
        exact Or.inr (Or.inl ⟨Quiet_append _ _ h1 rfl, by rw [← h]; simp⟩)
      · next ws bt st1 hp =>
        try simp only [hp]
        rcases hsend st1 ws bt _ h1 h with hh | hh
        · exact Or.inl hh
        · exact Or.inr (Or.inl hh)

/-- The outcomes of the worker for one height, when the process goes on: one
batch for the height is sent and the block is not stored as failed; or no
batch is sent and the block is stored as failed, once; or, the block-results
query having returned a nil result with a nil error, neither happens. -/
theorem queryRPC_one_height (env : Env σ) (rpc : RPC) (messageTypeHandler : Registry)
    (messageTypeIgnorer : List String) (st st1 : PState σ) (blockToProcess : Int)
    (h : (queryRPC env rpc messageTypeHandler messageTypeIgnorer [blockToProcess] st []).2
      = .ok st1) :
    OneSend blockToProcess
      (queryRPC env rpc messageTypeHandler messageTypeIgnorer [blockToProcess] st []).1 ∨
    (∃ pre, (queryRPC env rpc messageTypeHandler messageTypeIgnorer [blockToProcess] st []).1
        = pre ++ [Event.UpsertFailedBlock blockToProcess] ∧ Quiet pre) ∨
    (Quiet (queryRPC env rpc messageTypeHandler messageTypeIgnorer [blockToProcess] st []).1 ∧
      rpc.GetBlockByHeight blockToProcess = .ok none) := by
  unfold queryRPC at h ⊢
  split at h
  · simp [queryRPC] at h
  · next t st2 hp =>
    have hp1 : (processBlock env rpc messageTypeHandler messageTypeIgnorer st
        blockToProcess).1 = t := by rw [hp]
    have hp2 : (processBlock env rpc messageTypeHandler messageTypeIgnorer st
        blockToProcess).2 = .ok (none, st2) := by rw [hp]
    have := processBlock_outcome env rpc messageTypeHandler messageTypeIgnorer st
      blockToProcess (none, st2) hp2
    rw [hp1] at this
    simp only [hp, queryRPC, List.nil_append]
    rcases this with ⟨h1, _⟩ | ⟨_, h2⟩ | ⟨h1, _, h3⟩
    · exact Or.inl h1
    · exact absurd rfl h2
    · exact Or.inr (Or.inr ⟨h1, h3⟩)
  · next t e st2 hp =>
    have hp1 : (processBlock env rpc messageTypeHandler messageTypeIgnorer st
        blockToProcess).1 = t := by rw [hp]
    have hp2 : (processBlock env rpc messageTypeHandler messageTypeIgnorer st
        blockToProcess).2 = .ok (some e, st2) := by rw [hp]
    have := processBlock_outcome env rpc messageTypeHandler messageTypeIgnorer st
      blockToProcess (some e, st2) hp2
    rw [hp1] at this
    simp only [hp, List.nil_append]
    rcases this with ⟨_, h2⟩ | ⟨h1, _⟩ | ⟨_, h2, _⟩
    · exact absurd h2 (by simp)
    · cases hu : env.UpsertFailedBlock st2.db blockToProcess with
      | mk uerr db2 =>
        cases uerr with
        | some ue => simp [hu] at h
        | none =>
          simp only [queryRPC]
          exact Or.inr (Or.inl ⟨t, rfl, h1⟩)
    · exact absurd h2 (by simp)

end Worker

section EmptyBlock

variable {σ : Type}

/-- C11: when the fallback path is taken at a height, the block results
arrive with no transaction result and the block query succeeds, `processBlock`
makes the three queries, does not call the failed-block handler, sends one
batch with that height, no transaction and the time of the block, and returns
a nil error. -/
theorem processBlock_empty_block (env : Env σ) (rpc : RPC) (messageTypeHandler : Registry)
    (messageTypeIgnorer : List String) (st : PState σ) (blockToProcess : Int)
    (resBlockResults : ResultBlockResults) (result : ResultBlock)
    (hfall : (∃ msg, rpc.GetTxsByBlockHeight blockToProcess = .error msg ∧
        stringsContains msg "unable to resolve type URL" = true) ∨
      (∃ resp, rpc.GetTxsByBlockHeight blockToProcess = .ok resp ∧ resp.Txs.length = 0))
    (hres : rpc.GetBlockByHeight blockToProcess = .ok (some resBlockResults))
    (hempty : resBlockResults.TxsResults = [])
    (hblock : rpc.GetBlock blockToProcess = .ok result) :
    processBlock env rpc messageTypeHandler messageTypeIgnorer st blockToProcess
      = ([Event.GetTxsByBlockHeight blockToProcess, Event.GetBlockByHeight blockToProcess,
          Event.GetBlock blockToProcess,
          Event.send ⟨[], result.Block.Time, blockToProcess⟩], .ok (none, st)) := by
  have hf : fallbackPath env rpc messageTypeHandler messageTypeIgnorer st blockToProcess
      [Event.GetTxsByBlockHeight blockToProcess]
      = ([Event.GetTxsByBlockHeight blockToProcess, Event.GetBlockByHeight blockToProcess,
          Event.GetBlock blockToProcess,
          Event.send ⟨[], result.Block.Time, blockToProcess⟩], .ok (none, st)) := by
    unfold fallbackPath
    simp only [hres, hempty, List.length_nil, gt_iff_lt, lt_self_iff_false, if_false]
    unfold sendBlock
    simp only [hblock, List.singleton_append, List.cons_append, List.nil_append]
  unfold processBlock
  rcases hfall with ⟨msg, hq, hc⟩ | ⟨resp, hq, hlen⟩
  · simp only [hq, hc, if_true]
    exact hf
  · simp only [hq, hlen, if_true]
    exact hf

/-- C11, on a node on which every block is empty, at height 100. -/
theorem processBlock_empty_block_witness :
    processBlock sampleEnv emptyBlockNode (registryOf "/cosmos.bank.v1beta1.MsgSend"
        [acceptingHandler]) [] (sampleState ["uatom"]) 100
      = ([Event.GetTxsByBlockHeight 100, Event.GetBlockByHeight 100, Event.GetBlock 100,
          Event.send ⟨[], (⟨⟨100, ⟨1700000000⟩, []⟩⟩ : ResultBlock).Block.Time, 100⟩],
         .ok (none, sampleState ["uatom"])) :=
  processBlock_empty_block sampleEnv emptyBlockNode
    (registryOf "/cosmos.bank.v1beta1.MsgSend" [acceptingHandler]) [] (sampleState ["uatom"])
    100 ⟨100, []⟩ ⟨⟨100, ⟨1700000000⟩, []⟩⟩ (Or.inr ⟨⟨[], []⟩, rfl, rfl⟩) rfl rfl rfl

end EmptyBlock

/-! ## The starting height -/

/-- C12: when the start block is -1, the node gives its latest height and the
highest indexed block is below it, `GetIndexerStartingHeight` returns the
height of the highest indexed block plus one, whatever the reindex flag and
the end block are. -/
theorem GetIndexerStartingHeight_resumes_after_highest (cfg : Base) (db : Database)
    (chainID : Nat) (w : Surroundings) (s : EnqState) (latestBlock : Int)
    (hstart : cfg.StartBlock = -1)
    (hlatest : w.GetLatestBlockHeight s.calls = .ok latestBlock)
    (hbelow : (GetHighestIndexedBlock db chainID).Height < latestBlock) :
    GetIndexerStartingHeight cfg db chainID w s
      = .ok ((GetHighestIndexedBlock db chainID).Height + 1,
          { s with calls := s.calls + 1, trace := s.trace ++ [EnqEvent.latest latestBlock] }) := by
  unfold GetIndexerStartingHeight
  simp only [hstart, if_true, hlatest, hbelow]

/-- C12, in reindex mode with the end block 2, on a database indexed up to
height 3 and a node at height 10. -/
theorem GetIndexerStartingHeight_resumes_after_highest_witness :
    GetIndexerStartingHeight { sampleBase (-1) 2 with ReIndex := true }
        (sampleDatabase [1, 2, 3] []) 1 (calmSurroundings 10) freshEnq
      = .ok ((GetHighestIndexedBlock (sampleDatabase [1, 2, 3] []) 1).Height + 1,
          { freshEnq with calls := freshEnq.calls + 1,
                          trace := freshEnq.trace ++ [EnqEvent.latest 10] }) :=
  GetIndexerStartingHeight_resumes_after_highest { sampleBase (-1) 2 with ReIndex := true }
    (sampleDatabase [1, 2, 3] []) 1 (calmSurroundings 10) freshEnq 10 rfl rfl (by decide)

/-- What `firstMissingFrom` finds: a height among the `n` from `height` on
that is not indexed, all heights before it being indexed; or nothing, all `n`
heights being indexed. -/
theorem firstMissingFrom_spec (db : Database) (chainID : Nat) :
    ∀ (n : Nat) (height : Int),
      (∀ m, firstMissingFrom db chainID n height = some m →
        height ≤ m ∧ m < height + n ∧ blockAlreadyIndexed m chainID db = false ∧
        ∀ k, height ≤ k → k < m → blockAlreadyIndexed k chainID db = true) ∧
      (firstMissingFrom db chainID n height = none →
        ∀ k, height ≤ k → k < height + n → blockAlreadyIndexed k chainID db = true) := by
  intro n
  induction n with
  | zero =>
    intro height
    refine ⟨fun m hm => by simp [firstMissingFrom] at hm, fun _ k h1 h2 => ?_⟩
    simp only [Nat.cast_zero, add_zero] at h2
    omega
  | succ n ih =>
    intro height
    obtain ⟨ih1, ih2⟩ := ih (height + 1)
    cases hidx : blockAlreadyIndexed height chainID db with
    | false =>
      refine ⟨fun m hm => ?_, fun hnone => ?_⟩
      · simp only [firstMissingFrom, hidx, Bool.false_eq_true, if_false, Option.some.injEq] at hm
        subst hm
        refine ⟨le_refl _, by push_cast; omega, hidx, fun k h1 h2 => by omega⟩
      · simp [firstMissingFrom, hidx] at hnone
    | true =>
      refine ⟨fun m hm => ?_, fun hnone => ?_⟩
      · simp only [firstMissingFrom, hidx, if_true] at hm
        obtain ⟨h1, h2, h3, h4⟩ := ih1 m hm
        refine ⟨by omega, by push_cast; omega, h3, fun k hk1 hk2 => ?_⟩
        by_cases hk : k = height
        · rw [hk]; exact hidx
        · exact h4 k (by omega) hk2
      · simp only [firstMissingFrom, hidx, if_true] at hnone
        intro k hk1 hk2
        by_cases hk : k = height
        · rw [hk]; exact hidx
        · exact ih2 hnone k (by omega) (by push_cast at hk2; omega)

/-- The spec's helper, for a range with a missing height: it returns the first
one. -/
theorem GetFirstMissingBlockInRange_first (db : Database) (start endBlock : Int) (chainID : Nat)
    (h : ∃ height, start ≤ height ∧ height ≤ endBlock ∧
      blockAlreadyIndexed height chainID db = false) :
    start ≤ GetFirstMissingBlockInRange db start endBlock chainID ∧
    GetFirstMissingBlockInRange db start endBlock chainID ≤ endBlock ∧
    blockAlreadyIndexed (GetFirstMissingBlockInRange db start endBlock chainID) chainID db
      = false ∧
    ∀ k, start ≤ k → k < GetFirstMissingBlockInRange db start endBlock chainID →
      blockAlreadyIndexed k chainID db = true := by
  obtain ⟨height, h1, h2, h3⟩ := h
  obtain ⟨hs, hn⟩ := firstMissingFrom_spec db chainID (endBlock - start + 1).toNat start
  have hcast : ((endBlock - start + 1).toNat : Int) = endBlock - start + 1 :=
    Int.toNat_of_nonneg (by omega)
  unfold GetFirstMissingBlockInRange
  cases hf : firstMissingFrom db chainID (endBlock - start + 1).toNat start with
  | none =>
    have := hn hf height h1 (by rw [hcast]; omega)
    rw [h3] at this
    exact absurd this (by simp)
  | some m =>
    obtain ⟨a, b, c, d⟩ := hs m hf
    rw [hcast] at b
    dsimp only
    exact ⟨a, by omega, c, d⟩

/-- C13, as stated, fails: the start block is 1, the end block -1, the blocks
1, 2, 3 and 5 are indexed, and the node is at height 3. The height returned is
4, which is above the chain tip and so not a height of the range from the
start block to the chain tip. -/
theorem GetIndexerStartingHeight_ignores_chain_tip :
    (calmSurroundings 3).GetLatestBlockHeight 0 = .ok 3 ∧
    GetIndexerStartingHeight (sampleBase 1 (-1)) (sampleDatabase [1, 2, 3, 5] []) 1
        (calmSurroundings 3) freshEnq = .ok (4, freshEnq) ∧
    ¬ ((4 : Int) ≤ 3) :=
  ⟨rfl, rfl, by decide⟩

/-- C13, amended: when the start block is not -1, `GetIndexerStartingHeight`
asks the node nothing; in reindex mode it returns the start block; otherwise
it returns what `GetFirstMissingBlockInRange` gives for the range from the
start block to the end block, the end block -1 standing for the height of the
highest indexed block, and that is the first height of the range without an
indexed block row when the range has one. -/
theorem GetIndexerStartingHeight_first_missing (cfg : Base) (db : Database) (chainID : Nat)
    (w : Surroundings) (s : EnqState) (hstart : cfg.StartBlock ≠ -1) :
    (cfg.ReIndex = true →
      GetIndexerStartingHeight cfg db chainID w s = .ok (cfg.StartBlock, s)) ∧
    (cfg.ReIndex = false →
      GetIndexerStartingHeight cfg db chainID w s
        = .ok (GetFirstMissingBlockInRange db cfg.StartBlock
            (if cfg.EndBlock = -1 then (GetHighestIndexedBlock db chainID).Height
              else cfg.EndBlock) chainID, s) ∧
      ((∃ height, cfg.StartBlock ≤ height ∧
          height ≤ (if cfg.EndBlock = -1 then (GetHighestIndexedBlock db chainID).Height
            else cfg.EndBlock) ∧
          blockAlreadyIndexed height chainID db = false) →
        ∃ first, GetIndexerStartingHeight cfg db chainID w s = .ok (first, s) ∧
          cfg.StartBlock ≤ first ∧
          first ≤ (if cfg.EndBlock = -1 then (GetHighestIndexedBlock db chainID).Height
            else cfg.EndBlock) ∧
          blockAlreadyIndexed first chainID db = false ∧
          ∀ k, cfg.StartBlock ≤ k → k < first → blockAlreadyIndexed k chainID db = true)) := by
  have hcode : cfg.ReIndex = false → GetIndexerStartingHeight cfg db chainID w s
      = .ok (GetFirstMissingBlockInRange db cfg.StartBlock
          (if cfg.EndBlock = -1 then (GetHighestIndexedBlock db chainID).Height
            else cfg.EndBlock) chainID, s) := by
    intro hre
    unfold GetIndexerStartingHeight
    simp only [hstart, if_false, hre, Bool.false_eq_true]
  refine ⟨fun hre => ?_, fun hre => ⟨hcode hre, fun hex => ?_⟩⟩
  · unfold GetIndexerStartingHeight
    simp only [hstart, if_false, hre, if_true]
  · obtain ⟨a, b, c, d⟩ := GetFirstMissingBlockInRange_first db cfg.StartBlock _ chainID hex
    exact ⟨_, hcode hre, a, b, c, d⟩

/-- C13, amended, with the start block 1 and the end block 8 on a database
with the blocks 1, 2, 3 and 5 indexed: the first missing height is 4. -/
theorem GetIndexerStartingHeight_first_missing_witness :
    ((sampleBase 1 8).ReIndex = true →
      GetIndexerStartingHeight (sampleBase 1 8) (sampleDatabase [1, 2, 3, 5] []) 1
        (calmSurroundings 10) freshEnq = .ok ((sampleBase 1 8).StartBlock, freshEnq)) ∧
    ((sampleBase 1 8).ReIndex = false →
      GetIndexerStartingHeight (sampleBase 1 8) (sampleDatabase [1, 2, 3, 5] []) 1
          (calmSurroundings 10) freshEnq
        = .ok (GetFirstMissingBlockInRange (sampleDatabase [1, 2, 3, 5] [])
            (sampleBase 1 8).StartBlock
            (if (sampleBase 1 8).EndBlock = -1 then
              (GetHighestIndexedBlock (sampleDatabase [1, 2, 3, 5] []) 1).Height
              else (sampleBase 1 8).EndBlock) 1, freshEnq) ∧
      ((∃ height, (sampleBase 1 8).StartBlock ≤ height ∧
          height ≤ (if (sampleBase 1 8).EndBlock = -1 then
            (GetHighestIndexedBlock (sampleDatabase [1, 2, 3, 5] []) 1).Height
            else (sampleBase 1 8).EndBlock) ∧
          blockAlreadyIndexed height 1 (sampleDatabase [1, 2, 3, 5] []) = false) →
        ∃ first, GetIndexerStartingHeight (sampleBase 1 8) (sampleDatabase [1, 2, 3, 5] []) 1
            (calmSurroundings 10) freshEnq = .ok (first, freshEnq) ∧
          (sampleBase 1 8).StartBlock ≤ first ∧
          first ≤ (if (sampleBase 1 8).EndBlock = -1 then
            (GetHighestIndexedBlock (sampleDatabase [1, 2, 3, 5] []) 1).Height
            else (sampleBase 1 8).EndBlock) ∧
          blockAlreadyIndexed first 1 (sampleDatabase [1, 2, 3, 5] []) = false ∧
          ∀ k, (sampleBase 1 8).StartBlock ≤ k → k < first →
            blockAlreadyIndexed k 1 (sampleDatabase [1, 2, 3, 5] []) = true)) :=
  GetIndexerStartingHeight_first_missing (sampleBase 1 8) (sampleDatabase [1, 2, 3, 5] []) 1
    (calmSurroundings 10) freshEnq (by decide)

/-! ## The live loop of the enqueuer -/

theorem sentHeights_append (a b : List EnqEvent) :
    sentHeights (a ++ b) = sentHeights a ++ sentHeights b := by
  induction a with
  | nil => rfl
  | cons e rest ih => cases e <;> simp [sentHeights, ih]

theorem sentHeights_sends (heights : List Int) :
    sentHeights (heights.map EnqEvent.send) = heights := by
  induction heights with
  | nil => rfl
  | cons h rest ih => simp [sentHeights, ih]

theorem heightsFrom_add (m n : Nat) :
    ∀ height : Int, heightsFrom height (m + n)
      = heightsFrom height m ++ heightsFrom (height + m) n := by
  induction m with
  | zero => intro height; simp [heightsFrom]
  | succ m ih =>
    intro height
    have h1 : m + 1 + n = (m + n) + 1 := by omega
    rw [h1]
    simp only [heightsFrom, ih, List.cons_append, List.cons.injEq, true_and]
    congr 2
    push_cast
    ring

theorem mem_heightsFrom (n : Nat) :
    ∀ (height h : Int), h ∈ heightsFrom height n ↔ height ≤ h ∧ h < height + n := by
  induction n with
  | zero => intro height h; simp [heightsFrom]
  | succ n ih =>
    intro height h
    simp only [heightsFrom, List.mem_cons, ih]
    push_cast
    omega

theorem heightsFrom_pairwise (n : Nat) :
    ∀ height : Int, (heightsFrom height n).Pairwise (· < ·) := by
  induction n with
  | zero => intro height; simp [heightsFrom]
  | succ n ih =>
    intro height
    simp only [heightsFrom, List.pairwise_cons]
    refine ⟨fun h hh => ?_, ih _⟩
    have := (mem_heightsFrom n (height + 1) h).1 hh
    omega

theorem toSend_add (cfg : Base) (db : Database) (chainID : Nat) (height : Int) (m n : Nat) :
    toSend cfg db chainID height (m + n)
      = toSend cfg db chainID height m ++ toSend cfg db chainID (height + m) n := by
  simp [toSend, heightsFrom_add]

theorem mem_toSend (cfg : Base) (db : Database) (chainID : Nat) (height : Int) (n : Nat)
    (h : Int) :
    h ∈ toSend cfg db chainID height n ↔
      height ≤ h ∧ h < height + n ∧
        (cfg.ReIndex = true ∨ blockAlreadyIndexed h chainID db = false) := by
  simp only [toSend, List.mem_filter, mem_heightsFrom, wanted, Bool.or_eq_true,
    Bool.not_eq_true', and_assoc]

theorem toSend_pairwise (cfg : Base) (db : Database) (chainID : Nat) (height : Int) (n : Nat) :
    (toSend cfg db chainID height n).Pairwise (· < ·) :=
  (heightsFrom_pairwise n height).sublist (List.filter_sublist _)

theorem boundedSends_of_none (endBlock : Int) (events : List EnqEvent) :
    ∀ last, boundedSends endBlock none events → boundedSends endBlock last events := by
  induction events with
  | nil => intro _ _; trivial
  | cons e rest ih =>
    intro last h
    cases e with
    | send height =>
      obtain ⟨_, ⟨l, hl, _⟩, _⟩ := h
      exact absurd hl (by simp)
    | latest l => exact h
    | startingHeight _ => exact ih last h

theorem boundedSends_sends (endBlock latest : Int) (rest : List EnqEvent) (heights : List Int)
    (hb : ∀ h ∈ heights, h ≤ endBlock ∧ h ≤ latest)
    (hrest : boundedSends endBlock (some latest) rest) :
    boundedSends endBlock (some latest) (heights.map EnqEvent.send ++ rest) := by
  induction heights with
  | nil => exact hrest
  | cons h more ih =>
    refine ⟨(hb h (by simp)).1, ⟨latest, rfl, (hb h (by simp)).2⟩, ?_⟩
    exact ih fun x hx => hb x (by simp [hx])

theorem wanted_eq (cfg : Base) (db : Database) (chainID : Nat) (height : Int) :
    wanted cfg db chainID height
      = !(!cfg.ReIndex && blockAlreadyIndexed height chainID db) := by
  unfold wanted
  cases cfg.ReIndex <;> cases blockAlreadyIndexed height chainID db <;> rfl

/-- What the inner loop does, for every number of tests: it sends the wanted
heights among the next `k` from the current block on, `k` being such that no
height above the latest height or the end block is among them, and when it is
left the current block has advanced by `k`. -/
theorem sendLoop_trace (cfg : Base) (db : Database) (chainID : Nat) (w : Surroundings)
    (cap : Nat) (latestBlock : Int) (hend : cfg.EndBlock ≠ -1) :
    ∀ (fuel : Nat) (currBlock : Int) (s : EnqState), ∃ k : Nat,
      (sendLoop cfg db chainID w cap latestBlock fuel currBlock s).2.trace
        = s.trace ++ (toSend cfg db chainID currBlock k).map EnqEvent.send ∧
      (k = 0 ∨ (currBlock + k ≤ latestBlock + 1 ∧ currBlock + k ≤ cfg.EndBlock + 1)) ∧
      ∀ c, (sendLoop cfg db chainID w cap latestBlock fuel currBlock s).1 = some c →
        c = currBlock + k := by
  intro fuel
  induction fuel with
  | zero => intro c s; exact ⟨0, by simp [sendLoop, toSend, heightsFrom], Or.inl rfl, by simp [sendLoop]⟩
  | succ fuel ih =>
    intro c s
    unfold sendLoop
    by_cases hcond : c ≤ latestBlock ∧ (c ≤ cfg.EndBlock ∨ cfg.EndBlock = -1)
    · rw [if_pos hcond]
      have hc : c ≤ latestBlock ∧ c ≤ cfg.EndBlock := ⟨hcond.1, hcond.2.resolve_right hend⟩
      by_cases hlook : (s.look w).1 ≠ cap
      · rw [if_pos hlook]
        have hw := wanted_eq cfg db chainID c
        cases hskip : (!cfg.ReIndex && blockAlreadyIndexed c chainID db) with
        | true =>
          obtain ⟨k, h1, h2, h3⟩ := ih (c + 1) (s.look w).2
          rw [hskip] at hw
          refine ⟨k + 1, ?_, Or.inr ?_, fun c1 hc1 => ?_⟩
          · simp only [if_true, h1]
            simp [toSend, heightsFrom, hw, EnqState.look]
          · push_cast; omega
          · simp only [if_true] at hc1
            rw [h3 c1 hc1]; push_cast; ring
        | false =>
          obtain ⟨k, h1, h2, h3⟩ := ih (c + 1) ((s.look w).2.send cap c)
          rw [hskip] at hw
          refine ⟨k + 1, ?_, Or.inr ?_, fun c1 hc1 => ?_⟩
          · simp only [Bool.false_eq_true, if_false, h1]
            simp [toSend, heightsFrom, hw, EnqState.look, EnqState.send]
          · push_cast; omega
          · simp only [Bool.false_eq_true, if_false] at hc1
            rw [h3 c1 hc1]; push_cast; ring
      · rw [if_neg hlook]
        exact ⟨0, by simp [toSend, heightsFrom, EnqState.look], Or.inl rfl, by simp⟩
    · rw [if_neg hcond]
      exact ⟨0, by simp [toSend, heightsFrom], Or.inl rfl, by simp⟩

/-- What the live loop does, for every number of rounds, when every latest
height the node reports is at least the end block: the heights it sends are
the wanted ones among the next `k` from the current block on, none of them
above the end block or above the latest height reported last, and when it
returns the current block has passed the end block. -/
theorem liveLoop_trace (cfg : Base) (db : Database) (chainID : Nat) (w : Surroundings)
    (cap : Nat) (hend : cfg.EndBlock ≠ -1)
    (hnode : ∀ n latest, w.GetLatestBlockHeight n = .ok latest → cfg.EndBlock ≤ latest) :
    ∀ (fuel : Nat) (currBlock latestBlock : Int) (s : EnqState),
      cfg.EndBlock ≤ latestBlock → ∃ (k : Nat) (new : List EnqEvent),
        (liveLoop cfg db chainID w cap fuel currBlock latestBlock s).state.trace
          = s.trace ++ new ∧
        sentHeights new = toSend cfg db chainID currBlock k ∧
        (k = 0 ∨ currBlock + k ≤ cfg.EndBlock + 1) ∧
        boundedSends cfg.EndBlock none new ∧
        ∀ s1, liveLoop cfg db chainID w cap fuel currBlock latestBlock s = .returned s1 →
          cfg.EndBlock < currBlock + k := by
  intro fuel
  induction fuel with
  | zero =>
    intro c lb s _
    exact ⟨0, [], by simp [liveLoop, EnqResult.state], rfl, Or.inl rfl, trivial,
      by simp [liveLoop]⟩
  | succ fuel ih =>
    intro c lb s hlb
    unfold liveLoop
    by_cases h1 : cfg.EndBlock ≠ -1 ∧ c > cfg.EndBlock
    · rw [if_pos h1]
      exact ⟨0, [], by simp [EnqResult.state], rfl, Or.inl rfl, trivial,
        fun _ _ => by simpa using h1.2⟩
    rw [if_neg h1]
    by_cases h2 : cfg.ExitWhenCaughtUp = true ∧ c > lb
    · rw [if_pos h2]
      exact ⟨0, [], by simp [EnqResult.state], rfl, Or.inl rfl, trivial,
        fun _ _ => by have := h2.2; simp only [Nat.cast_zero, add_zero]; omega⟩
    rw [if_neg h2]
    by_cases h3 : (s.look w).1 ≤ cap / 4
    · rw [if_pos h3]
      cases hans : w.GetLatestBlockHeight (s.look w).2.calls with
      | error e =>
        exact ⟨0, [], by simp [EnqResult.state, EnqState.look], rfl, Or.inl rfl, trivial,
          by simp⟩
      | ok latest =>
        have hl := hnode _ _ hans
        obtain ⟨k1, t1, b1, c1⟩ := sendLoop_trace cfg db chainID w cap latest hend fuel c
          ⟨(s.look w).2.trace ++ [EnqEvent.latest latest], (s.look w).2.len,
            (s.look w).2.looks, (s.look w).2.calls + 1⟩
        have hsends : ∀ h ∈ toSend cfg db chainID c k1, h ≤ cfg.EndBlock ∧ h ≤ latest := by
          intro h hh
          have hm := (mem_toSend cfg db chainID c k1 h).1 hh
          rcases b1 with b1 | b1
          · rw [b1] at hm; simp only [Nat.cast_zero, add_zero] at hm; omega
          · omega
        rcases hsl : sendLoop cfg db chainID w cap latest fuel c
          ⟨(s.look w).2.trace ++ [EnqEvent.latest latest], (s.look w).2.len,
            (s.look w).2.looks, (s.look w).2.calls + 1⟩ with ⟨_ | c2, s2⟩
        · rw [hsl] at t1
          simp only [hsl]
          refine ⟨k1, EnqEvent.latest latest :: (toSend cfg db chainID c k1).map EnqEvent.send,
            ?_, ?_, ?_, ?_, by simp⟩
          · simp only [EnqResult.state]
            simpa [EnqState.look] using t1
          · simp [sentHeights, sentHeights_sends]
          · rcases b1 with b1 | b1
            · exact Or.inl b1
            · exact Or.inr b1.2
          · have := boundedSends_sends cfg.EndBlock latest [] _ hsends trivial
            simpa [boundedSends] using this
        · rw [hsl] at t1 c1
          simp only [hsl]
          have hc2 := c1 c2 rfl
          obtain ⟨k2, new2, t2, sh2, b2, bs2, r2⟩ := ih c2 latest s2 hl
          refine ⟨k1 + k2,
            EnqEvent.latest latest :: ((toSend cfg db chainID c k1).map EnqEvent.send ++ new2),
            ?_, ?_, ?_, ?_, ?_⟩
          · simp only [t2]
            simp only [] at t1
            rw [t1]
            simp [EnqState.look]
          · simp only [sentHeights, sentHeights_append, sentHeights_sends, sh2, toSend_add, hc2]
          · rcases b2 with b2 | b2
            · rcases b1 with b1 | b1
              · left; omega
              · right; rw [b2]; simpa using b1.2
            · right; rw [hc2] at b2; push_cast; omega
          · exact boundedSends_sends cfg.EndBlock latest new2 _ hsends
              (boundedSends_of_none _ _ _ bs2)
          · intro s1 hs1
            have := r2 s1 hs1
            rw [hc2] at this; push_cast; omega
    · rw [if_neg h3]
      obtain ⟨k, new, t, sh, b, bs, r⟩ := ih c lb (s.look w).2 hlb
      exact ⟨k, new, by simpa [EnqState.look] using t, sh, b, bs, r⟩

/-- When the workers keep the heights channel at most a quarter full, the
inner loop is left after one test more than the number of heights up to the
latest height and the end block. -/
theorem sendLoop_done (cfg : Base) (db : Database) (chainID : Nat) (w : Surroundings)
    (cap : Nat) (latestBlock : Int) (hend : cfg.EndBlock ≠ -1) (hcap : 0 < cap)
    (hleft : ∀ t n, w.left t n ≤ cap / 4) :
    ∀ (n fuel : Nat) (currBlock : Int) (s : EnqState), n < fuel →
      currBlock + n = min latestBlock cfg.EndBlock + 1 →
      (sendLoop cfg db chainID w cap latestBlock fuel currBlock s).1
        = some (min latestBlock cfg.EndBlock + 1) := by
  intro n
  induction n with
  | zero =>
    intro fuel c s hf hc
    obtain ⟨fuel, rfl⟩ : ∃ f, fuel = f + 1 := ⟨fuel - 1, by omega⟩
    unfold sendLoop
    have hcond : ¬ (c ≤ latestBlock ∧ (c ≤ cfg.EndBlock ∨ cfg.EndBlock = -1)) := by
      simp only [Nat.cast_zero, add_zero] at hc
      omega
    rw [if_neg hcond, ← hc]
    simp
  | succ n ih =>
    intro fuel c s hf hc
    obtain ⟨fuel, rfl⟩ : ∃ f, fuel = f + 1 := ⟨fuel - 1, by omega⟩
    unfold sendLoop
    have hcond : c ≤ latestBlock ∧ (c ≤ cfg.EndBlock ∨ cfg.EndBlock = -1) := by
      push_cast at hc
      omega
    have hlook : (s.look w).1 ≠ cap := by
      have := hleft s.looks s.len
      simp only [EnqState.look]
      omega
    rw [if_pos hcond, if_pos hlook]
    have hc1 : c + 1 + (n : Int) = min latestBlock cfg.EndBlock + 1 := by
      push_cast at hc; omega
    split
    · exact ih fuel (c + 1) _ (by omega) hc1
    · exact ih fuel (c + 1) _ (by omega) hc1

/-- When the node answers every call with a height that is at least the end
block and the workers keep the heights channel at most a quarter full, the
live loop returns within two rounds more than the number of heights up to the
end block. -/
theorem liveLoop_returns (cfg : Base) (db : Database) (chainID : Nat) (w : Surroundings)
    (cap : Nat) (hend : cfg.EndBlock ≠ -1)
    (hnode : ∀ n latest, w.GetLatestBlockHeight n = .ok latest → cfg.EndBlock ≤ latest)
    (hcap : 0 < cap) (hleft : ∀ t n, w.left t n ≤ cap / 4)
    (hanswers : ∀ n, ∃ latest, w.GetLatestBlockHeight n = .ok latest)
    (fuel : Nat) (currBlock latestBlock : Int) (s : EnqState)
    (hlb : cfg.EndBlock ≤ latestBlock)
    (hfuel : (cfg.EndBlock + 1 - currBlock).toNat + 2 ≤ fuel) :
    ∃ s1, liveLoop cfg db chainID w cap fuel currBlock latestBlock s = .returned s1 := by
  obtain ⟨fuel, rfl⟩ : ∃ f, fuel = f + 1 := ⟨fuel - 1, by omega⟩
  unfold liveLoop
  by_cases h1 : cfg.EndBlock ≠ -1 ∧ currBlock > cfg.EndBlock
  · rw [if_pos h1]; exact ⟨_, rfl⟩
  rw [if_neg h1]
  have hc : currBlock ≤ cfg.EndBlock := by
    by_contra hc
    exact h1 ⟨hend, by omega⟩
  have h2 : ¬ (cfg.ExitWhenCaughtUp = true ∧ currBlock > latestBlock) := by
    intro h; have := h.2; omega
  rw [if_neg h2]
  have h3 : (s.look w).1 ≤ cap / 4 := by
    have := hleft s.looks s.len
    simp only [EnqState.look]
    omega
  rw [if_pos h3]
  obtain ⟨latest, hans⟩ := hanswers (s.look w).2.calls
  have hl := hnode _ _ hans
  rw [hans]
  have hmin : min latest cfg.EndBlock = cfg.EndBlock := min_eq_right hl
  have hdone := sendLoop_done cfg db chainID w cap latest hend hcap hleft
    (cfg.EndBlock + 1 - currBlock).toNat fuel currBlock
    ⟨(s.look w).2.trace ++ [EnqEvent.latest latest], (s.look w).2.len,
      (s.look w).2.looks, (s.look w).2.calls + 1⟩ (by omega)
    (by rw [hmin, Int.toNat_of_nonneg (by omega)]; ring)
  rw [hmin] at hdone
  rcases hsl : sendLoop cfg db chainID w cap latest fuel currBlock
    ⟨(s.look w).2.trace ++ [EnqEvent.latest latest], (s.look w).2.len,
      (s.look w).2.looks, (s.look w).2.calls + 1⟩ with ⟨c2, s2⟩
  rw [hsl] at hdone
  simp only [] at hdone
  subst hdone
  simp only [hsl]
  obtain ⟨fuel, rfl⟩ : ∃ f, fuel = f + 1 := ⟨fuel - 1, by omega⟩
  unfold liveLoop
  rw [if_pos ⟨hend, by omega⟩]
  exact ⟨_, rfl⟩

/-- C14: for an end block other than -1 and a node whose latest height is at
least the end block, the live loop of `enqueueBlocksToProcess`, started at the
starting height, sends heights in increasing order, each in the range from the
starting height to the end block and not already indexed unless in reindex
mode, none above the end block or above the latest height reported last; when
it returns it has sent every such height; and it does return when the node
answers and the workers keep the heights channel at most a quarter full. -/
theorem liveLoop_sends_range (cfg : Base) (db : Database) (chainID : Nat) (w : Surroundings)
    (cap : Nat) (start : Int) (s : EnqState)
    (hend : cfg.EndBlock ≠ -1) (hmax : cfg.EndBlock ≤ MaxInt64)
    (hnode : ∀ n latest, w.GetLatestBlockHeight n = .ok latest → cfg.EndBlock ≤ latest) :
    (∀ fuel, ∃ new,
      (liveLoop cfg db chainID w cap fuel start MaxInt64 s).state.trace = s.trace ++ new ∧
      boundedSends cfg.EndBlock none new ∧
      (sentHeights new).Pairwise (· < ·) ∧
      (∀ h ∈ sentHeights new, start ≤ h ∧ h ≤ cfg.EndBlock ∧
        (cfg.ReIndex = true ∨ blockAlreadyIndexed h chainID db = false)) ∧
      (∀ s1, liveLoop cfg db chainID w cap fuel start MaxInt64 s = .returned s1 →
        ∀ h, start ≤ h → h ≤ cfg.EndBlock →
          (cfg.ReIndex = true ∨ blockAlreadyIndexed h chainID db = false) →
          h ∈ sentHeights new)) ∧
    (0 < cap → (∀ t n, w.left t n ≤ cap / 4) →
      (∀ n, ∃ latest, w.GetLatestBlockHeight n = .ok latest) →
      ∀ fuel, (cfg.EndBlock + 1 - start).toNat + 2 ≤ fuel →
        ∃ s1, liveLoop cfg db chainID w cap fuel start MaxInt64 s = .returned s1) := by
  refine ⟨fun fuel => ?_, fun hcap hleft hanswers fuel hfuel =>
    liveLoop_returns cfg db chainID w cap hend hnode hcap hleft hanswers fuel start MaxInt64 s
      hmax hfuel⟩
  obtain ⟨k, new, t, sh, b, bs, r⟩ :=
    liveLoop_trace cfg db chainID w cap hend hnode fuel start MaxInt64 s hmax
  refine ⟨new, t, bs, ?_, fun h hh => ?_, fun s1 hs1 h h1 h2 h3 => ?_⟩
  · rw [sh]; exact toSend_pairwise cfg db chainID start k
  · rw [sh] at hh
    have hm := (mem_toSend cfg db chainID start k h).1 hh
    refine ⟨hm.1, ?_, hm.2.2⟩
    rcases b with b | b
    · rw [b] at hm; simp only [Nat.cast_zero, add_zero] at hm; omega
    · omega
  · rw [sh]
    have := r s1 hs1
    exact (mem_toSend cfg db chainID start k h).2 ⟨h1, by omega, h3⟩

/-- C14, with the end block 8, the blocks 1, 2, 3 and 5 indexed, the starting
height 4 and a node at height 10. -/
theorem liveLoop_sends_range_witness :
    (∀ fuel, ∃ new,
      (liveLoop (sampleBase 1 8) (sampleDatabase [1, 2, 3, 5] []) 1 (calmSurroundings 10) 20
        fuel 4 MaxInt64 freshEnq).state.trace = freshEnq.trace ++ new ∧
      boundedSends (sampleBase 1 8).EndBlock none new ∧
      (sentHeights new).Pairwise (· < ·) ∧
      (∀ h ∈ sentHeights new, 4 ≤ h ∧ h ≤ (sampleBase 1 8).EndBlock ∧
        ((sampleBase 1 8).ReIndex = true ∨
          blockAlreadyIndexed h 1 (sampleDatabase [1, 2, 3, 5] []) = false)) ∧
      (∀ s1, liveLoop (sampleBase 1 8) (sampleDatabase [1, 2, 3, 5] []) 1 (calmSurroundings 10)
          20 fuel 4 MaxInt64 freshEnq = .returned s1 →
        ∀ h, 4 ≤ h → h ≤ (sampleBase 1 8).EndBlock →
          ((sampleBase 1 8).ReIndex = true ∨
            blockAlreadyIndexed h 1 (sampleDatabase [1, 2, 3, 5] []) = false) →
          h ∈ sentHeights new)) ∧
    (0 < 20 → (∀ t n, (calmSurroundings 10).left t n ≤ 20 / 4) →
      (∀ n, ∃ latest, (calmSurroundings 10).GetLatestBlockHeight n = .ok latest) →
      ∀ fuel, ((sampleBase 1 8).EndBlock + 1 - 4).toNat + 2 ≤ fuel →
        ∃ s1, liveLoop (sampleBase 1 8) (sampleDatabase [1, 2, 3, 5] []) 1 (calmSurroundings 10)
          20 fuel 4 MaxInt64 freshEnq = .returned s1) :=
  liveLoop_sends_range (sampleBase 1 8) (sampleDatabase [1, 2, 3, 5] []) 1 (calmSurroundings 10)
    20 4 freshEnq (by decide) (by decide)
    (fun _ latest h => by
      have h1 : latest = 10 := by
        simp only [calmSurroundings, Except.ok.injEq] at h
        exact h.symm
      rw [h1]; decide)

/-- The sample run of C14, evaluated: the live loop sends 4, 6, 7 and 8
after the node has reported height 10, and returns. -/
theorem liveLoop_sample_run :
    liveLoop (sampleBase 1 8) (sampleDatabase [1, 2, 3, 5] []) 1 (calmSurroundings 10) 20
        7 4 MaxInt64 freshEnq
      = .returned ⟨[.latest 10, .send 4, .send 6, .send 7, .send 8], 1, 6, 1⟩ := by
  rfl

/-! ## The failed blocks are enqueued first -/

theorem sends_trace (cap : Nat) (heights : List Int) :
    ∀ s : EnqState, (heights.foldl (fun s1 height => s1.send cap height) s).trace
      = s.trace ++ heights.map EnqEvent.send := by
  induction heights with
  | nil => intro s; simp
  | cons h rest ih => intro s; rw [List.foldl_cons, ih]; simp [EnqState.send]

theorem enqueueFailedBlocks_trace (db : Database) (chainID : Nat) (cap : Nat) (s : EnqState) :
    (enqueueFailedBlocks db chainID cap s).trace
      = s.trace ++ ((GetFailedBlocks db chainID).map fun b => b.Height).map EnqEvent.send := by
  unfold enqueueFailedBlocks
  rw [← sends_trace, List.foldl_map]

theorem sendLoop_extends (cfg : Base) (db : Database) (chainID : Nat) (w : Surroundings)
    (cap : Nat) (latestBlock : Int) :
    ∀ (fuel : Nat) (currBlock : Int) (s : EnqState), ∃ new,
      (sendLoop cfg db chainID w cap latestBlock fuel currBlock s).2.trace = s.trace ++ new := by
  intro fuel
  induction fuel with
  | zero => intro c s; exact ⟨[], by simp [sendLoop]⟩
  | succ fuel ih =>
    intro c s
    unfold sendLoop
    split
    · split
      · split
        · obtain ⟨new, h⟩ := ih (c + 1) (s.look w).2
          exact ⟨new, by simpa [EnqState.look] using h⟩
        · obtain ⟨new, h⟩ := ih (c + 1) ((s.look w).2.send cap c)
          exact ⟨EnqEvent.send c :: new, by simpa [EnqState.look, EnqState.send] using h⟩
      · exact ⟨[], by simp [EnqState.look]⟩
    · exact ⟨[], by simp⟩

theorem liveLoop_extends (cfg : Base) (db : Database) (chainID : Nat) (w : Surroundings)
    (cap : Nat) :
    ∀ (fuel : Nat) (currBlock latestBlock : Int) (s : EnqState), ∃ new,
      (liveLoop cfg db chainID w cap fuel currBlock latestBlock s).state.trace
        = s.trace ++ new := by
  intro fuel
  induction fuel with
  | zero => intro c lb s; exact ⟨[], by simp [liveLoop, EnqResult.state]⟩
  | succ fuel ih =>
    intro c lb s
    unfold liveLoop
    split
    · exact ⟨[], by simp [EnqResult.state]⟩
    split
    · exact ⟨[], by simp [EnqResult.state]⟩
    split
    · cases hans : w.GetLatestBlockHeight (s.look w).2.calls with
      | error e => exact ⟨[], by simp [EnqResult.state, EnqState.look]⟩
      | ok latest =>
        obtain ⟨new1, h1⟩ := sendLoop_extends cfg db chainID w cap latest fuel c
          ⟨(s.look w).2.trace ++ [EnqEvent.latest latest], (s.look w).2.len,
            (s.look w).2.looks, (s.look w).2.calls + 1⟩
        rcases hsl : sendLoop cfg db chainID w cap latest fuel c
          ⟨(s.look w).2.trace ++ [EnqEvent.latest latest], (s.look w).2.len,
            (s.look w).2.looks, (s.look w).2.calls + 1⟩ with ⟨_ | c2, s2⟩
        · rw [hsl] at h1
          simp only [hsl]
          exact ⟨EnqEvent.latest latest :: new1, by
            simp only [EnqResult.state]; simpa [EnqState.look] using h1⟩
        · rw [hsl] at h1
          simp only [hsl]
          obtain ⟨new2, h2⟩ := ih c2 latest s2
          refine ⟨EnqEvent.latest latest :: (new1 ++ new2), ?_⟩
          simp only [] at h1
          rw [h2, h1]
          simp [EnqState.look]
    · obtain ⟨new, h⟩ := ih c lb (s.look w).2
      exact ⟨new, by simpa [EnqState.look] using h⟩

theorem GetIndexerStartingHeight_trace (cfg : Base) (db : Database) (chainID : Nat)
    (w : Surroundings) (s : EnqState) (height : Int) (s1 : EnqState)
    (h : GetIndexerStartingHeight cfg db chainID w s = .ok (height, s1)) :
    s1.trace = s.trace ∨ ∃ latest, s1.trace = s.trace ++ [EnqEvent.latest latest] := by
  unfold GetIndexerStartingHeight at h
  by_cases hstart : cfg.StartBlock = -1
  · rw [if_pos hstart] at h
    cases hans : w.GetLatestBlockHeight s.calls with
    | error e => simp [hans] at h
    | ok latest =>
      simp only [hans] at h
      right
      refine ⟨latest, ?_⟩
      split at h
      · simp only [Except.ok.injEq, Prod.mk.injEq] at h
        rw [← h.2]
      · split at h
        · simp only [Except.ok.injEq, Prod.mk.injEq] at h
          rw [← h.2]
        · simp only [Except.ok.injEq, Prod.mk.injEq] at h
          rw [← h.2]
  · rw [if_neg hstart] at h
    left
    split at h
    · simp only [Except.ok.injEq, Prod.mk.injEq] at h
      rw [← h.2]
    · simp only [Except.ok.injEq, Prod.mk.injEq] at h
      rw [← h.2]

/-- C15: the events of `enqueueBlocksToProcess` are those before the starting
height is determined followed by the starting height and the events of the
live loop. The heights sent before are the heights of the failed blocks of the
chain, one send for each row in the order of `GetFailedBlocks`, when
`PreventReattempts` is not set, and there are none when it is set; the run has
no later events only when the node fails to give its latest height, which ends
the process. -/
theorem enqueueBlocksToProcess_failed_blocks_first (cfg : Base) (db : Database)
    (chainID : Nat) (w : Surroundings) (cap fuel : Nat) (s : EnqState) :
    ∃ before after,
      (enqueueBlocksToProcess cfg db chainID w cap fuel s).state.trace
        = s.trace ++ before ++ after ∧
      sentHeights before
        = (if cfg.PreventReattempts = true then []
            else (GetFailedBlocks db chainID).map fun b => b.Height) ∧
      (∀ height, EnqEvent.startingHeight height ∉ before) ∧
      ((after = [] ∧ ∃ s1, enqueueBlocksToProcess cfg db chainID w cap fuel s = .fatal s1) ∨
        ∃ height rest, after = EnqEvent.startingHeight height :: rest) := by
  have hpre : ∃ sends, sentHeights sends
        = (if cfg.PreventReattempts = true then []
            else (GetFailedBlocks db chainID).map fun b => b.Height) ∧
      (∀ e ∈ sends, ∃ height, e = EnqEvent.send height) ∧
      (if (!cfg.PreventReattempts) = true then enqueueFailedBlocks db chainID cap s else s).trace
        = s.trace ++ sends := by
    cases hp : cfg.PreventReattempts with
    | true => exact ⟨[], by simp [sentHeights], by simp, by simp⟩
    | false =>
      refine ⟨((GetFailedBlocks db chainID).map fun b => b.Height).map EnqEvent.send,
        (sentHeights_sends _).trans (by simp), ?_, by
          simp only [Bool.not_false, if_true]; exact enqueueFailedBlocks_trace db chainID cap s⟩
      intro e he
      simp only [List.map_map, List.mem_map, Function.comp] at he
      obtain ⟨b, _, hb⟩ := he
      exact ⟨b.Height, hb.symm⟩
  obtain ⟨sends, hs1, hs2, hs3⟩ := hpre
  unfold enqueueBlocksToProcess
  simp only []
  cases hg : GetIndexerStartingHeight cfg db chainID w
      (if (!cfg.PreventReattempts) = true then enqueueFailedBlocks db chainID cap s else s) with
  | error e =>
    refine ⟨sends, [], by simp only [EnqResult.state, List.append_nil]; exact hs3, hs1,
      fun height hmem => ?_,
      Or.inl ⟨rfl, _, rfl⟩⟩
    obtain ⟨h1, h2⟩ := hs2 _ hmem
    cases h2
  | ok r =>
    obtain ⟨c, s2⟩ := r
    simp only []
    obtain ⟨new, hnew⟩ := liveLoop_extends cfg db chainID w cap fuel c MaxInt64
      { s2 with trace := s2.trace ++ [EnqEvent.startingHeight c] }
    rcases GetIndexerStartingHeight_trace cfg db chainID w _ c s2 hg with ht | ⟨latest, ht⟩
    · refine ⟨sends, EnqEvent.startingHeight c :: new, ?_, hs1, fun height hmem => ?_,
        Or.inr ⟨c, new, rfl⟩⟩
      · rw [hnew]; simp only [ht, hs3, List.append_assoc, List.singleton_append]
      · obtain ⟨h1, h2⟩ := hs2 _ hmem
        cases h2
    · refine ⟨sends ++ [EnqEvent.latest latest], EnqEvent.startingHeight c :: new, ?_, ?_,
        fun height hmem => ?_, Or.inr ⟨c, new, rfl⟩⟩
      · rw [hnew]; simp only [ht, hs3, List.append_assoc, List.singleton_append]; rfl
      · rw [sentHeights_append, hs1]; simp [sentHeights]
      · simp only [List.mem_append, List.mem_singleton] at hmem
        rcases hmem with hmem | hmem
        · obtain ⟨h1, h2⟩ := hs2 _ hmem
          cases h2
        · cases hmem

/-- The run of C15 on a database with the failed blocks 2 and 7, evaluated:
both are sent, in ledger order, before the starting height 4 is determined. -/
theorem enqueueBlocksToProcess_sample_run :
    enqueueBlocksToProcess (sampleBase 1 8) (sampleDatabase [1, 2, 3, 5] [2, 7]) 1
        (calmSurroundings 10) 20 10 freshEnq
      = .returned ⟨[.send 2, .send 7, .startingHeight 4, .latest 10, .send 4, .send 6,
          .send 7, .send 8], 1, 6, 1⟩ := by
  decide

/-! ## Enqueuing by message type -/

/-- A call of `ScanRows` for an integer fills it with the last of the rows,
the current one included, and leaves no row. -/
theorem ScanRows_spec : ∀ (rest : List Int) (current : Int),
    ScanRows current rest = (rest.getLastD current, []) := by
  intro rest
  induction rest with
  | nil => intro current; rfl
  | cons next rest ih => intro current; rw [ScanRows, ih next, List.getLastD_cons]

/-- The loop over the rows has one run of its body when there is a row, and
none otherwise: it sends the last row of the query and nothing else. -/
theorem rowsLoop_trace (cap : Nat) (fuel : Nat) (rows : List Int) (s : EnqState)
    (hfuel : rows.length ≤ fuel) :
    (rowsLoop cap fuel rows s).trace = s.trace ++ rows.getLast?.toList.map EnqEvent.send := by
  cases rows with
  | nil => cases fuel <;> simp [rowsLoop]
  | cons current rest =>
    cases fuel with
    | zero => simp at hfuel
    | succ fuel =>
      rw [rowsLoop, ScanRows_spec]
      cases fuel <;> simp [rowsLoop, EnqState.send, List.getLast?_cons]

/-- The heights `enqueueBlocksToProcessByMsgType` sends: the last row of its
query when the query has a row, and nothing otherwise. -/
theorem enqueueBlocksToProcessByMsgType_trace (cfg : Base) (db : Database) (chainID : Nat)
    (msgType : String) (cap : Nat) (s : EnqState) :
    (enqueueBlocksToProcessByMsgType cfg db chainID msgType cap s).trace
      = s.trace ++ (heightsWithMsgType db msgType cfg.StartBlock
          (if cfg.EndBlock = -1 then (GetHighestIndexedBlock db chainID).Height
            else cfg.EndBlock) chainID).getLast?.toList.map EnqEvent.send := by
  unfold enqueueBlocksToProcessByMsgType
  exact rowsLoop_trace cap _ _ s (Nat.le_refl _)

/-- Every row of the query is a height strictly between the two bounds: a
block at the start block or at the end block is never sent. -/
theorem heightsWithMsgType_strict (db : Database) (msgType : String) (startBlock endBlock : Int)
    (chainID : Nat) (height : Int)
    (h : height ∈ heightsWithMsgType db msgType startBlock endBlock chainID) :
    startBlock < height ∧ height < endBlock := by
  simp only [heightsWithMsgType, List.mem_flatMap] at h
  obtain ⟨b, _, t, _, m, _, mt, _, h⟩ := h
  split at h
  · next hc =>
    simp only [List.mem_singleton] at h
    subst h
    exact ⟨hc.2.2.2.2.1, hc.2.2.2.2.2.1⟩
  · simp at h

/-- C16 fails on the range from 10 to 20 of a database in which the blocks 10,
15 and 20 each contain a bank send message, block 15 two of them: the query
with wider bounds finds the three blocks, the query of the range has the two
rows of block 15 only, and `enqueueBlocksToProcessByMsgType` sends 15 once and
neither 10 nor 20, while the live loop of `enqueueBlocksToProcess` in reindex
mode takes the same range with its two ends. On the range from 9 to 21, whose
query has all four rows, the last row alone is sent. -/
theorem enqueueBlocksToProcessByMsgType_drops_range_ends :
    heightsWithMsgType msgSendDatabase "/cosmos.bank.v1beta1.MsgSend" 9 21 1
      = [10, 15, 15, 20] ∧
    heightsWithMsgType msgSendDatabase "/cosmos.bank.v1beta1.MsgSend" 10 20 1 = [15, 15] ∧
    sentHeights (enqueueBlocksToProcessByMsgType (sampleBase 10 20) msgSendDatabase 1
      "/cosmos.bank.v1beta1.MsgSend" 20 freshEnq).trace = [15] ∧
    sentHeights (liveLoop { sampleBase 10 20 with ReIndex := true } msgSendDatabase 1
      (calmSurroundings 30) 20 13 10 MaxInt64 freshEnq).state.trace
      = [10, 11, 12, 13, 14, 15, 16, 17, 18, 19, 20] ∧
    sentHeights (enqueueBlocksToProcessByMsgType (sampleBase 9 21) msgSendDatabase 1
      "/cosmos.bank.v1beta1.MsgSend" 20 freshEnq).trace = [20] := by
  refine ⟨by decide, by decide, by decide, by decide, by decide⟩

/-! ## The database writer retries once -/

theorem persistOutcomes_append (a b : List WEvent) :
    persistOutcomes (a ++ b) = persistOutcomes a ++ persistOutcomes b := by
  simp [persistOutcomes, List.filterMap_append]

theorem persistOutcomes_IndexNewBlock (height : Int) (outcomes : List Bool) :
    persistOutcomes (outcomes.map (WEvent.IndexNewBlock height)) = outcomes := by
  induction outcomes with
  | nil => rfl
  | cons o rest ih =>
    simp only [persistOutcomes, List.map_cons, List.filterMap_cons, WEvent.persistOutcome] at ih ⊢
    rw [ih]

theorem persistOutcomes_IndexBlockEvents (height : Int) (outcomes : List Bool) :
    persistOutcomes (outcomes.map (WEvent.IndexBlockEvents height)) = outcomes := by
  induction outcomes with
  | nil => rfl
  | cons o rest ih =>
    simp only [persistOutcomes, List.map_cons, List.filterMap_cons, WEvent.persistOutcome] at ih ⊢
    rw [ih]

/-- What the tx case does with a batch outside a dry run. -/
theorem handleTxData_spec {σ : Type} (env : WriterEnv σ) (cfg : Base) (dbChainID : Nat)
    (st : WState σ) (data : dbData) :
    (handleTxData env cfg false dbChainID st data).1.log
      = st.log ++ (expectedOutcomes (persistTx env dbChainID data) st.db).map
          (WEvent.IndexNewBlock data.blockHeight) ∧
    (handleTxData env cfg false dbChainID st data).1.dbReattempts
      = st.dbReattempts + (if firstFails (persistTx env dbChainID data) st.db = true then 1
          else 0) ∧
    (handleTxData env cfg false dbChainID st data).1.dbWrites = st.dbWrites + 1 ∧
    ((handleTxData env cfg false dbChainID st data).2.isSome = true ↔
      (firstFails (persistTx env dbChainID data) st.db = true ∧
        secondFails (persistTx env dbChainID data) st.db = true) ∨
      (cfg.BlockTimer > 0 ∧
        10 * (handleTxData env cfg false dbChainID st data).1.dbReattempts
          > (handleTxData env cfg false dbChainID st data).1.dbWrites)) := by
  unfold handleTxData retryOnce expectedOutcomes firstFails secondFails persistTx
  rcases h1 : env.IndexNewBlock st.db data.blockHeight data.blockTime data.txDBWrappers
    dbChainID with ⟨_ | e1, db1⟩
  · by_cases hb : cfg.BlockTimer > 0
    · by_cases hx : 10 * st.dbReattempts > st.dbWrites + 1
      · simp [h1, hb, hx, reattemptsExceeded]
      · simp [h1, hb, hx, reattemptsExceeded]
    · simp [h1, hb, reattemptsExceeded]
  · rcases h2 : env.IndexNewBlock db1 data.blockHeight data.blockTime data.txDBWrappers
      dbChainID with ⟨_ | e2, db2⟩
    · by_cases hb : cfg.BlockTimer > 0
      · by_cases hx : 10 * (st.dbReattempts + 1) > st.dbWrites + 1
        · simp [h1, h2, hb, hx, reattemptsExceeded]
        · simp [h1, h2, hb, hx, reattemptsExceeded]
      · simp [h1, h2, hb, reattemptsExceeded]
    · simp [h1, h2]

/-- What the block-events case does with a batch. -/
theorem handleBlockEvents_spec {σ : Type} (env : WriterEnv σ) (dryRun : Bool) (st : WState σ)
    (eventData : blockEventsDBData) :
    (handleBlockEvents env dryRun st eventData).1.log
      = st.log ++ (expectedOutcomes (persistBlockEvents env dryRun eventData) st.db).map
          (WEvent.IndexBlockEvents eventData.blockHeight) ∧
    (handleBlockEvents env dryRun st eventData).1.dbReattempts
      = st.dbReattempts + (if firstFails (persistBlockEvents env dryRun eventData) st.db = true
          then 1 else 0) ∧
    (handleBlockEvents env dryRun st eventData).1.dbWrites = st.dbWrites + 1 ∧
    ((handleBlockEvents env dryRun st eventData).2.isSome = true ↔
      (firstFails (persistBlockEvents env dryRun eventData) st.db = true ∧
        secondFails (persistBlockEvents env dryRun eventData) st.db = true)) := by
  unfold handleBlockEvents retryOnce expectedOutcomes firstFails secondFails persistBlockEvents
  rcases h1 : env.IndexBlockEvents st.db dryRun eventData.blockHeight eventData.blockTime
    eventData.blockRelevantEvents ("block " ++ toString eventData.blockHeight)
    with ⟨_ | e1, db1⟩
  · simp [h1]
  · rcases h2 : env.IndexBlockEvents db1 dryRun eventData.blockHeight eventData.blockTime
      eventData.blockRelevantEvents ("block " ++ toString eventData.blockHeight)
      with ⟨_ | e2, db2⟩
    · simp [h1, h2]
    · simp [h1, h2]

/-- What the epoch-events case does with a batch. -/
theorem handleEpochEvents_spec {σ : Type} (env : WriterEnv σ) (dryRun : Bool) (st : WState σ)
    (epochEventData : epochEventsDBData) :
    persistOutcomes (handleEpochEvents env dryRun st epochEventData).1.log
      = persistOutcomes st.log
          ++ expectedOutcomes (persistEpochEvents env dryRun epochEventData) st.db ∧
    (handleEpochEvents env dryRun st epochEventData).1.dbReattempts
      = st.dbReattempts + (if firstFails (persistEpochEvents env dryRun epochEventData) st.db
          = true then 1 else 0) ∧
    (handleEpochEvents env dryRun st epochEventData).1.dbWrites = st.dbWrites + 1 ∧
    ((handleEpochEvents env dryRun st epochEventData).2.isSome = true ↔
      (firstFails (persistEpochEvents env dryRun epochEventData) st.db = true ∧
        secondFails (persistEpochEvents env dryRun epochEventData) st.db = true) ∨
      (env.UpdateEpochIndexingStatus
        (afterAttempts (persistEpochEvents env dryRun epochEventData) st.db) dryRun
        epochEventData.epochNumber epochEventData.epochIdentifier).1.isSome = true) := by
  unfold handleEpochEvents retryOnce expectedOutcomes afterAttempts firstFails secondFails
    persistEpochEvents
  rcases h1 : env.IndexBlockEvents st.db dryRun epochEventData.blockHeight
    epochEventData.blockTime epochEventData.blockRelevantEvents
    ("epoch " ++ toString epochEventData.epochNumber ++ " in epoch identifier "
      ++ epochEventData.epochIdentifier) with ⟨_ | e1, db1⟩
  · rcases h3 : env.UpdateEpochIndexingStatus db1 dryRun epochEventData.epochNumber
      epochEventData.epochIdentifier with ⟨_ | e3, db3⟩
    · simp [h1, h3, persistOutcomes_append, persistOutcomes, WEvent.persistOutcome]
    · simp [h1, h3, persistOutcomes_append, persistOutcomes, WEvent.persistOutcome]
  · rcases h2 : env.IndexBlockEvents db1 dryRun epochEventData.blockHeight
      epochEventData.blockTime epochEventData.blockRelevantEvents
      ("epoch " ++ toString epochEventData.epochNumber ++ " in epoch identifier "
        ++ epochEventData.epochIdentifier) with ⟨_ | e2, db2⟩
    · rcases h3 : env.UpdateEpochIndexingStatus db2 dryRun epochEventData.epochNumber
        epochEventData.epochIdentifier with ⟨_ | e3, db3⟩
      · simp [h1, h2, h3, persistOutcomes_append, persistOutcomes, WEvent.persistOutcome]
      · simp [h1, h2, h3, persistOutcomes_append, persistOutcomes, WEvent.persistOutcome]
    · simp [h1, h2, persistOutcomes_append, persistOutcomes, WEvent.persistOutcome]

/-- C17, as stated, fails: outside a dry run the first attempt for the tx batch
of block 100 fails and the second succeeds, and the writer ends the process,
one write in one having needed a reattempt; and the only attempt for the
events of epoch 7 succeeds, and the writer ends the process because the epoch
cannot be marked as indexed. -/
theorem doDBUpdates_aborts_after_successful_attempt :
    ((handleTxData (flakyWriter [100] []) (sampleBase 1 8) false 1 freshWriter
        (txBatch 100)).1.log = [.IndexNewBlock 100 false, .IndexNewBlock 100 true] ∧
      (handleTxData (flakyWriter [100] []) (sampleBase 1 8) false 1 freshWriter
        (txBatch 100)).2 = some (.fatal "More than 10% of the last DB writes have failed.")) ∧
    ((handleEpochEvents (flakyWriter [] [7]) false freshWriter (epochEventsBatch 100 7)).1.log
        = [.IndexBlockEvents 100 true, .UpdateEpochIndexingStatus 7 false] ∧
      (handleEpochEvents (flakyWriter [] [7]) false freshWriter (epochEventsBatch 100 7)).2
        = some (.fatal "Could not mark Epoch indexed.")) := by
  decide

/-- C17, amended: for every batch the writer receives outside a dry run, in
each of its three cases, the persist operation is attempted once when the
first attempt succeeds and twice when it fails, and the reattempt counter
grows by one exactly when the first attempt fails. The process is ended when
both attempts fail; otherwise it is ended only after a tx batch, when the
block timer is positive and more than a tenth of all writes so far needed a
reattempt, and after an epoch batch, when the epoch cannot be marked as
indexed. -/
theorem doDBUpdates_retries_once {σ : Type} (env : WriterEnv σ) (cfg : Base) (dbChainID : Nat)
    (st : WState σ) :
    (∀ data : dbData,
      persistOutcomes (handleTxData env cfg false dbChainID st data).1.log
        = persistOutcomes st.log ++ expectedOutcomes (persistTx env dbChainID data) st.db ∧
      (handleTxData env cfg false dbChainID st data).1.dbReattempts
        = st.dbReattempts + (if firstFails (persistTx env dbChainID data) st.db = true then 1
            else 0) ∧
      ((handleTxData env cfg false dbChainID st data).2.isSome = true ↔
        (firstFails (persistTx env dbChainID data) st.db = true ∧
          secondFails (persistTx env dbChainID data) st.db = true) ∨
        (cfg.BlockTimer > 0 ∧
          10 * (handleTxData env cfg false dbChainID st data).1.dbReattempts
            > (handleTxData env cfg false dbChainID st data).1.dbWrites))) ∧
    (∀ eventData : blockEventsDBData,
      persistOutcomes (handleBlockEvents env false st eventData).1.log
        = persistOutcomes st.log
            ++ expectedOutcomes (persistBlockEvents env false eventData) st.db ∧
      (handleBlockEvents env false st eventData).1.dbReattempts
        = st.dbReattempts + (if firstFails (persistBlockEvents env false eventData) st.db = true
            then 1 else 0) ∧
      ((handleBlockEvents env false st eventData).2.isSome = true ↔
        (firstFails (persistBlockEvents env false eventData) st.db = true ∧
          secondFails (persistBlockEvents env false eventData) st.db = true))) ∧
    (∀ epochEventData : epochEventsDBData,
      persistOutcomes (handleEpochEvents env false st epochEventData).1.log
        = persistOutcomes st.log
            ++ expectedOutcomes (persistEpochEvents env false epochEventData) st.db ∧
      (handleEpochEvents env false st epochEventData).1.dbReattempts
        = st.dbReattempts + (if firstFails (persistEpochEvents env false epochEventData) st.db
            = true then 1 else 0) ∧
      ((handleEpochEvents env false st epochEventData).2.isSome = true ↔
        (firstFails (persistEpochEvents env false epochEventData) st.db = true ∧
          secondFails (persistEpochEvents env false epochEventData) st.db = true) ∨
        (env.UpdateEpochIndexingStatus
          (afterAttempts (persistEpochEvents env false epochEventData) st.db) false
          epochEventData.epochNumber epochEventData.epochIdentifier).1.isSome = true)) := by
  refine ⟨fun data => ?_, fun eventData => ?_, fun epochEventData => ?_⟩
  · obtain ⟨h1, h2, _, h4⟩ := handleTxData_spec env cfg dbChainID st data
    exact ⟨by rw [h1, persistOutcomes_append, persistOutcomes_IndexNewBlock], h2, h4⟩
  · obtain ⟨h1, h2, _, h4⟩ := handleBlockEvents_spec env false st eventData
    exact ⟨by rw [h1, persistOutcomes_append, persistOutcomes_IndexBlockEvents], h2, h4⟩
  · obtain ⟨h1, h2, _, h4⟩ := handleEpochEvents_spec env false st epochEventData
    exact ⟨h1, h2, h4⟩

/-! ## The reattempt guard of the database writer -/

/-- With a positive block timer the tx case ends the process when more than a
tenth of the writes so far needed a reattempt, in a dry run as well. -/
theorem handleTxData_guard {σ : Type} (env : WriterEnv σ) (cfg : Base) (dryRun : Bool)
    (dbChainID : Nat) (st : WState σ) (data : dbData) (hb : cfg.BlockTimer > 0)
    (hr : (handleTxData env cfg dryRun dbChainID st data).2 = none) :
    10 * (handleTxData env cfg dryRun dbChainID st data).1.dbReattempts
      ≤ (handleTxData env cfg dryRun dbChainID st data).1.dbWrites := by
  cases dryRun with
  | false =>
    have h := (handleTxData_spec env cfg dbChainID st data).2.2.2
    rw [hr] at h
    simp only [Option.isSome_none, Bool.false_eq_true, false_iff, not_or, not_and] at h
    have := h.2 hb
    omega
  | true =>
    unfold handleTxData at hr ⊢
    simp only [Bool.not_true, Bool.false_eq_true, if_false, if_pos hb] at hr ⊢
    by_cases hx : reattemptsExceeded st.dbReattempts (st.dbWrites + 1) = true
    · rw [if_pos hx] at hr
      simp at hr
    · rw [if_neg hx]
      simpa [reattemptsExceeded] using hx

theorem endsWithTxBatch_setNil (log : List WEvent) (c : Case) :
    endsWithTxBatch (log ++ [WEvent.setNil c]) = false := by
  simp [endsWithTxBatch]

theorem handleBlockEvents_last {σ : Type} (env : WriterEnv σ) (dryRun : Bool) (st : WState σ)
    (eventData : blockEventsDBData) :
    endsWithTxBatch (handleBlockEvents env dryRun st eventData).1.log = false := by
  rw [(handleBlockEvents_spec env dryRun st eventData).1]
  unfold expectedOutcomes
  split <;> simp [endsWithTxBatch]

theorem handleEpochEvents_last {σ : Type} (env : WriterEnv σ) (dryRun : Bool) (st : WState σ)
    (epochEventData : epochEventsDBData)
    (hr : (handleEpochEvents env dryRun st epochEventData).2 = none) :
    endsWithTxBatch (handleEpochEvents env dryRun st epochEventData).1.log = false := by
  unfold handleEpochEvents retryOnce at hr ⊢
  rcases h1 : env.IndexBlockEvents st.db dryRun epochEventData.blockHeight
    epochEventData.blockTime epochEventData.blockRelevantEvents
    ("epoch " ++ toString epochEventData.epochNumber ++ " in epoch identifier "
      ++ epochEventData.epochIdentifier) with ⟨_ | e1, db1⟩
  · rcases h3 : env.UpdateEpochIndexingStatus db1 dryRun epochEventData.epochNumber
      epochEventData.epochIdentifier with ⟨_ | e3, db3⟩
    · simp [h1, h3, endsWithTxBatch]
    · simp [h1, h3] at hr
  · rcases h2 : env.IndexBlockEvents db1 dryRun epochEventData.blockHeight
      epochEventData.blockTime epochEventData.blockRelevantEvents
      ("epoch " ++ toString epochEventData.epochNumber ++ " in epoch identifier "
        ++ epochEventData.epochIdentifier) with ⟨_ | e2, db2⟩
    · rcases h3 : env.UpdateEpochIndexingStatus db2 dryRun epochEventData.epochNumber
        epochEventData.epochIdentifier with ⟨_ | e3, db3⟩
      · simp [h1, h2, h3, endsWithTxBatch]
      · simp [h1, h2, h3] at hr
    · simp [h1, h2] at hr
theorem select_mem (h : Handles) (choice : Nat) (c : Case) (hs : select h choice = some c) :
    c ∈ readyCases h := by
  unfold select at hs
  exact List.get?_mem hs

theorem select_txData (h : Handles) (choice : Nat) (hs : select h choice = some Case.txData) :
    ready h.txDataChan = true := by
  have := select_mem h choice _ hs
  unfold readyCases at this
  by_contra hr
  simp only [hr, Bool.false_eq_true, if_false, List.nil_append, List.mem_append] at this
  rcases this with this | this <;> split at this <;> simp at this

theorem select_blockEvents (h : Handles) (choice : Nat)
    (hs : select h choice = some Case.blockEvents) : ready h.blockEventsDataChan = true := by
  have := select_mem h choice _ hs
  unfold readyCases at this
  by_contra hr
  simp only [hr, Bool.false_eq_true, if_false, List.append_nil, List.mem_append] at this
  rcases this with this | this <;> split at this <;> simp at this

theorem select_epochEvents (h : Handles) (choice : Nat)
    (hs : select h choice = some Case.epochEvents) : ready h.epochEventsDataChan = true := by
  have := select_mem h choice _ hs
  unfold readyCases at this
  by_contra hr
  simp only [hr, Bool.false_eq_true, if_false, List.append_nil, List.mem_append] at this
  rcases this with this | this <;> split at this <;> simp at this

/-- Induction over the rounds of the writer: a property of the handles and the
state that holds at the start and is kept by each of the six ways a round can
go on holds, for some handles, of the state a run that has not ended the
process has reached; these handles are all nil when the run has returned. -/
theorem doDBUpdates_invariant {σ : Type} (env : WriterEnv σ) (cfg : Base) (dryRun : Bool)
    (dbChainID : Nat) (pick : Nat → Nat) (I : Handles → WState σ → Prop)
    (htx0 : ∀ h st, I h st → h.txDataChan = some ⟨[], true⟩ →
      I { h with txDataChan := none } { st with log := st.log ++ [WEvent.setNil Case.txData] })
    (htx1 : ∀ h st data rest closes st1, I h st → h.txDataChan = some ⟨data :: rest, closes⟩ →
      handleTxData env cfg dryRun dbChainID
        { st with log := st.log ++ [WEvent.received Case.txData data.blockHeight] } data
        = (st1, none) →
      I { h with txDataChan := some ⟨rest, closes⟩ } st1)
    (hbl0 : ∀ h st, I h st → h.blockEventsDataChan = some ⟨[], true⟩ →
      I { h with blockEventsDataChan := none }
        { st with log := st.log ++ [WEvent.setNil Case.blockEvents] })
    (hbl1 : ∀ h st data rest closes st1, I h st →
      h.blockEventsDataChan = some ⟨data :: rest, closes⟩ →
      handleBlockEvents env dryRun
        { st with log := st.log ++ [WEvent.received Case.blockEvents data.blockHeight] } data
        = (st1, none) →
      I { h with blockEventsDataChan := some ⟨rest, closes⟩ } st1)
    (hep0 : ∀ h st, I h st → h.epochEventsDataChan = some ⟨[], true⟩ →
      I { h with epochEventsDataChan := none }
        { st with log := st.log ++ [WEvent.setNil Case.epochEvents] })
    (hep1 : ∀ h st data rest closes st1, I h st →
      h.epochEventsDataChan = some ⟨data :: rest, closes⟩ →
      handleEpochEvents env dryRun
        { st with log := st.log ++ [WEvent.received Case.epochEvents data.blockHeight] } data
        = (st1, none) →
      I { h with epochEventsDataChan := some ⟨rest, closes⟩ } st1) :
    ∀ (fuel round : Nat) (h : Handles) (st : WState σ), I h st →
      (doDBUpdates env cfg dryRun dbChainID pick fuel round h st).isAborted = false →
      ∃ h1, I h1 (doDBUpdates env cfg dryRun dbChainID pick fuel round h st).state ∧
        ((∃ st1, doDBUpdates env cfg dryRun dbChainID pick fuel round h st = .returned st1) →
          h1.txDataChan = none ∧ h1.blockEventsDataChan = none ∧
            h1.epochEventsDataChan = none) := by
  intro fuel
  induction fuel with
  | zero =>
    intro round h st hI _
    exact ⟨h, hI, fun ⟨st1, hst1⟩ => by simp [doDBUpdates] at hst1⟩
  | succ fuel ih =>
    intro round h st hI
    unfold doDBUpdates
    split
    · next hall =>
      intro _
      refine ⟨h, hI, fun _ => ?_⟩
      simpa [Option.isNone_iff_eq_none] using hall
    · split
      · intro _
        exact ⟨h, hI, fun ⟨st1, hst1⟩ => by simp at hst1⟩
      · next hsel =>
        have hready := select_txData h _ hsel
        split
        · intro _
          exact ⟨h, hI, fun ⟨st1, hst1⟩ => by simp at hst1⟩
        · next closes hch =>
          have hcl : closes = true := by simpa [ready, hch] using hready
          subst hcl
          exact ih _ _ _ (htx0 h st hI hch)
        · next data rest closes hch =>
          split
          · intro hab; simp [WResult.isAborted] at hab
          · next st1 hh => exact ih _ _ _ (htx1 h st data rest closes st1 hI hch hh)
      · next hsel =>
        have hready := select_blockEvents h _ hsel
        split
        · intro _
          exact ⟨h, hI, fun ⟨st1, hst1⟩ => by simp at hst1⟩
        · next closes hch =>
          have hcl : closes = true := by simpa [ready, hch] using hready
          subst hcl
          exact ih _ _ _ (hbl0 h st hI hch)
        · next data rest closes hch =>
          split
          · intro hab; simp [WResult.isAborted] at hab
          · next st1 hh => exact ih _ _ _ (hbl1 h st data rest closes st1 hI hch hh)
      · next hsel =>
        have hready := select_epochEvents h _ hsel
        split
        · intro _
          exact ⟨h, hI, fun ⟨st1, hst1⟩ => by simp at hst1⟩
        · next closes hch =>
          have hcl : closes = true := by simpa [ready, hch] using hready
          subst hcl
          exact ih _ _ _ (hep0 h st hI hch)
        · next data rest closes hch =>
          split
          · intro hab; simp [WResult.isAborted] at hab
          · next st1 hh => exact ih _ _ _ (hep1 h st data rest closes st1 hI hch hh)

/-- C18, as stated, fails: with the block timer 5, ten tx batches are written
at the first attempt and the eleventh at the second. The last five writes hold
one reattempt, which is more than a tenth of them, and the writer does not end
the process: it returns after eleven writes and one reattempt. -/
theorem doDBUpdates_window_above_tenth :
    (sampleBase 1 8).BlockTimer = 5 ∧
    ∃ st, doDBUpdates (flakyWriter [11] []) (sampleBase 1 8) false 1 (fun _ => 0) 13 0
        (txOnly [1, 2, 3, 4, 5, 6, 7, 8, 9, 10, 11]) freshWriter = .returned st ∧
      st.dbWrites = 11 ∧ st.dbReattempts = 1 ∧
      persistOutcomes st.log
        = [true, true, true, true, true, true, true, true, true, true, false, true] := by
  refine ⟨rfl, _, rfl, ?_, ?_, ?_⟩
  · decide
  · decide
  · decide

/-- C18, amended: with a positive block timer, the writer ends the process
when, after a tx batch, more than a tenth of all its writes so far needed a
reattempt; and in a run that has not ended the process, whenever the last
thing done is a tx batch, at most a tenth of all writes so far needed a
reattempt. -/
theorem doDBUpdates_cumulative_guard {σ : Type} (env : WriterEnv σ) (cfg : Base) (dryRun : Bool)
    (dbChainID : Nat) (pick : Nat → Nat) (hb : cfg.BlockTimer > 0) :
    (∀ (st : WState σ) (data : dbData),
      10 * (handleTxData env cfg dryRun dbChainID st data).1.dbReattempts
          > (handleTxData env cfg dryRun dbChainID st data).1.dbWrites →
        (handleTxData env cfg dryRun dbChainID st data).2.isSome = true) ∧
    (∀ (fuel round : Nat) (h : Handles) (st : WState σ),
      (endsWithTxBatch st.log = true → 10 * st.dbReattempts ≤ st.dbWrites) →
      (doDBUpdates env cfg dryRun dbChainID pick fuel round h st).isAborted = false →
      endsWithTxBatch (doDBUpdates env cfg dryRun dbChainID pick fuel round h st).state.log
        = true →
      10 * (doDBUpdates env cfg dryRun dbChainID pick fuel round h st).state.dbReattempts
        ≤ (doDBUpdates env cfg dryRun dbChainID pick fuel round h st).state.dbWrites) := by
  refine ⟨fun st data hgt => ?_, fun fuel round h st hI hab => ?_⟩
  · cases hr : (handleTxData env cfg dryRun dbChainID st data).2 with
    | some a => rfl
    | none =>
      have := handleTxData_guard env cfg dryRun dbChainID st data hb hr
      omega
  · obtain ⟨_, h1, _⟩ := doDBUpdates_invariant env cfg dryRun dbChainID pick
      (fun _ st => endsWithTxBatch st.log = true → 10 * st.dbReattempts ≤ st.dbWrites)
      (fun _ st _ _ hl => by rw [endsWithTxBatch_setNil] at hl; cases hl)
      (fun _ st data _ _ st1 _ _ hh _ => by
        have := handleTxData_guard env cfg dryRun dbChainID
          { st with log := st.log ++ [WEvent.received Case.txData data.blockHeight] } data hb
          (by rw [hh])
        rw [hh] at this
        exact this)
      (fun _ st _ _ hl => by rw [endsWithTxBatch_setNil] at hl; cases hl)
      (fun _ st data _ _ st1 _ _ hh hl => by
        have := handleBlockEvents_last env dryRun
          { st with log := st.log ++ [WEvent.received Case.blockEvents data.blockHeight] } data
        rw [hh] at this
        simp only [] at this
        rw [this] at hl; cases hl)
      (fun _ st _ _ hl => by rw [endsWithTxBatch_setNil] at hl; cases hl)
      (fun _ st data _ _ st1 _ _ hh hl => by
        have := handleEpochEvents_last env dryRun
          { st with log := st.log ++ [WEvent.received Case.epochEvents data.blockHeight] } data
          (by rw [hh])
        rw [hh] at this
        simp only [] at this
        rw [this] at hl; cases hl)
      fuel round h st hI hab
    exact h1

/-- C18, amended, for the block timer 5 and a database that fails the first
attempt for block 11. -/
theorem doDBUpdates_cumulative_guard_witness :
    (∀ (st : WState (List Int)) (data : dbData),
      10 * (handleTxData (flakyWriter [11] []) (sampleBase 1 8) false 1 st data).1.dbReattempts
          > (handleTxData (flakyWriter [11] []) (sampleBase 1 8) false 1 st data).1.dbWrites →
        (handleTxData (flakyWriter [11] []) (sampleBase 1 8) false 1 st data).2.isSome = true) ∧
    (∀ (fuel round : Nat) (h : Handles) (st : WState (List Int)),
      (endsWithTxBatch st.log = true → 10 * st.dbReattempts ≤ st.dbWrites) →
      (doDBUpdates (flakyWriter [11] []) (sampleBase 1 8) false 1 (fun _ => 0) fuel round h
        st).isAborted = false →
      endsWithTxBatch (doDBUpdates (flakyWriter [11] []) (sampleBase 1 8) false 1 (fun _ => 0)
        fuel round h st).state.log = true →
      10 * (doDBUpdates (flakyWriter [11] []) (sampleBase 1 8) false 1 (fun _ => 0) fuel round h
          st).state.dbReattempts
        ≤ (doDBUpdates (flakyWriter [11] []) (sampleBase 1 8) false 1 (fun _ => 0) fuel round h
          st).state.dbWrites) :=
  doDBUpdates_cumulative_guard (flakyWriter [11] []) (sampleBase 1 8) false 1 (fun _ => 0)
    (by decide)

/-! ## The database writer returns when its channels are drained -/

/-- The sample run of C19, evaluated: the writer returns after four
writes, each handle set to nil after its last batch. -/
theorem doDBUpdates_sample_run :
    ∃ st, doDBUpdates (flakyWriter [] []) (sampleBase 1 8) false 1 (fun n => n) 8 0
        sampleHandles freshWriter = .returned st ∧
      st.dbWrites = 4 ∧
      st.log = [.received .txData 1, .IndexNewBlock 1 true,
        .received .blockEvents 1, .IndexBlockEvents 1 true,
        .received .epochEvents 1, .IndexBlockEvents 1 true, .UpdateEpochIndexingStatus 7 true,
        .received .txData 2, .IndexNewBlock 2 true,
        .setNil .blockEvents, .setNil .epochEvents, .setNil .txData] := by
  refine ⟨_, rfl, ?_, ?_⟩
  · decide
  · decide

/-! ## The tx workers and the channels of `index` -/

/-- C20, as stated, fails: with eight `rpc-workers` configured and chain
indexing disabled, `index` makes its channels with capacity 32 and starts no
tx worker. -/
theorem index_no_workers_without_chain_indexing :
    index { sampleBase 1 8 with RPCWorkers := 8, ChainIndexingEnabled := false } (.ok 1)
      = .ok ⟨10000, 32, 32, 32, 0⟩ := by
  rfl

/-- C20, amended: for a number of `rpc-workers` that is not negative and a
chain row that is found, `index` computes a number that is 4 for the
configured value 0, 64 for a value above 64 and the configured value
otherwise, which lies between 1 and 64; it starts that many tx workers when
chain indexing is enabled and none otherwise, and the tx-batch channel and
both event channels get four times that number as capacity. -/
theorem index_workers_and_channels (cfg : Base) (id : Nat) (hworkers : 0 ≤ cfg.RPCWorkers) :
    ∃ (p : Pipeline) (n : Nat), index cfg (.ok id) = .ok p ∧
      (n : Int) = (if cfg.RPCWorkers = 0 then 4
        else if cfg.RPCWorkers > 64 then 64 else cfg.RPCWorkers) ∧
      1 ≤ n ∧ n ≤ 64 ∧
      p.txWorkers = (if cfg.ChainIndexingEnabled = true then n else 0) ∧
      p.txDataChan = 4 * n ∧ p.blockEventsDataChan = 4 * n ∧
      p.epochEventsDataChan = 4 * n := by
  have hn : 1 ≤ rpcQueryThreads cfg ∧ rpcQueryThreads cfg ≤ 64 := by
    unfold rpcQueryThreads
    split
    · omega
    · split <;> omega
  have hmake : makeChan (4 * rpcQueryThreads cfg) = .ok (4 * (rpcQueryThreads cfg).toNat) := by
    unfold makeChan
    rw [if_neg (by omega)]
    congr 1
    omega
  have h0 : makeChan 10000 = .ok 10000 := rfl
  refine ⟨⟨10000, 4 * (rpcQueryThreads cfg).toNat, 4 * (rpcQueryThreads cfg).toNat,
    4 * (rpcQueryThreads cfg).toNat,
    if cfg.ChainIndexingEnabled = true then (rpcQueryThreads cfg).toNat else 0⟩,
    (rpcQueryThreads cfg).toNat, ?_, ?_, by omega, by omega, rfl, rfl, rfl, rfl⟩
  · unfold index
    simp only [h0, hmake]
  · rw [Int.toNat_of_nonneg (by omega)]
    rfl

/-- C20, amended, for 100 configured `rpc-workers`: 64 tx workers and channels
of capacity 256. -/
theorem index_workers_and_channels_witness :
    ∃ (p : Pipeline) (n : Nat),
      index { sampleBase 1 8 with RPCWorkers := 100 } (.ok 1) = .ok p ∧
      (n : Int) = (if ({ sampleBase 1 8 with RPCWorkers := 100 } : Base).RPCWorkers = 0 then 4
        else if ({ sampleBase 1 8 with RPCWorkers := 100 } : Base).RPCWorkers > 64 then 64
        else ({ sampleBase 1 8 with RPCWorkers := 100 } : Base).RPCWorkers) ∧
      1 ≤ n ∧ n ≤ 64 ∧
      p.txWorkers
        = (if ({ sampleBase 1 8 with RPCWorkers := 100 } : Base).ChainIndexingEnabled = true
            then n else 0) ∧
      p.txDataChan = 4 * n ∧ p.blockEventsDataChan = 4 * n ∧
      p.epochEventsDataChan = 4 * n :=
  index_workers_and_channels { sampleBase 1 8 with RPCWorkers := 100 } 1 (by decide)

/-- The sample run of C20, evaluated. -/
theorem index_sample_run :
    index { sampleBase 1 8 with RPCWorkers := 100 } (.ok 1) = .ok ⟨10000, 256, 256, 256, 64⟩ := by
  rfl

/-! ## The block-event loop -/

theorem upsertedHeights_append (a b : List EvEvent) :
    upsertedHeights (a ++ b) = upsertedHeights a ++ upsertedHeights b := by
  induction a with
  | nil => rfl
  | cons e rest ih => cases e <;> simp [upsertedHeights, ih]

theorem sentBlockEvents_append (a b : List EvEvent) :
    sentBlockEvents (a ++ b) = sentBlockEvents a ++ sentBlockEvents b := by
  induction a with
  | nil => rfl
  | cons e rest ih => cases e <;> simp [sentBlockEvents, ih]

theorem sentEpochEvents_append (a b : List EvEvent) :
    sentEpochEvents (a ++ b) = sentEpochEvents a ++ sentEpochEvents b := by
  induction a with
  | nil => rfl
  | cons e rest ih => cases e <;> simp [sentEpochEvents, ih]

/-- What both loops do with a height they cannot handle: the handler and the
upsert are called for it, and the process is ended exactly when the upsert
returns an error. -/
theorem failedEventBlock_spec {σ : Type} (env : EventsEnv σ) (st : EvState σ) (height : Int) :
    (failedEventBlock env st height).1.trace
      = st.trace ++ [EvEvent.failedBlockHandler height, EvEvent.UpsertFailedEventBlock height] ∧
    (∀ a, (failedEventBlock env st height).2 = some a →
      ∃ e db1, env.UpsertFailedEventBlock st.db height = (some e, db1)) := by
  unfold failedEventBlock
  rcases h : env.UpsertFailedEventBlock st.db height with ⟨_ | e, db1⟩
  · exact ⟨rfl, fun a ha => by simp at ha⟩
  · exact ⟨rfl, fun a _ => ⟨e, db1, rfl⟩⟩

/-- The sleep loop only asks the node for its latest height; it leaves the
current height as it is and ends the process only when the node gives no
answer. -/
theorem sleepLoop_spec {σ : Type} (env : EventsEnv σ) :
    ∀ (fuel : Nat) (currentHeight : Int) (st : EvState σ), ∃ new,
      (sleepLoop env fuel currentHeight st).state.trace = st.trace ++ new ∧
      (sleepLoop env fuel currentHeight st).state.db = st.db ∧
      upsertedHeights new = [] ∧ sentBlockEvents new = [] ∧
      (∀ h lk st1, sleepLoop env fuel currentHeight st = .next h lk st1 → h = currentHeight) ∧
      (∀ h st1, sleepLoop env fuel currentHeight st = .sleeping h st1 → h = currentHeight) ∧
      (∀ st1 a, sleepLoop env fuel currentHeight st = .aborted st1 a →
        ∃ n e, env.GetLatestBlockHeight n = .error e) := by
  intro fuel
  induction fuel with
  | zero =>
    intro h st
    refine ⟨[], by simp [sleepLoop, Iteration.state], rfl, rfl, rfl, ?_, ?_, ?_⟩ <;>
      simp [sleepLoop]
  | succ fuel ih =>
    intro h st
    unfold sleepLoop
    cases hans : env.GetLatestBlockHeight st.calls with
    | error e =>
      refine ⟨[], by simp [Iteration.state], rfl, rfl, rfl, by simp, by simp, ?_⟩
      intro _ _ _
      exact ⟨_, e, hans⟩
    | ok lastKnown =>
      simp only []
      by_cases hgt : h > lastKnown
      · rw [if_pos hgt]
        obtain ⟨new, h1, h2, h3, h4, h5, h6, h7⟩ := ih h
          ⟨st.db, st.trace ++ [EvEvent.latest lastKnown], st.calls + 1⟩
        refine ⟨EvEvent.latest lastKnown :: new, ?_, h2, ?_, ?_, h5, h6, h7⟩
        · rw [h1]; simp
        · simpa [upsertedHeights] using h3
        · simpa [sentBlockEvents] using h4
      · rw [if_neg hgt]
        refine ⟨[EvEvent.latest lastKnown], rfl, rfl, rfl, rfl, ?_, by simp, by simp⟩
        intro h1 lk st1 heq
        simp only [Iteration.next.injEq] at heq
        exact heq.1.symm

/-- C21: in an iteration of the loop of `indexBlockEvents` at a height for
which the node answers with the block results of that height, the loop goes on
with the height plus one, unless the process is ended, which happens only when
the failed event block cannot be stored or the node does not give its latest
height. When the fetch of the block results, the parsing of the events or the
fetch of the block fails, `UpsertFailedEventBlock` is called once, for that
height, and no batch is sent; when all succeed and there are relevant events
one batch is sent, with these events, the time of the block and the height, and
nothing is stored as failed; when there are no relevant events nothing is sent
and nothing is stored as failed. -/
theorem blockEventsIteration_outcomes {σ : Type} (env : EventsEnv σ) (fuel : Nat)
    (currentHeight lastKnownBlockHeight : Int) (st : EvState σ)
    (hnode : ∀ r, env.GetBlockResultWithRetry currentHeight = .ok r → r.Height = currentHeight) :
    ∃ new,
      (blockEventsIteration env fuel currentHeight lastKnownBlockHeight st).state.trace
        = st.trace ++ new ∧
      (∀ h lk st1, blockEventsIteration env fuel currentHeight lastKnownBlockHeight st
        = .next h lk st1 → h = currentHeight + 1) ∧
      (∀ h st1, blockEventsIteration env fuel currentHeight lastKnownBlockHeight st
        = .sleeping h st1 → h = currentHeight + 1) ∧
      (∀ st1 a, blockEventsIteration env fuel currentHeight lastKnownBlockHeight st
        = .aborted st1 a →
        (∃ e db1, env.UpsertFailedEventBlock st.db currentHeight = (some e, db1)) ∨
        (∃ n e, env.GetLatestBlockHeight n = .error e)) ∧
      (BlockEventsFail env currentHeight →
        upsertedHeights new = [currentHeight] ∧ sentBlockEvents new = []) ∧
      (∀ r events b, env.GetBlockResultWithRetry currentHeight = .ok r →
        env.ProcessRPCBlockEvents r = .ok events → events ≠ [] →
        env.GetBlock currentHeight = .ok b →
        upsertedHeights new = [] ∧
        sentBlockEvents new = [⟨events, b.Block.Time, currentHeight⟩]) ∧
      (∀ r, env.GetBlockResultWithRetry currentHeight = .ok r →
        env.ProcessRPCBlockEvents r = .ok [] →
        upsertedHeights new = [] ∧ sentBlockEvents new = []) := by
  unfold blockEventsIteration
  cases hfetch : env.GetBlockResultWithRetry currentHeight with
  | error e =>
    obtain ⟨f1, f2⟩ := failedEventBlock_spec env
      ⟨st.db, st.trace ++ [EvEvent.GetBlockResultWithRetry currentHeight], st.calls⟩
      currentHeight
    rcases hf : failedEventBlock env
      ⟨st.db, st.trace ++ [EvEvent.GetBlockResultWithRetry currentHeight], st.calls⟩
      currentHeight with ⟨st1, _ | a⟩
    all_goals
      rw [hf] at f1 f2
      simp only [hf]
      refine ⟨[EvEvent.GetBlockResultWithRetry currentHeight,
        EvEvent.failedBlockHandler currentHeight,
        EvEvent.UpsertFailedEventBlock currentHeight],
        by simpa [Iteration.state] using f1, ?_, by simp, ?_,
        fun _ => ⟨rfl, rfl⟩, by simp, by simp⟩
    · intro h lk st2 heq
      simp only [Iteration.next.injEq] at heq
      exact heq.1.symm
    · simp
    · simp
    · intro st2 a2 _
      exact Or.inl (f2 a rfl)
  | ok r =>
    have hr := hnode r hfetch
    simp only []
    -- the switch
    have hswitch : ∃ mid,
        (blockEventsSwitch env
          ⟨st.db, st.trace ++ [EvEvent.GetBlockResultWithRetry currentHeight], st.calls⟩
          currentHeight r).1.trace
          = st.trace ++ (EvEvent.GetBlockResultWithRetry currentHeight :: mid) ∧
        (∀ a, (blockEventsSwitch env
          ⟨st.db, st.trace ++ [EvEvent.GetBlockResultWithRetry currentHeight], st.calls⟩
          currentHeight r).2 = some a →
          ∃ e db1, env.UpsertFailedEventBlock st.db currentHeight = (some e, db1)) ∧
        (BlockEventsFail env currentHeight →
          upsertedHeights mid = [currentHeight] ∧ sentBlockEvents mid = []) ∧
        (∀ events b, env.ProcessRPCBlockEvents r = .ok events → events ≠ [] →
          env.GetBlock currentHeight = .ok b →
          upsertedHeights mid = [] ∧
          sentBlockEvents mid = [⟨events, b.Block.Time, currentHeight⟩]) ∧
        (env.ProcessRPCBlockEvents r = .ok [] →
          upsertedHeights mid = [] ∧ sentBlockEvents mid = []) := by
      unfold blockEventsSwitch
      cases hparse : env.ProcessRPCBlockEvents r with
      | error e =>
        obtain ⟨f1, f2⟩ := failedEventBlock_spec env
          ⟨st.db, st.trace ++ [EvEvent.GetBlockResultWithRetry currentHeight], st.calls⟩
          currentHeight
        refine ⟨[EvEvent.failedBlockHandler currentHeight,
          EvEvent.UpsertFailedEventBlock currentHeight], by simpa using f1, f2,
          fun _ => ⟨rfl, rfl⟩, by simp, by simp⟩
      | ok events =>
        simp only []
        by_cases hne : events.length ≠ 0
        · rw [if_pos hne]
          have hne2 : events ≠ [] := fun h => hne (by rw [h]; rfl)
          rw [hr]
          cases hblock : env.GetBlock currentHeight with
          | error e =>
            obtain ⟨f1, f2⟩ := failedEventBlock_spec env
              ⟨st.db, (st.trace ++ [EvEvent.GetBlockResultWithRetry currentHeight])
                ++ [EvEvent.GetBlock currentHeight], st.calls⟩ currentHeight
            refine ⟨[EvEvent.GetBlock currentHeight, EvEvent.failedBlockHandler currentHeight,
              EvEvent.UpsertFailedEventBlock currentHeight], by simpa using f1, f2,
              fun _ => ⟨rfl, rfl⟩, by simp, fun h => absurd (Except.ok.inj h) hne2⟩
          | ok b =>
            refine ⟨[EvEvent.GetBlock currentHeight,
              EvEvent.sendBlockEvents ⟨events, b.Block.Time, currentHeight⟩], by simp,
              by simp, ?_, ?_, fun h => absurd (Except.ok.inj h) hne2⟩
            · rintro (⟨e, he⟩ | ⟨r2, e, h1, h2⟩ | ⟨r2, ev2, e, h1, h2, h3, h4⟩)
              · rw [hfetch] at he; cases he
              · rw [hfetch] at h1; cases h1; rw [hparse] at h2; cases h2
              · rw [hblock] at h4; cases h4
            · intro ev2 b2 h1 _ h3
              cases h1; cases h3
              exact ⟨rfl, rfl⟩
        · rw [if_neg hne]
          have hnil : events = [] := by
            cases events with
            | nil => rfl
            | cons x xs => exact absurd (by simp) hne
          subst hnil
          refine ⟨[], by simp, by simp, ?_,
            fun ev b h1 h2 _ => absurd (Except.ok.inj h1).symm h2, fun _ => ⟨rfl, rfl⟩⟩
          rintro (⟨e, he⟩ | ⟨r2, e, h1, h2⟩ | ⟨r2, ev2, e, h1, h2, h3, h4⟩)
          · rw [hfetch] at he; cases he
          · rw [hfetch] at h1; cases h1; rw [hparse] at h2; cases h2
          · rw [hfetch] at h1; cases h1; rw [hparse] at h2; cases h2; exact absurd rfl h3
    obtain ⟨mid, s1, s3, s4, s5, s6⟩ := hswitch
    rcases hsw : blockEventsSwitch env
      ⟨st.db, st.trace ++ [EvEvent.GetBlockResultWithRetry currentHeight], st.calls⟩
      currentHeight r with ⟨st1, _ | a⟩
    · rw [hsw] at s1 s3
      simp only [] at s1
      simp only [hsw]
      by_cases hgt : currentHeight + 1 > lastKnownBlockHeight
      · rw [if_pos hgt]
        obtain ⟨new, w1, _, w3, w4, w5, w6, w7⟩ := sleepLoop_spec env fuel (currentHeight + 1) st1
        refine ⟨EvEvent.GetBlockResultWithRetry currentHeight :: (mid ++ new), ?_, w5, w6,
          fun st2 a2 h => Or.inr (w7 st2 a2 h), ?_, ?_, ?_⟩
        · rw [w1, s1]; simp
        · intro hfail
          obtain ⟨u, v⟩ := s4 hfail
          simp [upsertedHeights, sentBlockEvents, upsertedHeights_append,
            sentBlockEvents_append, u, v, w3, w4]
        · intro r2 events b h1 h2 h3 h4
          cases h1
          obtain ⟨u, v⟩ := s5 events b h2 h3 h4
          simp [upsertedHeights, sentBlockEvents, upsertedHeights_append,
            sentBlockEvents_append, u, v, w3, w4]
        · intro r2 h1 h2
          cases h1
          obtain ⟨u, v⟩ := s6 h2
          simp [upsertedHeights, sentBlockEvents, upsertedHeights_append,
            sentBlockEvents_append, u, v, w3, w4]
      · rw [if_neg hgt]
        refine ⟨EvEvent.GetBlockResultWithRetry currentHeight :: mid, by
          simpa [Iteration.state] using s1, ?_, by simp, by simp, ?_, ?_, ?_⟩
        · intro h lk st2 heq
          simp only [Iteration.next.injEq] at heq
          exact heq.1.symm
        · intro hfail
          obtain ⟨u, v⟩ := s4 hfail
          simp [upsertedHeights, sentBlockEvents, u, v]
        · intro r2 events b h1 h2 h3 h4
          cases h1
          obtain ⟨u, v⟩ := s5 events b h2 h3 h4
          simp [upsertedHeights, sentBlockEvents, u, v]
        · intro r2 h1 h2
          cases h1
          obtain ⟨u, v⟩ := s6 h2
          simp [upsertedHeights, sentBlockEvents, u, v]
    · rw [hsw] at s1 s3
      simp only [] at s1
      simp only [hsw]
      refine ⟨EvEvent.GetBlockResultWithRetry currentHeight :: mid, by
        simpa [Iteration.state] using s1, by simp, by simp,
        fun _ _ _ => Or.inl (s3 a rfl), ?_, ?_, ?_⟩
      · intro hfail
        obtain ⟨u, v⟩ := s4 hfail
        simp [upsertedHeights, sentBlockEvents, u, v]
      · intro r2 events b h1 h2 h3 h4
        cases h1
        obtain ⟨u, v⟩ := s5 events b h2 h3 h4
        simp [upsertedHeights, sentBlockEvents, u, v]
      · intro r2 h1 h2
        cases h1
        obtain ⟨u, v⟩ := s6 h2
        simp [upsertedHeights, sentBlockEvents, u, v]

/-- C21, at height 12 of the sample node, where all three steps succeed and
there is one relevant event. -/
theorem blockEventsIteration_outcomes_witness :
    ∃ new,
      (blockEventsIteration (sampleEventsEnv [] []) 3 12 100 freshEvents).state.trace
        = freshEvents.trace ++ new ∧
      (∀ h lk st1, blockEventsIteration (sampleEventsEnv [] []) 3 12 100 freshEvents
        = .next h lk st1 → h = 12 + 1) ∧
      (∀ h st1, blockEventsIteration (sampleEventsEnv [] []) 3 12 100 freshEvents
        = .sleeping h st1 → h = 12 + 1) ∧
      (∀ st1 a, blockEventsIteration (sampleEventsEnv [] []) 3 12 100 freshEvents
        = .aborted st1 a →
        (∃ e db1, (sampleEventsEnv [] []).UpsertFailedEventBlock freshEvents.db 12
          = (some e, db1)) ∨
        (∃ n e, (sampleEventsEnv [] []).GetLatestBlockHeight n = .error e)) ∧
      (BlockEventsFail (sampleEventsEnv [] []) 12 →
        upsertedHeights new = [12] ∧ sentBlockEvents new = []) ∧
      (∀ r events b, (sampleEventsEnv [] []).GetBlockResultWithRetry 12 = .ok r →
        (sampleEventsEnv [] []).ProcessRPCBlockEvents r = .ok events → events ≠ [] →
        (sampleEventsEnv [] []).GetBlock 12 = .ok b →
        upsertedHeights new = [] ∧
        sentBlockEvents new = [⟨events, b.Block.Time, 12⟩]) ∧
      (∀ r, (sampleEventsEnv [] []).GetBlockResultWithRetry 12 = .ok r →
        (sampleEventsEnv [] []).ProcessRPCBlockEvents r = .ok [] →
        upsertedHeights new = [] ∧ sentBlockEvents new = []) :=
  blockEventsIteration_outcomes (sampleEventsEnv [] []) 3 12 100 freshEvents
    (fun r h => by
      have h1 : r = ⟨12, []⟩ := by
        simp only [sampleEventsEnv] at h
        exact (Except.ok.inj h).symm
      rw [h1])

/-- A sample run of `indexBlockEvents`, evaluated, from height 12 to height 17:
a batch is sent for 12, the heights 13, 14 and 16 are stored as failed, the
heights 15 and 17 have no relevant event, and the loop returns. -/
theorem indexBlockEvents_sample_run :
    ∃ st, indexBlockEvents (sampleEventsEnv [] []) 12 17 20 freshEvents = .returned st ∧
      st.db = [16, 14, 13] ∧
      st.trace = [.latest 100,
        .GetBlockResultWithRetry 12, .GetBlock 12,
        .sendBlockEvents ⟨[⟨"block event"⟩], ⟨1700000012⟩, 12⟩,
        .GetBlockResultWithRetry 13, .failedBlockHandler 13, .UpsertFailedEventBlock 13,
        .GetBlockResultWithRetry 14, .failedBlockHandler 14, .UpsertFailedEventBlock 14,
        .GetBlockResultWithRetry 15,
        .GetBlockResultWithRetry 16, .GetBlock 16, .failedBlockHandler 16,
        .UpsertFailedEventBlock 16,
        .GetBlockResultWithRetry 17] := by
  refine ⟨_, rfl, ?_, ?_⟩
  · decide
  · decide

/-! ## The epoch-event loop -/

/-- One iteration of the epoch loop, at an epoch for whose start height the
node answers with the block results of that height: its events are what the
spec asks for the epoch, and the process is ended only when the failed event
block cannot be stored. -/
theorem epochEventsIteration_spec {σ : Type} (env : EventsEnv σ) (identifier : String)
    (st : EvState σ) (epoch : Epoch)
    (hnode : ∀ r, env.GetBlockResultWithRetry epoch.StartHeight = .ok r →
      r.Height = epoch.StartHeight) :
    ∃ segment,
      (epochEventsIteration env identifier st epoch).1.trace = st.trace ++ segment ∧
      EpochHandled env identifier epoch segment ∧
      (∀ a, (epochEventsIteration env identifier st epoch).2 = some a →
        ∃ db e db1, env.UpsertFailedEventBlock db epoch.StartHeight = (some e, db1)) := by
  unfold epochEventsIteration EpochHandled
  simp only []
  cases hfetch : env.GetBlockResultWithRetry epoch.StartHeight with
  | error e =>
    obtain ⟨f1, f2⟩ := failedEventBlock_spec env
      ⟨st.db, st.trace ++ [EvEvent.GetBlockResultWithRetry epoch.StartHeight], st.calls⟩
      epoch.StartHeight
    refine ⟨[EvEvent.GetBlockResultWithRetry epoch.StartHeight,
      EvEvent.failedBlockHandler epoch.StartHeight,
      EvEvent.UpsertFailedEventBlock epoch.StartHeight], by simpa using f1,
      ⟨fun _ => ⟨rfl, rfl⟩, fun r _ _ h => by cases h⟩, fun a ha => ?_⟩
    obtain ⟨e1, db1, h1⟩ := f2 a ha
    exact ⟨_, e1, db1, h1⟩
  | ok r =>
    have hr := hnode r hfetch
    simp only []
    cases hparse : env.ProcessRPCEpochEvents r identifier with
    | error e =>
      obtain ⟨f1, f2⟩ := failedEventBlock_spec env
        ⟨st.db, st.trace ++ [EvEvent.GetBlockResultWithRetry epoch.StartHeight], st.calls⟩
        epoch.StartHeight
      refine ⟨[EvEvent.GetBlockResultWithRetry epoch.StartHeight,
        EvEvent.failedBlockHandler epoch.StartHeight,
        EvEvent.UpsertFailedEventBlock epoch.StartHeight], by simpa using f1,
        ⟨fun _ => ⟨rfl, rfl⟩, fun r2 relevant b h1 h2 _ => ?_⟩, fun a ha => ?_⟩
      · cases h1; rw [hparse] at h2; cases h2
      · obtain ⟨e1, db1, h1⟩ := f2 a ha
        exact ⟨_, e1, db1, h1⟩
    | ok relevant =>
      simp only []
      rw [hr]
      cases hblock : env.GetBlock epoch.StartHeight with
      | error e =>
        obtain ⟨f1, f2⟩ := failedEventBlock_spec env
          ⟨st.db, (st.trace ++ [EvEvent.GetBlockResultWithRetry epoch.StartHeight])
            ++ [EvEvent.GetBlock epoch.StartHeight], st.calls⟩ epoch.StartHeight
        refine ⟨[EvEvent.GetBlockResultWithRetry epoch.StartHeight,
          EvEvent.GetBlock epoch.StartHeight,
          EvEvent.failedBlockHandler epoch.StartHeight,
          EvEvent.UpsertFailedEventBlock epoch.StartHeight], by simpa using f1,
          ⟨fun _ => ⟨rfl, rfl⟩, fun r2 rel2 b _ _ h3 => by cases h3⟩,
          fun a ha => ?_⟩
        obtain ⟨e1, db1, h1⟩ := f2 a ha
        exact ⟨_, e1, db1, h1⟩
      | ok b =>
        refine ⟨[EvEvent.GetBlockResultWithRetry epoch.StartHeight,
          EvEvent.GetBlock epoch.StartHeight,
          EvEvent.sendEpochEvents
            ⟨relevant, b.Block.Time, epoch.StartHeight, identifier, epoch.EpochNumber⟩],
          by simp, ⟨?_, fun r2 rel2 b2 h1 h2 h3 => ?_⟩, by simp⟩
        · rintro (⟨e, he⟩ | ⟨r2, e, h1, h2⟩ | ⟨r2, ev2, e, h1, h2, h3⟩)
          · rw [hfetch] at he; cases he
          · rw [hfetch] at h1; cases h1; rw [hparse] at h2; cases h2
          · rw [hblock] at h3; cases h3
        · cases h1; rw [hparse] at h2; cases h2; cases h3
          exact ⟨rfl, rfl⟩

/-- The epoch loop handles the epochs in the order of the list, each as the
spec asks, up to the epoch at which it ends the process, if it does. -/
theorem epochEventsLoop_spec {σ : Type} (env : EventsEnv σ) (identifier : String) :
    ∀ (epochs : List Epoch) (st : EvState σ),
      (∀ epoch ∈ epochs, ∀ r, env.GetBlockResultWithRetry epoch.StartHeight = .ok r →
        r.Height = epoch.StartHeight) →
      ∃ segments : List (List EvEvent),
        (epochEventsLoop env identifier epochs st).1.trace = st.trace ++ segments.flatten ∧
        List.Forall₂ (EpochHandled env identifier) (epochs.take segments.length) segments ∧
        ((epochEventsLoop env identifier epochs st).2 = none →
          segments.length = epochs.length) ∧
        (∀ a, (epochEventsLoop env identifier epochs st).2 = some a →
          ∃ epoch ∈ epochs, ∃ db e db1,
            env.UpsertFailedEventBlock db epoch.StartHeight = (some e, db1)) := by
  intro epochs
  induction epochs with
  | nil =>
    intro st _
    exact ⟨[], by simp [epochEventsLoop], by simp, fun _ => rfl, by simp [epochEventsLoop]⟩
  | cons epoch rest ih =>
    intro st hnode
    obtain ⟨segment, i1, i2, i3⟩ := epochEventsIteration_spec env identifier st epoch
      (hnode epoch (List.mem_cons_self _ _))
    unfold epochEventsLoop
    rcases hit : epochEventsIteration env identifier st epoch with ⟨st1, _ | a⟩
    · rw [hit] at i1 i3
      simp only [] at i1 ⊢
      obtain ⟨segments, l1, l2, l3, l4⟩ := ih st1
        (fun e he => hnode e (List.mem_cons_of_mem _ he))
      refine ⟨segment :: segments, ?_, ?_, ?_, ?_⟩
      · rw [l1, i1]; simp
      · simpa using ⟨i2, l2⟩
      · intro h; simp [l3 h]
      · intro a ha
        obtain ⟨e, he, hx⟩ := l4 a ha
        exact ⟨e, List.mem_cons_of_mem _ he, hx⟩
    · rw [hit] at i1 i3
      simp only [] at i1 ⊢
      refine ⟨[segment], by simpa using i1, by simpa using i2, by simp, ?_⟩
      intro a2 _
      exact ⟨epoch, List.mem_cons_self _ _, i3 a rfl⟩

/-- C22: for the list of unindexed epochs `indexEpochEvents` reads, and a node
that answers for the start height of each with the block results of that
height, the events of the run are those of the epochs in the order of the
list, one segment for each epoch up to the one at which the process is ended,
if it is; in its segment an epoch has either one batch sent, with its number,
the identifier, the parsed events and the time of the block at its start
height, and nothing stored as failed, or, when a fetch or the parsing fails,
one failed event block stored at its start height and nothing sent. The
process is ended only when a failed event block cannot be stored. -/
theorem indexEpochEvents_in_order {σ : Type} (env : EventsEnv σ) (chainID : Nat)
    (startEpoch endEpoch : Int) (identifier : String) (st : EvState σ) (epochs : List Epoch)
    (hread : GetUnindexedEpochsAtIdentifierBetweenStartAndEnd env st.db chainID identifier
      startEpoch endEpoch = .ok epochs)
    (hnode : ∀ epoch ∈ epochs, ∀ r, env.GetBlockResultWithRetry epoch.StartHeight = .ok r →
      r.Height = epoch.StartHeight) :
    ∃ segments : List (List EvEvent),
      (indexEpochEvents env chainID startEpoch endEpoch identifier st).1.trace
        = st.trace ++ segments.flatten ∧
      List.Forall₂ (EpochHandled env identifier) (epochs.take segments.length) segments ∧
      ((indexEpochEvents env chainID startEpoch endEpoch identifier st).2 = none →
        segments.length = epochs.length) ∧
      (∀ a, (indexEpochEvents env chainID startEpoch endEpoch identifier st).2 = some a →
        ∃ epoch ∈ epochs, ∃ db e db1,
          env.UpsertFailedEventBlock db epoch.StartHeight = (some e, db1)) := by
  unfold indexEpochEvents
  rw [hread]
  simp only []
  by_cases hlen : epochs.length = 0
  · rw [if_pos hlen]
    have hnil : epochs = [] := List.length_eq_zero.mp hlen
    subst hnil
    exact ⟨[], by simp, by simp, fun _ => rfl, by simp⟩
  · rw [if_neg hlen]
    exact epochEventsLoop_spec env identifier epochs st hnode

/-- C22, for the epochs 7 and 8 of the identifier `day`, which start at the
heights 12 and 13 of the sample node. -/
theorem indexEpochEvents_in_order_witness :
    ∃ segments : List (List EvEvent),
      (indexEpochEvents (sampleEventsEnv [] [sampleEpoch 7 12, sampleEpoch 8 13]) 1 0 100 "day"
        freshEvents).1.trace = freshEvents.trace ++ segments.flatten ∧
      List.Forall₂
        (EpochHandled (sampleEventsEnv [] [sampleEpoch 7 12, sampleEpoch 8 13]) "day")
        ([sampleEpoch 7 12, sampleEpoch 8 13].take segments.length) segments ∧
      ((indexEpochEvents (sampleEventsEnv [] [sampleEpoch 7 12, sampleEpoch 8 13]) 1 0 100 "day"
        freshEvents).2 = none →
        segments.length = [sampleEpoch 7 12, sampleEpoch 8 13].length) ∧
      (∀ a, (indexEpochEvents (sampleEventsEnv [] [sampleEpoch 7 12, sampleEpoch 8 13]) 1 0 100
        "day" freshEvents).2 = some a →
        ∃ epoch ∈ [sampleEpoch 7 12, sampleEpoch 8 13], ∃ db e db1,
          (sampleEventsEnv [] [sampleEpoch 7 12, sampleEpoch 8 13]).UpsertFailedEventBlock db
            epoch.StartHeight = (some e, db1)) :=
  indexEpochEvents_in_order (sampleEventsEnv [] [sampleEpoch 7 12, sampleEpoch 8 13]) 1 0 100
    "day" freshEvents [sampleEpoch 7 12, sampleEpoch 8 13] rfl
    (fun epoch he r h => by
      simp only [List.mem_cons, List.mem_singleton, List.not_mem_nil, or_false] at he
      rcases he with rfl | rfl
      · have h1 : r = ⟨12, []⟩ := (Except.ok.inj h).symm
        rw [h1]; rfl
      · exact absurd h (by simp [sampleEventsEnv, sampleEpoch]))

/-- A sample run of `indexEpochEvents`, evaluated: of the four unindexed epochs
of the identifier `day`, in the order of the table, the first and the last have
a batch sent, and the start heights 13 and 16 of the other two are stored as
failed; the epoch of another identifier is not read. -/
theorem indexEpochEvents_sample_run :
    (indexEpochEvents (sampleEventsEnv [] [sampleEpoch 7 12, sampleEpoch 8 13,
        ⟨9, 15, "week", 1, false⟩, sampleEpoch 10 16, sampleEpoch 11 17]) 1 0 100 "day"
      freshEvents).1.trace
      = [.GetBlockResultWithRetry 12, .GetBlock 12,
          .sendEpochEvents ⟨[⟨"epoch event"⟩], ⟨1700000012⟩, 12, "day", 7⟩,
          .GetBlockResultWithRetry 13, .failedBlockHandler 13, .UpsertFailedEventBlock 13,
          .GetBlockResultWithRetry 16, .GetBlock 16, .failedBlockHandler 16,
          .UpsertFailedEventBlock 16,
          .GetBlockResultWithRetry 17, .GetBlock 17,
          .sendEpochEvents ⟨[⟨"epoch event"⟩], ⟨1700000017⟩, 17, "day", 11⟩] ∧
    (indexEpochEvents (sampleEventsEnv [] [sampleEpoch 7 12, sampleEpoch 8 13,
        ⟨9, 15, "week", 1, false⟩, sampleEpoch 10 16, sampleEpoch 11 17]) 1 0 100 "day"
      freshEvents).2 = none := by
  refine ⟨by decide, by decide⟩

/-! ## The payer of a multisig transaction -/

theorem containsChars_append_left (a b p : List Char) (h : containsChars b p = true) :
    containsChars (a ++ b) p = true := by
  induction a with
  | nil => exact h
  | cons c cs ih => simp [containsChars, ih]

theorem containsChars_append_right (a b p : List Char) (h : containsChars a p = true) :
    containsChars (a ++ b) p = true := by
  induction a with
  | nil =>
    have hp : p = [] := by simpa [containsChars] using h
    subst hp
    cases b with
    | nil => rfl
    | cons c cs => simp [containsChars]
  | cons c cs ih =>
    simp only [containsChars, Bool.or_eq_true] at h
    simp only [List.cons_append, containsChars, Bool.or_eq_true]
    rcases h with h | h
    · left
      rw [List.isPrefixOf_iff_prefix] at h ⊢
      exact h.trans (List.prefix_append _ _)
    · right
      exact ih h

theorem stringsContains_append_left (a b p : String) (h : stringsContains b p = true) :
    stringsContains (a ++ b) p = true := by
  unfold stringsContains at h ⊢
  simp only [String.toList, String.data_append] at h ⊢
  exact containsChars_append_left _ _ _ h

theorem stringsContains_append_right (a b p : String) (h : stringsContains a p = true) :
    stringsContains (a ++ b) p = true := by
  unfold stringsContains at h ⊢
  simp only [String.toList, String.data_append] at h ⊢
  exact containsChars_append_right _ _ _ h

/-- The text of a multi mode info with a signer in legacy-amino mode has that
mode in it. -/
theorem modeInfosText_contains (ms : List ModeInfo)
    (h : ModeInfo.single SignMode.SIGN_MODE_LEGACY_AMINO_JSON ∈ ms) :
    stringsContains (modeInfosText ms) "mode:SIGN_MODE_LEGACY_AMINO_JSON" = true := by
  induction ms with
  | nil => exact absurd h (List.not_mem_nil _)
  | cons m rest ih =>
    rw [modeInfosText]
    rcases List.mem_cons.mp h with h1 | h1
    · rw [← h1]
      apply stringsContains_append_right
      apply stringsContains_append_right
      apply stringsContains_append_left
      decide
    · exact stringsContains_append_left _ _ _ (ih h1)

/-- C23, as stated, fails: the fee names no payer, the first signer info has a
multi mode info and a legacy-amino multisig key, and both signers of the
multisig are recorded in direct mode; the payer of the fee is derived from the
multisig key itself, not from its first inner key. -/
theorem ProcessFees_multisig_direct_mode :
    ProcessFees sampleEnv ["uatom"]
        (authInfoOf (some (some (.legacyAminoPubKey sampleKey [sampleInnerKey])))
          (some (.multi [.single .SIGN_MODE_DIRECT, .single .SIGN_MODE_DIRECT]))
          ⟨[⟨"uatom", 5000⟩], ""⟩) [⟨[7]⟩]
      = .ok (([⟨5000, ⟨1, "uatom"⟩, ⟨derivedAddress sampleEnv sampleKey⟩⟩], none), ["uatom"]) ∧
    derivedAddress sampleEnv sampleKey ≠ derivedAddress sampleEnv sampleInnerKey :=
  ⟨rfl, by decide⟩

/-- C23, amended: for an auth info without a named payer whose first signer
info has a multi mode info and a legacy-amino multisig key with at least one
inner key, the payer address of every fee `ProcessFees` returns is derived from
the first inner key when the text of the multi mode info has the mode
`SIGN_MODE_LEGACY_AMINO_JSON` in it, and from the multisig key itself when it
has not; the text has that mode in it when one of the signers of the multisig
is recorded with it. -/
theorem ProcessFees_multisig_payer {σ : Type} (env : Env σ) (db : σ) (authInfo : AuthInfo)
    (signers : List AccAddress) (fees : List DbFee) (err : Option GoError) (db1 : σ)
    (first : SignerInfo) (rest : List SignerInfo) (own k : PubKey) (inner : List PubKey)
    (ms : List ModeInfo)
    (hpayer : authInfo.Fee.Payer = "")
    (hfirst : authInfo.SignerInfos = first :: rest)
    (hmode : first.ModeInfo = some (.multi ms))
    (hkey : first.PublicKey = some (some (.legacyAminoPubKey own (k :: inner))))
    (h : ProcessFees env db authInfo signers = .ok ((fees, err), db1)) :
    (∀ fee ∈ fees,
      (stringsContains (modeInfosText ms) "mode:SIGN_MODE_LEGACY_AMINO_JSON" = true →
        fee.PayerAddress.Address = derivedAddress env k) ∧
      (stringsContains (modeInfosText ms) "mode:SIGN_MODE_LEGACY_AMINO_JSON" = false →
        fee.PayerAddress.Address = derivedAddress env own)) ∧
    (ModeInfo.single SignMode.SIGN_MODE_LEGACY_AMINO_JSON ∈ ms →
      stringsContains (modeInfosText ms) "mode:SIGN_MODE_LEGACY_AMINO_JSON" = true) := by
  refine ⟨?_, modeInfosText_contains ms⟩
  refine feesLoop_forall env authInfo signers _ authInfo.Fee.Amount db [] fees err db1 ?_ ?_ h
  · intro coin _ _ denom payer hp
    obtain ⟨first1, rest1, hsi, _, hk⟩ := (payerAddr_cases env authInfo signers payer hp).2 hpayer
    rw [hfirst] at hsi
    obtain ⟨rfl, _⟩ := List.cons.inj hsi
    obtain ⟨k1, hk1, haddr⟩ := hk (by rw [hkey]; simp)
    have htext : ModeInfo.multiString first.ModeInfo = modeInfosText ms := by
      rw [hmode]; rfl
    unfold IsPayerKey at hk1
    rw [htext, hkey] at hk1
    show (_ → payer.Address = _) ∧ (_ → payer.Address = _)
    rcases hk1 with ⟨hc, own1, rest2, he⟩ | ⟨hc, he | ⟨inner1, he⟩⟩
    · simp only [Option.some.injEq, CachedKey.legacyAminoPubKey.injEq, List.cons.injEq] at he
      refine ⟨fun _ => by rw [haddr, he.2.1], fun hf => ?_⟩
      rw [hc] at hf; cases hf
    · simp at he
    · simp only [Option.some.injEq, CachedKey.legacyAminoPubKey.injEq] at he
      refine ⟨fun ht => ?_, fun _ => by rw [haddr, he.1]⟩
      rw [hc] at ht; cases ht
  · intro fee hfee
    exact absurd hfee (List.not_mem_nil _)

/-- C23, amended, on a multisig of which the second signer is recorded in
legacy-amino mode: the payer is derived from the first inner key. -/
theorem ProcessFees_multisig_payer_witness :
    (∀ fee ∈ [(⟨5000, ⟨1, "uatom"⟩, ⟨derivedAddress sampleEnv sampleInnerKey⟩⟩ : DbFee)],
      (stringsContains
          (modeInfosText [.single .SIGN_MODE_DIRECT, .single .SIGN_MODE_LEGACY_AMINO_JSON])
          "mode:SIGN_MODE_LEGACY_AMINO_JSON" = true →
        fee.PayerAddress.Address = derivedAddress sampleEnv sampleInnerKey) ∧
      (stringsContains
          (modeInfosText [.single .SIGN_MODE_DIRECT, .single .SIGN_MODE_LEGACY_AMINO_JSON])
          "mode:SIGN_MODE_LEGACY_AMINO_JSON" = false →
        fee.PayerAddress.Address = derivedAddress sampleEnv sampleKey)) ∧
    (ModeInfo.single SignMode.SIGN_MODE_LEGACY_AMINO_JSON
        ∈ [ModeInfo.single .SIGN_MODE_DIRECT, .single .SIGN_MODE_LEGACY_AMINO_JSON] →
      stringsContains
        (modeInfosText [.single .SIGN_MODE_DIRECT, .single .SIGN_MODE_LEGACY_AMINO_JSON])
        "mode:SIGN_MODE_LEGACY_AMINO_JSON" = true) :=
  ProcessFees_multisig_payer sampleEnv ["uatom"]
    (authInfoOf (some (some (.legacyAminoPubKey sampleKey [sampleInnerKey])))
      (some (.multi [.single .SIGN_MODE_DIRECT, .single .SIGN_MODE_LEGACY_AMINO_JSON]))
      ⟨[⟨"uatom", 5000⟩], ""⟩)
    [⟨[7]⟩] [⟨5000, ⟨1, "uatom"⟩, ⟨derivedAddress sampleEnv sampleInnerKey⟩⟩] none ["uatom"]
    ⟨some (some (.legacyAminoPubKey sampleKey [sampleInnerKey])),
      some (.multi [.single .SIGN_MODE_DIRECT, .single .SIGN_MODE_LEGACY_AMINO_JSON])⟩ []
    sampleKey sampleInnerKey []
    [.single .SIGN_MODE_DIRECT, .single .SIGN_MODE_LEGACY_AMINO_JSON] rfl rfl rfl rfl rfl

/-! ## Faults in the fee and message loops -/

/-- Without a named payer and without a signer info the payer rule indexes an
empty list. -/
theorem payerAddr_no_signer_info {σ : Type} (env : Env σ) (authInfo : AuthInfo)
    (signers : List AccAddress) (hpayer : authInfo.Fee.Payer = "")
    (hnone : authInfo.SignerInfos = []) :
    payerAddr env authInfo signers = .error (.panic "index out of range [0] with length 0") := by
  unfold payerAddr
  rw [if_neg (by simp [hpayer]), hnone]

/-- Without a named payer, without a public key in the first signer info and
without a signer, the payer rule asserts the type of a nil value. -/
theorem payerAddr_no_key_no_signer {σ : Type} (env : Env σ) (authInfo : AuthInfo)
    (first : SignerInfo) (rest : List SignerInfo) (hpayer : authInfo.Fee.Payer = "")
    (hfirst : authInfo.SignerInfos = first :: rest) (hkey : first.PublicKey = none) :
    ∃ msg, payerAddr env authInfo [] = .error (.panic msg) := by
  have hs : ∃ msg, signerPubKey first = .error (.panic msg) := by
    unfold signerPubKey
    simp only [hkey]
    by_cases hc : stringsContains (ModeInfo.multiString first.ModeInfo)
        "mode:SIGN_MODE_LEGACY_AMINO_JSON" = true
    · rw [if_pos hc]; exact ⟨_, rfl⟩
    · rw [if_neg hc]; exact ⟨_, rfl⟩
  obtain ⟨msg, hs⟩ := hs
  unfold payerAddr
  rw [if_neg (by simp [hpayer]), hfirst]
  simp only [hkey, hs]
  exact ⟨msg, rfl⟩

/-- A panic of the payer rule is a panic of `ProcessFees` as soon as a fee coin
has a non-zero amount and the denominations can be looked up or added. -/
theorem feesLoop_panics {σ : Type} (env : Env σ) (authInfo : AuthInfo)
    (signers : List AccAddress) (a : Abort) (hp : payerAddr env authInfo signers = .error a)
    (hdenom : ∀ db base, ∃ denom db1, lookupOrAddDenom env db base = (.ok denom, db1)) :
    ∀ (coins : List Coin) (db : σ) (fees : List DbFee), (∃ coin ∈ coins, coin.Amount ≠ 0) →
      feesLoop env authInfo signers coins db fees = .error a := by
  intro coins
  induction coins with
  | nil => intro _ _ ⟨c, hc, _⟩; exact absurd hc (List.not_mem_nil _)
  | cons coin rest ih =>
    intro db fees hex
    unfold feesLoop
    by_cases hz : coin.Amount ≠ 0
    · rw [if_pos hz]
      obtain ⟨denom, db1, hl⟩ := hdenom db coin.Denom
      simp only [hl, hp]
    · rw [if_neg hz]
      obtain ⟨c, hc, hne⟩ := hex
      rcases List.mem_cons.mp hc with h1 | h1
      · rw [h1] at hne; exact absurd hne hz
      · exact ih db fees ⟨c, h1, hne⟩

/-- C24 fails on two inputs: a fee of 5000uatom without a named payer in an
auth info without signer infos, on which `ProcessFees` indexes the empty list
of signer infos; and the same fee in an auth info whose first signer info has
no public key, with no signer, on which it asserts the type of the nil cached
value. Both end in a panic. -/
theorem ProcessFees_panics_without_signer_key :
    ProcessFees sampleEnv ["uatom"] ⟨[], ⟨[⟨"uatom", 5000⟩], ""⟩⟩ [⟨[7]⟩]
      = .error (.panic "index out of range [0] with length 0") ∧
    ProcessFees sampleEnv ["uatom"]
        (authInfoOf none (some (.single .SIGN_MODE_DIRECT)) ⟨[⟨"uatom", 5000⟩], ""⟩) []
      = .error (.panic "interface conversion: not cryptoTypes.PubKey") :=
  ⟨rfl, rfl⟩

/-- With code zero and fewer log entries than messages left, the message loop
of `ProcessRPCBlockByHeightTXs` indexes the log list out of range. -/
theorem blockTxMessages_short_log (logs : List ABCIMessageLog) :
    ∀ (msgs : List Msg) (msgIdx : Nat) (currMessages : List Msg) (currLogMsgs : List LogMessage),
      msgIdx ≤ logs.length → logs.length < msgIdx + msgs.length →
      blockTxMessages 0 logs msgIdx (msgs.map some) currMessages currLogMsgs
        = .error (.panic "index out of range") := by
  intro msgs
  induction msgs with
  | nil => intro msgIdx _ _ h1 h2; simp at h2; omega
  | cons m rest ih =>
    intro msgIdx cm cl h1 h2
    simp only [List.map_cons, blockTxMessages, if_true]
    cases hget : logs.get? msgIdx with
    | none => rfl
    | some l =>
      simp only []
      have hlt : msgIdx < logs.length := by
        by_contra hge
        rw [List.get?_eq_none.mpr (by omega)] at hget
        cases hget
      refine ih (msgIdx + 1) _ _ (by omega) ?_
      simp only [List.length_cons] at h2
      omega

/-- C25 fails on a block with one transaction of two messages and code zero
whose log parses to one entry: `ProcessRPCBlockByHeightTXs` indexes the log at
position 1 and panics, while the message loop of `ProcessRPCTXs`, on the same
messages and log, builds the one log message there is. -/
theorem ProcessRPCBlockByHeightTXs_short_log_panics :
    sampleEnv.ParseABCILogs "one message, no events" = .ok [⟨0, "", []⟩] ∧
    (sampleDecode ⟨[1, 2]⟩).Messages
      = [some ⟨"/cosmos.bank.v1beta1.MsgSend", [1]⟩, some ⟨"/cosmos.bank.v1beta1.MsgSend", [2]⟩] ∧
    ProcessRPCBlockByHeightTXs sampleEnv
        (registryOf "/cosmos.bank.v1beta1.MsgSend" [acceptingHandler]) [] (sampleState ["uatom"])
        ⟨⟨100, ⟨1700000000⟩, [⟨[1, 2]⟩]⟩⟩ ⟨100, [⟨0, "one message, no events"⟩]⟩
      = .error (.panic "index out of range") ∧
    rpcTxMessages [⟨0, "", []⟩] 0 (sampleDecode ⟨[1, 2]⟩).Messages [] []
      = some ([⟨"/cosmos.bank.v1beta1.MsgSend", [1]⟩, ⟨"/cosmos.bank.v1beta1.MsgSend", [2]⟩],
          [⟨0, []⟩]) :=
  ⟨rfl, rfl, rfl, rfl⟩

/-! ## A nil error and its decoder -/

/-- Every list of the literal `messageTypeHandler` has exactly one factory. -/
theorem initialMessageTypeHandler_one_factory (core : List (String × HandlerFunc))
    (key : String) (list : List HandlerFunc)
    (h : initialMessageTypeHandler core key = some list) : ∃ f, list = [f] := by
  unfold initialMessageTypeHandler at h
  cases hfind : core.find? (fun e => e.1 == key) with
  | none => rw [hfind] at h; cases h
  | some e => rw [hfind] at h; exact ⟨e.2, (Option.some.inj h).symm⟩

/-- One step of the bootstrap loop leaves a list empty only where the list was
empty before, or where no list was and the chain table has an empty one. -/
theorem bootstrapStep_empty (reg : Registry) (e : String × List HandlerFunc) (key : String)
    (h : bootstrapStep reg e key = some []) :
    reg key = some [] ∨ (reg key = none ∧ e = (key, [])) := by
  by_cases hk : key = e.1
  · subst hk
    rw [bootstrapStep_self] at h
    have h2 := Option.some.inj h
    rw [List.append_eq_nil] at h2
    cases hr : reg e.1 with
    | none => exact Or.inr ⟨rfl, Prod.ext rfl h2.1⟩
    | some l =>
      rw [hr] at h2
      exact Or.inl (by rw [show l = [] from h2.2])
  · rw [bootstrapStep_other reg e key hk] at h
    exact Or.inl h

/-- One step of the bootstrap loop registers every key it is given. -/
theorem bootstrapStep_none (reg : Registry) (e : String × List HandlerFunc) (key : String)
    (h : bootstrapStep reg e key = none) : reg key = none := by
  by_cases hk : key = e.1
  · subst hk
    rw [bootstrapStep_self] at h
    cases h
  · rw [bootstrapStep_other reg e key hk] at h
    exact h

/-- The bootstrap loop leaves a list empty only where the list was empty
before, or where no list was and the chain table has an empty one. -/
theorem foldl_bootstrapStep_empty (key : String) :
    ∀ (entries : List (String × List HandlerFunc)) (reg : Registry),
      entries.foldl bootstrapStep reg key = some [] →
      reg key = some [] ∨ (reg key = none ∧ (key, []) ∈ entries) := by
  intro entries
  induction entries with
  | nil => intro reg h; exact Or.inl h
  | cons e rest ih =>
    intro reg h
    rw [List.foldl_cons] at h
    rcases ih _ h with h1 | ⟨h1, h2⟩
    · rcases bootstrapStep_empty reg e key h1 with h3 | ⟨h3, h4⟩
      · exact Or.inl h3
      · exact Or.inr ⟨h3, by rw [h4]; exact List.mem_cons_self _ _⟩
    · exact Or.inr ⟨bootstrapStep_none reg e key h1, List.mem_cons_of_mem _ h2⟩

/-- After the bootstrap of the literal, a type URL has an empty list only when
it is not in the literal and the chain is the Osmosis chain, whose table has
the type URL with an empty list: line 133 has copied that list. -/
theorem ChainSpecificMessageTypeHandlerBootstrap_empty_list (osmosisChainID : String)
    (osmosisMessageTypeHandler : HandlerTable) (core : List (String × HandlerFunc))
    (chainID : String) (key : String)
    (h : ChainSpecificMessageTypeHandlerBootstrap osmosisChainID osmosisMessageTypeHandler
        (initialMessageTypeHandler core) chainID key = some []) :
    initialMessageTypeHandler core key = none ∧ chainID = osmosisChainID ∧
      (key, []) ∈ osmosisMessageTypeHandler.entries := by
  unfold ChainSpecificMessageTypeHandlerBootstrap at h
  by_cases hid : chainID = osmosisChainID
  · simp only [hid, if_true] at h
    rcases foldl_bootstrapStep_empty key _ _ h with h1 | ⟨h1, h2⟩
    · obtain ⟨f, hf⟩ := initialMessageTypeHandler_one_factory core key [] h1
      cases hf
    · exact ⟨h1, hid, h2⟩
  · simp only [hid, if_false] at h
    rcases foldl_bootstrapStep_empty key _ _ h with h1 | ⟨_, h2⟩
    · obtain ⟨f, hf⟩ := initialMessageTypeHandler_one_factory core key [] h1
      cases hf
    · exact absurd h2 (List.not_mem_nil _)

/-- The inner loop sends the wanted heights among the next `k` from the current
block on, for some `k`, and leaves the current block advanced by `k`, whatever
the end block and the answers of the node are. -/
theorem sendLoop_sends (cfg : Base) (db : Database) (chainID : Nat) (w : Surroundings)
    (cap : Nat) (latestBlock : Int) :
    ∀ (fuel : Nat) (currBlock : Int) (s : EnqState), ∃ k : Nat,
      (sendLoop cfg db chainID w cap latestBlock fuel currBlock s).2.trace
        = s.trace ++ (toSend cfg db chainID currBlock k).map EnqEvent.send ∧
      ∀ c, (sendLoop cfg db chainID w cap latestBlock fuel currBlock s).1 = some c →
        c = currBlock + k := by
  intro fuel
  induction fuel with
  | zero => intro c s; exact ⟨0, by simp [sendLoop, toSend, heightsFrom], by simp [sendLoop]⟩
  | succ fuel ih =>
    intro c s
    unfold sendLoop
    by_cases hcond : c ≤ latestBlock ∧ (c ≤ cfg.EndBlock ∨ cfg.EndBlock = -1)
    · rw [if_pos hcond]
      by_cases hlook : (s.look w).1 ≠ cap
      · rw [if_pos hlook]
        have hw := wanted_eq cfg db chainID c
        cases hskip : (!cfg.ReIndex && blockAlreadyIndexed c chainID db) with
        | true =>
          obtain ⟨k, h1, h3⟩ := ih (c + 1) (s.look w).2
          rw [hskip] at hw
          refine ⟨k + 1, ?_, fun c1 hc1 => ?_⟩
          · simp only [if_true, h1]
            simp [toSend, heightsFrom, hw, EnqState.look]
          · simp only [if_true] at hc1
            rw [h3 c1 hc1]; push_cast; ring
        | false =>
          obtain ⟨k, h1, h3⟩ := ih (c + 1) ((s.look w).2.send cap c)
          rw [hskip] at hw
          refine ⟨k + 1, ?_, fun c1 hc1 => ?_⟩
          · simp only [Bool.false_eq_true, if_false, h1]
            simp [toSend, heightsFrom, hw, EnqState.look, EnqState.send]
          · simp only [Bool.false_eq_true, if_false] at hc1
            rw [h3 c1 hc1]; push_cast; ring
      · rw [if_neg hlook]
        exact ⟨0, by simp [toSend, heightsFrom, EnqState.look], by simp⟩
    · rw [if_neg hcond]
      exact ⟨0, by simp [toSend, heightsFrom], by simp⟩

/-- The heights the live loop sends are the wanted heights among the next `k`
from its current block on, for some `k`. -/
theorem liveLoop_sends (cfg : Base) (db : Database) (chainID : Nat) (w : Surroundings)
    (cap : Nat) :
    ∀ (fuel : Nat) (currBlock latestBlock : Int) (s : EnqState), ∃ (k : Nat) (new : List EnqEvent),
      (liveLoop cfg db chainID w cap fuel currBlock latestBlock s).state.trace
        = s.trace ++ new ∧
      sentHeights new = toSend cfg db chainID currBlock k := by
  intro fuel
  induction fuel with
  | zero =>
    intro c lb s
    exact ⟨0, [], by simp [liveLoop, EnqResult.state], rfl⟩
  | succ fuel ih =>
    intro c lb s
    unfold liveLoop
    split
    · exact ⟨0, [], by simp [EnqResult.state], rfl⟩
    split
    · exact ⟨0, [], by simp [EnqResult.state], rfl⟩
    split
    · cases hans : w.GetLatestBlockHeight (s.look w).2.calls with
      | error e => exact ⟨0, [], by simp [EnqResult.state, EnqState.look], rfl⟩
      | ok latest =>
        obtain ⟨k1, t1, c1⟩ := sendLoop_sends cfg db chainID w cap latest fuel c
          ⟨(s.look w).2.trace ++ [EnqEvent.latest latest], (s.look w).2.len,
            (s.look w).2.looks, (s.look w).2.calls + 1⟩
        rcases hsl : sendLoop cfg db chainID w cap latest fuel c
          ⟨(s.look w).2.trace ++ [EnqEvent.latest latest], (s.look w).2.len,
            (s.look w).2.looks, (s.look w).2.calls + 1⟩ with ⟨_ | c2, s2⟩
        · rw [hsl] at t1
          simp only [hsl]
          refine ⟨k1, EnqEvent.latest latest :: (toSend cfg db chainID c k1).map EnqEvent.send,
            ?_, ?_⟩
          · simp only [EnqResult.state]
            simpa [EnqState.look] using t1
          · simp [sentHeights, sentHeights_sends]
        · rw [hsl] at t1 c1
          simp only [hsl]
          have hc2 := c1 c2 rfl
          obtain ⟨k2, new2, t2, sh2⟩ := ih c2 latest s2
          refine ⟨k1 + k2,
            EnqEvent.latest latest :: ((toSend cfg db chainID c k1).map EnqEvent.send ++ new2),
            ?_, ?_⟩
          · simp only [t2]
            simp only [] at t1
            rw [t1]
            simp [EnqState.look]
          · simp only [sentHeights, sentHeights_append, sentHeights_sends, sh2, toSend_add, hc2]
    · obtain ⟨k, new, t, sh⟩ := ih c lb (s.look w).2
      exact ⟨k, new, by simpa [EnqState.look] using t, sh⟩

/-- C27, as stated, fails: the blocks 1, 2, 3 and 5 are indexed, the Failure
Ledger holds the heights 2 and 7, and the range is 1 to 8. Height 7 is sent
while the ledger is drained and is sent again by the live loop. -/
theorem enqueueBlocksToProcess_sends_failed_height_twice :
    sentHeights (enqueueBlocksToProcess (sampleBase 1 8) (sampleDatabase [1, 2, 3, 5] [2, 7]) 1
      (calmSurroundings 10) 20 10 freshEnq).state.trace = [2, 7, 4, 6, 7, 8] ∧
    ¬ ([2, 7, 4, 6, 7, 8] : List Int).Nodup := by
  refine ⟨by decide, by decide⟩

/-- C27, amended: the events of a run of `enqueueBlocksToProcess` are those
before the starting height is determined, in which the heights of the Failure
Ledger are sent unless `PreventReattempts` is set, followed by the starting
height and the events of the live loop. The live loop sends strictly
increasing heights, none below the starting height and each one not already
indexed unless the run is in reindex mode, so it sends no height more than
once; and with `PreventReattempts` set no height is sent more than once in the
run. -/
theorem enqueueBlocksToProcess_live_sends_increase (cfg : Base) (db : Database)
    (chainID : Nat) (w : Surroundings) (cap fuel : Nat) (s : EnqState) :
    ∃ before after,
      (enqueueBlocksToProcess cfg db chainID w cap fuel s).state.trace
        = s.trace ++ before ++ after ∧
      (∀ height, EnqEvent.startingHeight height ∉ before) ∧
      sentHeights before
        = (if cfg.PreventReattempts = true then []
            else (GetFailedBlocks db chainID).map fun b => b.Height) ∧
      (sentHeights after).Pairwise (· < ·) ∧
      (after = [] ∨ ∃ start rest, after = EnqEvent.startingHeight start :: rest ∧
        ∀ h ∈ sentHeights after, start ≤ h ∧
          (cfg.ReIndex = true ∨ blockAlreadyIndexed h chainID db = false)) ∧
      (cfg.PreventReattempts = true → (sentHeights (before ++ after)).Nodup) := by
  have hpre : ∃ sends, sentHeights sends
        = (if cfg.PreventReattempts = true then []
            else (GetFailedBlocks db chainID).map fun b => b.Height) ∧
      (∀ e ∈ sends, ∃ height, e = EnqEvent.send height) ∧
      (if (!cfg.PreventReattempts) = true then enqueueFailedBlocks db chainID cap s else s).trace
        = s.trace ++ sends := by
    cases hp : cfg.PreventReattempts with
    | true => exact ⟨[], by simp [sentHeights], by simp, by simp⟩
    | false =>
      refine ⟨((GetFailedBlocks db chainID).map fun b => b.Height).map EnqEvent.send,
        (sentHeights_sends _).trans (by simp), ?_, by
          simp only [Bool.not_false, if_true]; exact enqueueFailedBlocks_trace db chainID cap s⟩
      intro e he
      simp only [List.map_map, List.mem_map, Function.comp] at he
      obtain ⟨b, _, hb⟩ := he
      exact ⟨b.Height, hb.symm⟩
  obtain ⟨sends, hs1, hs2, hs3⟩ := hpre
  have hnodup : ∀ (before after : List EnqEvent),
      sentHeights before = (if cfg.PreventReattempts = true then []
        else (GetFailedBlocks db chainID).map fun b => b.Height) →
      (sentHeights after).Pairwise (· < ·) →
      cfg.PreventReattempts = true → (sentHeights (before ++ after)).Nodup := by
    intro before after hb ha hp
    rw [sentHeights_append, hb, if_pos hp, List.nil_append]
    exact ha.imp (fun h => ne_of_lt h)
  unfold enqueueBlocksToProcess
  simp only []
  cases hg : GetIndexerStartingHeight cfg db chainID w
      (if (!cfg.PreventReattempts) = true then enqueueFailedBlocks db chainID cap s else s) with
  | error e =>
    refine ⟨sends, [], by simp only [EnqResult.state, List.append_nil]; exact hs3,
      fun height hmem => ?_, hs1, List.Pairwise.nil, Or.inl rfl,
      hnodup sends [] hs1 List.Pairwise.nil⟩
    obtain ⟨h1, h2⟩ := hs2 _ hmem
    cases h2
  | ok r =>
    obtain ⟨c, s2⟩ := r
    simp only []
    obtain ⟨k, new, hnew, hsent⟩ := liveLoop_sends cfg db chainID w cap fuel c MaxInt64
      { s2 with trace := s2.trace ++ [EnqEvent.startingHeight c] }
    have hlive : (sentHeights (EnqEvent.startingHeight c :: new)).Pairwise (· < ·) ∧
        ∀ h ∈ sentHeights (EnqEvent.startingHeight c :: new), c ≤ h ∧
          (cfg.ReIndex = true ∨ blockAlreadyIndexed h chainID db = false) := by
      simp only [sentHeights, hsent]
      refine ⟨toSend_pairwise cfg db chainID c k, fun h hh => ?_⟩
      have := (mem_toSend cfg db chainID c k h).1 hh
      exact ⟨this.1, this.2.2⟩
    rcases GetIndexerStartingHeight_trace cfg db chainID w _ c s2 hg with ht | ⟨latest, ht⟩
    · refine ⟨sends, EnqEvent.startingHeight c :: new, ?_, fun height hmem => ?_, hs1,
        hlive.1, Or.inr ⟨c, new, rfl, hlive.2⟩, hnodup _ _ hs1 hlive.1⟩
      · rw [hnew]; simp only [ht, hs3, List.append_assoc, List.singleton_append]
      · obtain ⟨h1, h2⟩ := hs2 _ hmem
        cases h2
    · have hb : sentHeights (sends ++ [EnqEvent.latest latest])
          = (if cfg.PreventReattempts = true then []
              else (GetFailedBlocks db chainID).map fun b => b.Height) := by
        rw [sentHeights_append, hs1]; simp [sentHeights]
      refine ⟨sends ++ [EnqEvent.latest latest], EnqEvent.startingHeight c :: new, ?_,
        fun height hmem => ?_, hb, hlive.1, Or.inr ⟨c, new, rfl, hlive.2⟩,
        hnodup _ _ hb hlive.1⟩
      · rw [hnew]; simp only [ht, hs3, List.append_assoc, List.singleton_append]; rfl
      · simp only [List.mem_append, List.mem_singleton] at hmem
        rcases hmem with hmem | hmem
        · obtain ⟨h1, h2⟩ := hs2 _ hmem
          cases h2
        · cases hmem

/-! ## The starting height and the sentinel -/

/-- With the start block -1, in reindex mode, and a node whose latest height
is not above the highest indexed height, `GetIndexerStartingHeight` returns
the start block as it is configured. -/
theorem GetIndexerStartingHeight_reindex_caught_up (cfg : Base) (db : Database) (chainID : Nat)
    (w : Surroundings) (s : EnqState) (latestBlock : Int)
    (hstart : cfg.StartBlock = -1) (hre : cfg.ReIndex = true)
    (hlatest : w.GetLatestBlockHeight s.calls = .ok latestBlock)
    (hcaught : ¬ (GetHighestIndexedBlock db chainID).Height < latestBlock) :
    GetIndexerStartingHeight cfg db chainID w s
      = .ok (-1, { s with calls := s.calls + 1,
                          trace := s.trace ++ [EnqEvent.latest latestBlock] }) := by
  unfold GetIndexerStartingHeight
  simp only [hstart, if_true, hlatest, hcaught, if_false, hre]

/-- C28 fails with the start block -1 in reindex mode, the blocks 1, 2 and 3
indexed and the node at height 3: `GetIndexerStartingHeight` returns -1, and
the live loop of `enqueueBlocksToProcess` goes on to send the heights -1 and
0. -/
theorem GetIndexerStartingHeight_returns_sentinel :
    GetIndexerStartingHeight { sampleBase (-1) (-1) with ReIndex := true }
        (sampleDatabase [1, 2, 3] []) 1 (calmSurroundings 3) freshEnq
      = .ok (-1, ⟨[.latest 3], 0, 0, 1⟩) ∧
    sentHeights (enqueueBlocksToProcess { sampleBase (-1) (-1) with ReIndex := true }
      (sampleDatabase [1, 2, 3] []) 1 (calmSurroundings 3) 20 10 freshEnq).state.trace
      = [-1, 0, 1, 2, 3] := by
  refine ⟨rfl, by decide⟩

end CosmosTaxCli
